import Mathlib

/-!
Verification of aiSystemPerformance.c : cycle timer, allocator ledger, node timing observer

A shallow embedding of `src/DNN/Src/aiSystemPerformance.c`.

Conventions of the embedding

* `uint32_t` and `uint64_t` values are natural numbers; every C operation that
  can wrap is followed by an explicit reduction modulo `2 ^ 32` or `2 ^ 64`.
* Hardware reads (`DWT->CYCCNT`, `HAL_GetTick()`, `HAL_RCC_GetHCLKFreq()`) and
  the result of `__real_malloc` are arguments of the function that performs
  the read: the caller of the model supplies what the hardware returned.
* Global C objects (`cyclesCount`, `ia_malloc`, `u_observer_ctx`, the heap)
  are passed in and returned explicitly.
-/

namespace AiSystemPerformance

/-! ## Machine integers -/

/-- Number of values of a `uint32_t`. -/
def U32 : Nat := 2 ^ 32

/-- Number of values of a `uint64_t`. -/
def U64 : Nat := 2 ^ 64

/-- The C constant `UINT32_MAX`. -/
def UINT32_MAX : Nat := 4294967295

/-- The C constant `UINT64_MAX`. -/
def UINT64_MAX : Nat := 18446744073709551615

/-- Subtraction `a - b` of two `uint32_t` operands. -/
def sub32 (a b : Nat) : Nat := (a % U32 + U32 - b % U32) % U32

/-- Subtraction `a - b` of two `uint64_t` operands. -/
def sub64 (a b : Nat) : Nat := (a % U64 + U64 - b % U64) % U64

/-- Conversion of an unsigned value to `int` (32-bit two's complement, the
behaviour of the GCC and IAR compilers on the Cortex-M targets). -/
def toInt32 (x : Nat) : Int :=
  if x % U32 < 2 ^ 31 then ((x % U32 : Nat) : Int) else ((x % U32 : Nat) : Int) - (U32 : Int)

/-- Conversion of an `int` to `uint32_t`. -/
def toUInt32 (i : Int) : Nat := (i % (U32 : Int)).toNat

/-! ## Cycle timer (lines 145-262) -/

/-- The C `struct dwtTime`. -/
structure dwtTime where
  fcpu : Nat
  s : Int
  ms : Int
  us : Int
deriving DecidableEq, Repr, Inhabited

/-- The C `struct cyclesCount` (a file-scope singleton in the source). -/
structure cyclesCount where
  dwt_max : Nat
  dwt_start : Nat
  tick_start : Nat
deriving DecidableEq, Repr, Inhabited

/-- The function `dwtCyclesToTime(clks, t)` of the source, lines 247-262.
`fcpu` is the value returned by `systemCoreClock()`, `clks` a `uint64_t`;
`t = none` is the null pointer. The result is the returned status and the
object `t` points to afterwards. The divisor `fcpu` is the clock frequency
of the running core; C leaves a division by zero undefined, here it yields
zero as every division of natural numbers does. -/
def dwtCyclesToTime (fcpu : Nat) (clks : Nat) (t : Option dwtTime) : Int × Option dwtTime :=
  match t with
  | none => (-1, none)
  | some _ =>
    let s := clks / fcpu
    let ms := (clks * 1000 % U64) / fcpu
    let us := (clks * 1000 % U64 * 1000 % U64) / fcpu
    let ms := sub64 ms (s * 1000 % U64)
    let us := sub64 us ((ms * 1000 % U64 + s * 1000000 % U64) % U64)
    (0, some { fcpu := fcpu % U32, s := toInt32 s, ms := toInt32 ms, us := toInt32 us })

/-- The function `cyclesCounterInit` of the source, lines 202-208: the
calibrated maximum is the time in milliseconds that `UINT32_MAX` cycles
take. (`dwtIpInit` only touches the debug unit.) -/
def cyclesCounterInit (fcpu : Nat) (cc : cyclesCount) : cyclesCount :=
  match (dwtCyclesToTime fcpu UINT32_MAX (some default)).2 with
  | some t => { cc with dwt_max := toUInt32 (t.s * 1000 + t.ms) }
  | none => cc

/-- The function `cyclesCounterStart` of the source, lines 210-215. `tick`
is the value `HAL_GetTick()` returns, `cyc` the value `dwtGetCycles()`
returns right after `dwtReset()` cleared the counter. -/
def cyclesCounterStart (cc : cyclesCount) (tick cyc : Nat) : cyclesCount :=
  { cc with tick_start := tick, dwt_start := cyc }

/-- The function `cyclesCounterEnd` of the source, lines 217-235, in the
configuration `_APP_FIX_CLK_OVERFLOW == 1` the file selects. `cyc` is the
value `dwtGetCycles()` returns, `tick` the value `HAL_GetTick()` returns.
The quotient `tick_e / dwt_max` is only evaluated when `tick_e > dwt_max`;
with `dwt_max = 0` the C division is undefined and yields zero here. -/
def cyclesCounterEnd (fcpu : Nat) (cc : cyclesCount) (cyc tick : Nat) : Nat :=
  let dwt_e := sub32 cyc cc.dwt_start
  let tick_e := sub32 tick cc.tick_start
  let _t := dwtCyclesToTime fcpu dwt_e (some default)
  if tick_e > cc.dwt_max then
    ((tick_e / cc.dwt_max) * UINT32_MAX % U64 + dwt_e) % U64
  else
    dwt_e

/-! ## Allocator accounting interceptor (lines 402-508) -/

/-- The C `struct ia_malloc` (a file-scope singleton in the source). Bit 0
of `cfg` arms the ledger, bit 1 records that `malloc` was called, bit 2 that
`free` was called. -/
structure ia_malloc where
  cfg : Nat
  alloc : Nat
  free : Nat
  alloc_req : Nat
  free_req : Nat
  max : Nat
  used : Nat
deriving DecidableEq, Repr, Inhabited

/-- The C constant `MAGIC_MALLOC_NUMBER`. -/
def MAGIC_MALLOC_NUMBER : Nat := 0xefdcba98

/-- Store of a 32-bit word: the memory maps an address to the `uint32_t`
stored there. Every access of the wrappers is to a word-aligned address
when `__real_malloc` returns word-aligned blocks. -/
def storeWord (mem : Nat → Nat) (addr val : Nat) : Nat → Nat :=
  fun a => if a = addr then val else mem a

/-- The global state the two wrappers work on: the ledger `ia_malloc` and
the memory that holds the hidden header and trailer words. -/
structure Heap where
  ia : ia_malloc
  mem : Nat → Nat

/-- The expression `(bytes + 3) & ~3` on the 32-bit `size_t` of the target. -/
def alignUp (bytes : Nat) : Nat := ((bytes + 3) % U32) &&& 0xFFFFFFFC

/-- The function `__wrap_malloc(bytes)` of the source, lines 454-483. `ret` is
the pointer `__real_malloc(bytes + 8)` returns, 0 for `NULL`. The result is
the new global state and the returned pointer. -/
def __wrap_malloc (h : Heap) (bytes ret : Nat) : Heap × Nat :=
  let cfg := h.ia.cfg ||| 2
  let bytes := alignUp bytes
  let ptr := ret
  let mem :=
    if ptr ≠ 0 then
      storeWord (storeWord h.mem ptr bytes) ((ptr + 4 + bytes) % U32) MAGIC_MALLOC_NUMBER
    else h.mem
  let ia : ia_malloc := { h.ia with cfg := cfg }
  let ia :=
    if ptr ≠ 0 ∧ cfg &&& 1 ≠ 0 then
      let used := (ia.used + bytes) % U32
      { ia with
        alloc_req := (ia.alloc_req + 1) % U32
        alloc := (ia.alloc + bytes) % U32
        used := used
        max := if used > ia.max then used else ia.max }
    else ia
  (⟨ia, mem⟩, if ptr ≠ 0 then (ptr + 4) % U32 else 0)

/-- The function `__wrap_free(ptr)` of the source, lines 485-508. The
bookkeeping of `__real_free` itself is outside the model. -/
def __wrap_free (h : Heap) (ptr : Nat) : Heap :=
  let cfg := h.ia.cfg ||| 4
  let ia : ia_malloc := { h.ia with cfg := cfg }
  if ptr = 0 then ⟨ia, h.mem⟩
  else
    let p := sub32 ptr 4
    let bytes := h.mem p
    let trailer := (p + 4 + bytes) % U32
    let mem := if h.mem trailer = MAGIC_MALLOC_NUMBER then storeWord h.mem trailer 0 else h.mem
    let ia :=
      if cfg &&& 1 ≠ 0 then
        { ia with
          free_req := (ia.free_req + 1) % U32
          free := (ia.free + bytes) % U32
          used := sub32 ia.used bytes }
      else ia
    ⟨ia, mem⟩

/-- A call of one of the two wrappers. `malloc bytes ret` is the call
`__wrap_malloc(bytes)` during which `__real_malloc` returns `ret`. -/
inductive HeapOp where
  | malloc (bytes ret : Nat)
  | free (ptr : Nat)
deriving DecidableEq, Repr

/-- One wrapper call on the global state. -/
def heapStep (h : Heap) : HeapOp → Heap
  | .malloc bytes ret => (__wrap_malloc h bytes ret).1
  | .free ptr => __wrap_free h ptr

/-- A sequence of wrapper calls, in order. -/
def heapRun (h : Heap) : List HeapOp → Heap
  | [] => h
  | op :: ops => heapRun (heapStep h op) ops

/-- The ledger after `memset(&ia_malloc, 0, ...)` followed by
`ia_malloc.cfg |= 1UL` (lines 1067 and 1126), with `seen` the bits 1 and 2
that wrapper calls made in between have set. -/
def armedLedger (seen : Nat) : ia_malloc :=
  { cfg := seen ||| 1, alloc := 0, free := 0, alloc_req := 0, free_req := 0, max := 0, used := 0 }

/-! ### Bookkeeping of live blocks, used to state the ledger properties -/

/-- A live block: the address `__real_malloc` returned and the size of the
user region rounded up to a multiple of 4. -/
structure Block where
  base : Nat
  size : Nat
deriving DecidableEq, Repr

/-- Size of a request rounded up to the next multiple of 4. -/
def roundUp4 (bytes : Nat) : Nat := (bytes + 3) / 4 * 4

/-- Two blocks, each with its 8 bytes of header and trailer, do not overlap. -/
def Block.disjoint (a b : Block) : Prop :=
  a.base + a.size + 8 ≤ b.base ∨ b.base + b.size + 8 ≤ a.base

instance (a b : Block) : Decidable (Block.disjoint a b) := by
  unfold Block.disjoint
  infer_instance

/-- What `__real_malloc` guarantees for a successful call: a non-null,
word-aligned block inside the 32-bit address space that holds the header,
the rounded user region and the trailer, apart from every live block. -/
def freshBlock (live : List Block) (b : Block) : Prop :=
  b.base ≠ 0 ∧ b.base % 4 = 0 ∧ b.base + b.size + 8 ≤ U32 ∧ ∀ c ∈ live, Block.disjoint b c

instance (live : List Block) (b : Block) : Decidable (freshBlock live b) := by
  unfold freshBlock
  infer_instance

/-- Effect of one call on the list of live blocks; `none` when the call is
not a successful allocation, the release of a live block or `free(NULL)`. -/
def liveStep (live : List Block) : HeapOp → Option (List Block)
  | .malloc bytes ret =>
    if freshBlock live ⟨ret, roundUp4 bytes⟩ then some (⟨ret, roundUp4 bytes⟩ :: live) else none
  | .free ptr =>
    if ptr = 0 then some live
    else
      match live.find? (fun b => b.base + 4 = ptr) with
      | some b => some (live.erase b)
      | none => none

/-- The live blocks after a sequence of calls; `none` when a call of the
sequence is rejected by `liveStep`. -/
def track (live : List Block) : List HeapOp → Option (List Block)
  | [] => some live
  | op :: ops =>
    match liveStep live op with
    | some l => track l ops
    | none => none

/-- Outstanding byte count: the sum of the rounded sizes of the live blocks. -/
def outstanding (live : List Block) : Nat := (live.map Block.size).sum

/-- The largest outstanding byte count over all prefixes of a sequence of
calls (the empty prefix included), starting with the blocks `live`. -/
def peak (live : List Block) : List HeapOp → Nat
  | [] => outstanding live
  | op :: ops =>
    match liveStep live op with
    | some l => max (outstanding live) (peak l ops)
    | none => outstanding live

/-- A store of the word `val` at `addr` done by the program between two
wrapper calls, such as a write past the end of a user region. -/
def userStore (h : Heap) (addr val : Nat) : Heap := ⟨h.ia, storeWord h.mem addr val⟩

/-- The relation the proofs maintain between the global state and the list
of live blocks while the ledger is armed: headers hold the rounded sizes,
the blocks lie apart inside the address space, and the counters agree with
the outstanding bytes modulo `2 ^ 32`. -/
structure HeapInv (h : Heap) (live : List Block) : Prop where
  armed : h.ia.cfg &&& 1 ≠ 0
  hdr : ∀ b ∈ live, h.mem b.base = b.size
  fits : ∀ b ∈ live, b.base ≠ 0 ∧ b.base + b.size + 8 ≤ U32
  apart : live.Pairwise Block.disjoint
  used_eq : h.ia.used = outstanding live % U32
  alloc_eq : h.ia.alloc = (h.ia.free + outstanding live) % U32
  req_eq : h.ia.alloc_req = (h.ia.free_req + live.length) % U32
  free_lt : h.ia.free < U32
  free_req_lt : h.ia.free_req < U32

/-! ## Node timing observer (lines 790-933) -/

/-- The C `struct u_node_stat`: cumulative duration and run count of a unit. -/
structure u_node_stat where
  dur : Nat
  n_runs : Nat
deriving DecidableEq, Repr, Inhabited

/-- The C `struct u_observer_ctx`. `nodes` is the sequence the pointer of
the same name refers to; the callback is registered only after
`aiObserverInit` allocated and zeroed it. -/
structure u_observer_ctx where
  n_cb : Nat
  start_t : Nat
  u_dur_t : Nat
  k_dur_t : Nat
  nodes : List u_node_stat
deriving DecidableEq, Repr, Inhabited

/-- The two statements `nodes[c_idx].dur += end_t; nodes[c_idx].n_runs += 1`
of the callback. An index outside the sequence, which the C code does not
check, leaves the sequence as it is. -/
def bumpNode (end_t : Nat) : List u_node_stat → Nat → List u_node_stat
  | [], _ => []
  | sn :: rest, 0 => { dur := (sn.dur + end_t) % U64, n_runs := (sn.n_runs + 1) % U32 } :: rest
  | sn :: rest, i + 1 => sn :: bumpNode end_t rest i

/-- The function `user_observer_cb` of the source, lines 808-829, on the
context the cookie points to. `POST_EVT` is the constant
`AI_OBSERVER_POST_EVT` of the platform header, `ts` the value
`dwtGetCycles()` returns at entry and `exit_ts` the value it returns at exit.
The C function always returns 0. -/
def user_observer_cb (POST_EVT : Nat) (u_obs : u_observer_ctx)
    (flags c_idx ts exit_ts : Nat) : u_observer_ctx :=
  let u : u_observer_ctx := { u_obs with n_cb := (u_obs.n_cb + 1) % U64 }
  let u : u_observer_ctx :=
    if flags &&& POST_EVT ≠ 0 then
      let end_t := sub64 ts u.start_t
      { u with
        k_dur_t := (u.k_dur_t + end_t) % U64
        nodes := bumpNode end_t u.nodes c_idx }
    else u
  let u : u_observer_ctx := { u with start_t := exit_ts }
  { u with u_dur_t := (u.u_dur_t + sub64 u.start_t ts) % U64 }

/-- One invocation of the callback by the workload: the event flags, the
index of the unit and the two timestamps the callback reads. -/
structure ObsEvent where
  flags : Nat
  c_idx : Nat
  ts : Nat
  exit_ts : Nat
deriving DecidableEq, Repr

/-- The callback invoked for a sequence of events, in order. -/
def observe (POST_EVT : Nat) (u_obs : u_observer_ctx) : List ObsEvent → u_observer_ctx
  | [] => u_obs
  | e :: es => observe POST_EVT (user_observer_cb POST_EVT u_obs e.flags e.c_idx e.ts e.exit_ts) es

/-- The context after `aiObserverInit` (lines 847-857) for `n` units: the
context and the sequence are zeroed by `memset`. -/
def observerInit (n : Nat) : u_observer_ctx :=
  { n_cb := 0, start_t := 0, u_dur_t := 0, k_dur_t := 0, nodes := List.replicate n ⟨0, 0⟩ }

/-- The quotient `sn->dur / (uint64_t)sn->n_runs` that `aiObserverDone`
passes to `dwtCyclesToTime` for each unit (line 908); `none` when the run
count is 0, where the C division is undefined. -/
def nodeAverage (sn : u_node_stat) : Option Nat :=
  if sn.n_runs = 0 then none else some (sn.dur / sn.n_runs)

/-- Sum of the cumulative durations of all units. -/
def totalDur (nodes : List u_node_stat) : Nat := (nodes.map u_node_stat.dur).sum

/-! ### Single-precision arithmetic of the percentage column (line 918) -/

/-- Timestamps the callback reads around one unit: at entry and exit of the
pre event and at exit of the post event. The post event is entered `d`
cycles after the exit of the pre event. -/
structure UnitStamps where
  pre_in : Nat
  pre_out : Nat
  post_out : Nat
deriving DecidableEq, Repr

/-- The pre event and the post event of unit `i` with post-event duration `d`. -/
def unitEvents (pre post i d : Nat) (st : UnitStamps) : List ObsEvent :=
  [⟨pre, i, st.pre_in, st.pre_out⟩, ⟨post, i, st.pre_out + d, st.post_out⟩]

/-- Timestamps of one run of a workload of three units. -/
structure RunStamps where
  u0 : UnitStamps
  u1 : UnitStamps
  u2 : UnitStamps
deriving DecidableEq, Repr

/-- The events of one run of the three units, in execution order. -/
def runEvents (pre post d0 d1 d2 : Nat) (r : RunStamps) : List ObsEvent :=
  unitEvents pre post 0 d0 r.u0 ++ unitEvents pre post 1 d1 r.u1 ++ unitEvents pre post 2 d2 r.u2

/-- The events of the runs `runs`, one after the other. -/
def workloadEvents (pre post d0 d1 d2 : Nat) : List RunStamps → List ObsEvent
  | [] => []
  | r :: rs => runEvents pre post d0 d1 d2 r ++ workloadEvents pre post d0 d1 d2 rs

/-- The post-entry timestamps of a run are values of the 32-bit counter. -/
def RunStamps.inRange (d0 d1 d2 : Nat) (r : RunStamps) : Prop :=
  r.u0.pre_out + d0 < U32 ∧ r.u1.pre_out + d1 < U32 ∧ r.u2.pre_out + d2 < U32

instance (d0 d1 d2 : Nat) (r : RunStamps) : Decidable (RunStamps.inRange d0 d1 d2 r) := by
  unfold RunStamps.inRange
  infer_instance

/-! ## Stack watermark monitor (lines 994-1060 and 1169-1201) -/

/-- The fill pattern `0xDEDEDEDE` of the stack monitor. -/
def STACK_SENTINEL : Nat := 0xDEDEDEDE

/-- What the stack monitor reads at the entry of `aiTestPerformance` in the
GCC configuration: the registers `CONTROL` and `MSP`, the linker symbol
`_estack`, and the constants `MIN_STACK_SIZE` and `CONTROL_SPSEL_Msk` of the
platform headers. -/
structure StackMon where
  ctrl : Nat
  cstack : Nat
  estack : Nat
  MIN_STACK_SIZE : Nat
  CONTROL_SPSEL_Msk : Nat
deriving DecidableEq, Repr

/-- The assignment `bstack = estack - MIN_STACK_SIZE` (line 1001). -/
def StackMon.bstack (s : StackMon) : Nat := sub32 s.estack s.MIN_STACK_SIZE

/-- The assignment `mstack_size = MIN_STACK_SIZE` (line 1002). -/
def StackMon.mstack_size (s : StackMon) : Nat := s.MIN_STACK_SIZE % U32

/-- The assignment `ustack_size = estack - cstack` (line 1028). -/
def StackMon.ustack_size (s : StackMon) : Nat := sub32 s.estack s.cstack

/-- The flag `stack_mon` as lines 1021-1034 leave it: cleared when `MSP` is
not the active stack or when the stack used before the test exceeds the
minimal stack size. No later statement assigns it. -/
def StackMon.stack_mon (s : StackMon) : Bool :=
  let sm := if s.ctrl &&& s.CONTROL_SPSEL_Msk ≠ 0 then false else true
  if sm = true ∧ s.ustack_size > s.mstack_size then false else sm

/-- The pointer `(uint32_t*)((bstack + 3) & (~3))` the fill and the scan
start from. -/
def StackMon.base (s : StackMon) : Nat := alignUp s.bstack

/-- The loop `while ((uint32_t)pw < cstack) { *pw = 0xDEDEDEDE; pw++; }` of
lines 1055-1058; the first argument bounds the number of iterations. -/
def fillLoop (cstack : Nat) : Nat → Nat → (Nat → Nat) → (Nat → Nat)
  | 0, _, mem => mem
  | fuel + 1, pw, mem =>
    if pw < cstack then fillLoop cstack fuel (pw + 4) (storeWord mem pw STACK_SENTINEL)
    else mem

/-- The fill of the remaining part of the stack, lines 1048-1059. The loop
runs at most `cstack` times. -/
def fillStack (s : StackMon) (mem : Nat → Nat) : Nat → Nat :=
  if s.stack_mon = true then fillLoop s.cstack s.cstack s.base mem else mem

/-- The loop of lines 1183-1187 over the 8 words from `pr` on: `overflow`
is set when one of them is not the sentinel. -/
def overflowCheck (mem : Nat → Nat) (pr : Nat) : Bool :=
  (List.range 8).any (fun i => mem (pr + 4 * i) != STACK_SENTINEL)

/-- The loop `while ((*pr == 0xDEDEDEDE) && ((uint32_t)pr < cstack))
{ pr++; susage += 4; }` of lines 1191-1194; the first argument bounds the
number of iterations, the result is the final `susage`. -/
def scanLoop (mem : Nat → Nat) (cstack : Nat) : Nat → Nat → Nat → Nat
  | 0, _, susage => susage
  | fuel + 1, pr, susage =>
    if mem pr = STACK_SENTINEL ∧ pr < cstack then
      scanLoop mem cstack fuel (pr + 4) ((susage + 4) % U32)
    else susage

/-- Result of the scan: the variable `susage` and whether the line
`E: !stack overflow detected > ...` of line 1197 was printed. -/
structure ScanResult where
  susage : Nat
  overflow : Bool
deriving DecidableEq, Repr

/-- The computation of the used stack, lines 1176-1200, on the memory as it
is after the iteration loop. -/
def stackScan (s : StackMon) (mem : Nat → Nat) : ScanResult :=
  if s.stack_mon = true then
    let rstack := sub32 s.mstack_size s.ustack_size
    let pr := s.base
    if overflowCheck mem pr = true then ⟨0, true⟩
    else ⟨sub32 rstack (scanLoop mem s.cstack s.cstack (pr + 32) (8 * 4)), false⟩
  else ⟨0, false⟩

/-- The `used stack` line of the report. -/
inductive StackLine where
  | bytes (n : Nat)
  | notCalculated
deriving DecidableEq, Repr

/-- The `used stack` line as lines 1233-1237 print it. -/
def usedStackLine (s : StackMon) (susage : Nat) : StackLine :=
  if s.stack_mon = true then .bytes susage else .notCalculated

/-! ### Notions used to state the stack watermark properties -/

/-- Addresses of the words from `base` upward that start below `cstack`. -/
def wordsBelow (base cstack : Nat) : List Nat :=
  (List.range ((cstack - base + 3) / 4)).map (fun i => base + 4 * i)

/-- Number of contiguous sentinel words counted upward from `base` and
bounded by `cstack`. -/
def sentinelWords (mem : Nat → Nat) (base cstack : Nat) : Nat :=
  ((wordsBelow base cstack).takeWhile (fun a => mem a == STACK_SENTINEL)).length

/-- Address of the lowest word between `base` and `cstack` that does not
hold the sentinel, if there is one. -/
def lowestNonSentinel (mem : Nat → Nat) (base cstack : Nat) : Option Nat :=
  (wordsBelow base cstack).find? (fun a => mem a != STACK_SENTINEL)

/-! ## Observer set-up and teardown (lines 831-932) -/

/-- A division of unsigned integers whose divisor comes from the program
state: `none` when the divisor is 0, where the C division is undefined. -/
def udiv (a b : Nat) : Option Nat := if b = 0 then none else some (a / b)

/-- The global `u_observer_ctx` together with what the model keeps apart from
it: the value of the pointer `nodes` (0 for `NULL`; the sequence it refers to
is `ctx.nodes`) and whether the callback is registered with the platform. -/
structure ObsState where
  ctx : u_observer_ctx
  nodes_ptr : Nat
  registered : Bool
deriving DecidableEq, Repr

/-- The function `aiObserverInit` of the source, lines 831-868. `nodes_ret`
is what `__real_malloc` returns for the sequence, `register_ok` what
`ai_platform_observer_register` returns; `sizeof(struct u_node_stat)` is 16
on the target. -/
def aiObserverInit (handle_null : Bool) (n_nodes : Nat) (hidden_mode : Bool)
    (nodes_ret : Nat) (register_ok : Bool) (h : Heap) (o : ObsState) : Heap × ObsState :=
  if handle_null = true ∨ n_nodes = 0 then (h, o)
  else if hidden_mode = true then (h, o)
  else
    let r := __wrap_malloc h (n_nodes * 16 % U32) nodes_ret
    if r.2 = 0 then (r.1, ⟨observerInit 0, 0, o.registered⟩)
    else if register_ok = false then (__wrap_free r.1 r.2, ⟨observerInit 0, 0, o.registered⟩)
    else (r.1, ⟨observerInit n_nodes, r.2, true⟩)

/-- The figures `aiObserverDone` computes before printing: the kernel and
user averages, the per-unit averages of the rows and the average of the
cumulated durations, all in cycles. The percentages, computed in `float`,
are given apart by `nodeShares`. -/
structure ObserverReport where
  kernel : Nat
  user : Nat
  rows : List Nat
  cumul : Nat
deriving DecidableEq, Repr

/-- The per-unit averages of the rows printed by the loop of lines 904-921,
in order; `none` as soon as one division is undefined. -/
def observerRows : List u_node_stat → Option (List Nat)
  | [] => some []
  | sn :: rest =>
    match nodeAverage sn, observerRows rest with
    | some a, some as => some (a :: as)
    | _, _ => none

/-- The function `aiObserverDone` of the source, lines 872-932. `count` is
the number of times `ai_platform_observer_node_info` returns true, that is
the number of rows. The result is `none` when a division by a zero run count
or a read past the end of the sequence makes the behaviour undefined;
otherwise the report (absent after the early return), and the global state
after the release of the sequence. -/
def aiObserverDone (handle_null : Bool) (n_nodes count : Nat) (h : Heap) (o : ObsState) :
    Option (Option ObserverReport × Heap × ObsState) :=
  if handle_null = true ∨ n_nodes = 0 ∨ o.nodes_ptr = 0 then some (none, h, o)
  else
    match o.ctx.nodes.head? with
    | none => none
    | some n0 =>
      match udiv o.ctx.k_dur_t n0.n_runs, udiv o.ctx.u_dur_t n0.n_runs with
      | some kernel, some user =>
        if count > o.ctx.nodes.length then none
        else
          match observerRows (o.ctx.nodes.take count),
            udiv (totalDur (o.ctx.nodes.take count) % U64) n0.n_runs with
          | some rows, some cumul =>
            some (some ⟨kernel, user, rows, cumul⟩, __wrap_free h o.nodes_ptr,
              ⟨observerInit 0, 0, false⟩)
          | _, _ => none
      | _, _ => none

/-! ## Run aggregator (lines 954-1255) -/

/-- The C constant `_APP_ITER_`. -/
def _APP_ITER_ : Nat := 16

/-- The global state the test works on. -/
structure Globals where
  heap : Heap
  cc : cyclesCount
  obs : ObsState

/-- What the workload does during one call of `ai_mnetwork_run`, as far as
the instrumented state is concerned: calls of the allocator wrappers,
stores to memory (such as the stack), and invocations of the observer
callback. -/
inductive RunAction where
  | heap (op : HeapOp)
  | store (addr val : Nat)
  | event (e : ObsEvent)
deriving DecidableEq, Repr

/-- The effect of one action of the workload; the callback is invoked only
when it is registered. -/
def runAction (POST_EVT : Nat) (g : Globals) : RunAction → Globals
  | .heap op => { g with heap := heapStep g.heap op }
  | .store addr val => { g with heap := userStore g.heap addr val }
  | .event e =>
    if g.obs.registered = true then
      { g with obs := { g.obs with
          ctx := user_observer_cb POST_EVT g.obs.ctx e.flags e.c_idx e.ts e.exit_ts } }
    else g

/-- The actions of one run, in order. -/
def runActions (POST_EVT : Nat) (g : Globals) : List RunAction → Globals
  | [] => g
  | a :: as => runActions POST_EVT (runAction POST_EVT g a) as

/-- What the environment supplies to one iteration of the main loop: the
result of `__real_malloc` for the forced `free(malloc(10))`, the readings
of `cyclesCounterStart`, the actions and the return value of
`ai_mnetwork_run`, and the readings of `cyclesCounterEnd`. -/
structure RunEnv where
  malloc_ret : Nat
  tick_start : Nat
  dwt_start : Nat
  actions : List RunAction
  batch : Int
  dwt_end : Nat
  tick_end : Nat
deriving DecidableEq, Repr

/-- The duration `tend` measured for a run: what `cyclesCounterEnd` returns
after `cyclesCounterStart`. -/
def RunEnv.tend (fcpu : Nat) (cc : cyclesCount) (e : RunEnv) : Nat :=
  cyclesCounterEnd fcpu (cyclesCounterStart cc e.tick_start e.dwt_start) e.dwt_end e.tick_end

/-- The seconds component `t.s` that `dwtCyclesToTime(tend, &t)` stores. -/
def secondsOf (fcpu tend : Nat) : Int :=
  match (dwtCyclesToTime fcpu tend (some default)).2 with
  | some t => t.s
  | none => 0

/-- The variables of the main loop. `run_calls` counts the calls of
`ai_mnetwork_run` and `run_failed` records that `aiLogErr` reported a failed
run; the C code keeps neither. -/
structure LoopState where
  g : Globals
  iter : Nat
  niter : Nat
  tmin : Nat
  tmax : Nat
  tcumul : Nat
  run_calls : Nat
  run_failed : Bool

/-- The body of the main loop, lines 1107-1162, in the configuration
`_APP_HEAP_MONITOR_ == 1`, `ENABLE_DEBUG == 0`. The second component tells
whether the body left the loop with `break`. The random fill of the input
tensors does not touch the modelled state. -/
def loopBody (fcpu : Nat) (profiling_mode : Bool) (POST_EVT : Nat) (e : RunEnv)
    (st : LoopState) : LoopState × Bool :=
  let r := __wrap_malloc st.g.heap 10 e.malloc_ret
  let h := __wrap_free r.1 r.2
  let h : Heap := ⟨{ h.ia with cfg := h.ia.cfg ||| 1 }, h.mem⟩
  let cc := cyclesCounterStart st.g.cc e.tick_start e.dwt_start
  let g := runActions POST_EVT { st.g with heap := h, cc := cc } e.actions
  if e.batch ≠ 1 then
    ({ st with g := g, run_calls := st.run_calls + 1, run_failed := true }, true)
  else
    let tend := cyclesCounterEnd fcpu g.cc e.dwt_end e.tick_end
    let g : Globals := { g with heap := ⟨{ g.heap.ia with cfg := g.heap.ia.cfg &&& 0xFFFFFFFE },
      g.heap.mem⟩ }
    let tmin := if tend < st.tmin then tend else st.tmin
    let tmax := if tend > st.tmax then tend else st.tmax
    let tcumul := (st.tcumul + tend) % U64
    let niter := if profiling_mode = false ∧ secondsOf fcpu tend > 10 then st.iter else st.niter
    ({ st with g := g, niter := niter, tmin := tmin, tmax := tmax, tcumul := tcumul,
               run_calls := st.run_calls + 1 }, false)

/-- The loop `for (iter = 0; iter < niter; iter++)` of lines 1105-1163 from
a state in which `iter` is already set; `env i` is the environment of the
iteration with `iter = i`, the first argument bounds the number of
iterations. -/
def mainLoop (fcpu : Nat) (profiling_mode : Bool) (POST_EVT : Nat) (env : Nat → RunEnv) :
    Nat → LoopState → LoopState
  | 0, st => st
  | fuel + 1, st =>
    if st.iter < st.niter then
      let r := loopBody fcpu profiling_mode POST_EVT (env st.iter) st
      if r.2 = true then r.1
      else mainLoop fcpu profiling_mode POST_EVT env fuel { r.1 with iter := r.1.iter + 1 }
    else st

/-- The values of `tmin`, `tmax` and `tcumul` after lines 1210-1215: the
correction by the callback overhead and the division by the number of
completed iterations. -/
structure Stats where
  tmin : Nat
  tmax : Nat
  tcumul : Nat
deriving DecidableEq, Repr

/-- Lines 1210-1215: `tmin` and `tmax` minus `u_dur_t / iter`, and
`(tcumul - u_dur_t) / iter`; `none` when `iter` is 0, where the divisions
are undefined. -/
def correctStats (iter u_dur_t tmin tmax tcumul : Nat) : Option Stats :=
  match udiv u_dur_t iter, udiv (sub64 tcumul u_dur_t) iter with
  | some ov, some avg => some ⟨sub64 tmin ov, sub64 tmax ov, avg⟩
  | _, _ => none

/-- The figures printed by lines 1217-1232 besides the corrected statistics. -/
structure Figures where
  t : dwtTime
  cycles : Nat
  minus : Nat
  plus : Nat
  workload : Int
  cmacc : Nat
deriving DecidableEq, Repr

/-- Lines 1217-1232: the average as a time, the printed cycle figures, the
CPU workload and `cmacc = (uint32_t)((tcumul * 100) / n_macc)`; `none` when
`n_macc` is 0, where the last division is undefined. -/
def figures (fcpu n_macc : Nat) (st : Stats) : Option Figures :=
  let t := ((dwtCyclesToTime fcpu st.tcumul (some default)).2).getD default
  match udiv (st.tcumul * 100 % U64) n_macc with
  | some q =>
    some { t := t
           cycles := st.tcumul % U32
           minus := sub64 st.tcumul st.tmin % U32
           plus := sub64 st.tmax st.tcumul % U32
           workload := toInt32 ((st.tcumul * 100 % U64) / t.fcpu)
           cmacc := q % U32 }
  | none => none

/-- What the environment supplies to one call of `aiTestPerformance`:
whether the network handle is null, the registers and constants of the stack
monitor, the two mode variables, the counts and figures of the network
report with the sizes `AI_MNETWORK_IN_NUM` and `AI_MNETWORK_OUT_NUM` of the
descriptor arrays, the core clock, the constant `AI_OBSERVER_POST_EVT`, the
results of the platform calls of the observer, and the environment of each
iteration. `msp_after` is the stack pointer read after the loop. -/
structure TestEnv where
  handle_null : Bool
  stack : StackMon
  msp_after : Nat
  profiling_mode : Bool
  profiling_factor : Nat
  hidden_mode : Bool
  n_inputs : Nat
  n_outputs : Nat
  IN_NUM : Nat
  OUT_NUM : Nat
  n_macc : Nat
  n_nodes : Nat
  fcpu : Nat
  POST_EVT : Nat
  nodes_ret : Nat
  register_ok : Bool
  node_rows : Nat
  runs : Nat → RunEnv

/-- The report `aiTestPerformance` prints after the loop, as values. -/
structure PerfReport where
  run_calls : Nat
  run_failed : Bool
  inferences : Nat
  raw_tmin : Nat
  raw_tmax : Nat
  raw_tcumul : Nat
  stats : Stats
  figures : Figures
  sp_mismatch : Bool
  stack_overflow : Bool
  used_stack : StackLine
  used_heap : ia_malloc
  by_node : Option ObserverReport
deriving DecidableEq, Repr

/-- The outcome of a call of `aiTestPerformance`: the returned status, the
report when the function got as far as printing it, and the global state
it leaves. -/
structure PerfResult where
  status : Int
  report : Option PerfReport
  g : Globals

/-- The ledger after `memset(&ia_malloc, 0, sizeof(struct ia_malloc))`. -/
def zeroLedger : ia_malloc :=
  { cfg := 0, alloc := 0, free := 0, alloc_req := 0, free_req := 0, max := 0, used := 0 }

/-- The number of iterations chosen by lines 1011-1014. -/
def TestEnv.niter (env : TestEnv) : Nat :=
  if env.profiling_mode = true then _APP_ITER_ * env.profiling_factor else _APP_ITER_

/-- The state in which the main loop is entered: the stack is filled, the
ledger zeroed, the observer set up, `tcumul = 0`, `tmin = UINT64_MAX`,
`tmax = 0` and `iter = 0`. -/
def TestEnv.start (env : TestEnv) (g0 : Globals) : LoopState :=
  let heap1 : Heap := ⟨zeroLedger, fillStack env.stack g0.heap.mem⟩
  let r := aiObserverInit env.handle_null env.n_nodes env.hidden_mode env.nodes_ret
    env.register_ok heap1 g0.obs
  { g := { g0 with heap := r.1, obs := r.2 }
    iter := 0
    niter := env.niter
    tmin := UINT64_MAX
    tmax := 0
    tcumul := 0
    run_calls := 0
    run_failed := false }

/-- The state in which the main loop is left. The loop is given `niter`
iterations, which it cannot exceed. -/
def TestEnv.afterLoop (env : TestEnv) (g0 : Globals) : LoopState :=
  mainLoop env.fcpu env.profiling_mode env.POST_EVT env.runs env.niter (env.start g0)

/-- The function `aiTestPerformance` of the source, lines 958-1255, in the
GCC configuration (stack and heap monitors on, overflow fix on, observer
on, debug traces off). The result is `none` when a division by zero makes
the behaviour of the C function undefined. -/
def aiTestPerformance (env : TestEnv) (g0 : Globals) : Option PerfResult :=
  if env.handle_null = true then some ⟨-1, none, g0⟩
  else if env.n_inputs > env.IN_NUM ∨ env.n_outputs > env.OUT_NUM then
    some ⟨-1, none, { g0 with heap := ⟨zeroLedger, fillStack env.stack g0.heap.mem⟩ }⟩
  else
    let st := env.afterLoop g0
    let sp_mismatch : Bool := decide (env.msp_after ≠ env.stack.cstack)
    let scan := stackScan env.stack st.g.heap.mem
    match correctStats st.iter st.g.obs.ctx.u_dur_t st.tmin st.tmax st.tcumul with
    | none => none
    | some stats =>
      match figures env.fcpu env.n_macc stats with
      | none => none
      | some fig =>
        match aiObserverDone env.handle_null env.n_nodes env.node_rows st.g.heap st.g.obs with
        | none => none
        | some d =>
          some ⟨0,
            some { run_calls := st.run_calls
                   run_failed := st.run_failed
                   inferences := st.iter
                   raw_tmin := st.tmin
                   raw_tmax := st.tmax
                   raw_tcumul := st.tcumul
                   stats := stats
                   figures := fig
                   sp_mismatch := sp_mismatch
                   stack_overflow := scan.overflow
                   used_stack := usedStackLine env.stack scan.susage
                   used_heap := st.g.heap.ia
                   by_node := d.1 },
            { st.g with heap := d.2.1, obs := d.2.2 }⟩

/-! ### Notions used to state the properties of the run aggregator -/

/-- The durations measured for the iterations `0 .. n - 1`, in order; the
calibration `dwt_max` is the one of the initial `cyclesCount`. -/
def measured (fcpu : Nat) (cc : cyclesCount) (env : Nat → RunEnv) (n : Nat) : List Nat :=
  (List.range n).map (fun i => (env i).tend fcpu cc)

/-- The minimum of a list of durations, `UINT64_MAX` for the empty list. -/
def minOf (ts : List Nat) : Nat := ts.foldr min UINT64_MAX

/-- The maximum of a list of durations, 0 for the empty list. -/
def maxOf (ts : List Nat) : Nat := ts.foldr max 0

/-! ### A concrete test used to instantiate the properties -/

/-- A run of `cycles` cycles over 2 ticks that returns `batch`; the workload
allocates and frees a block of 24 bytes, reports a pre and a post event of
unit 0 and stores a word at the stack address `touch`. -/
def sampleRun (batch : Int) (cycles touch : Nat) : RunEnv :=
  { malloc_ret := 0x20001000
    tick_start := 1000
    dwt_start := 0
    actions := [.heap (.malloc 24 0x20002000), .event ⟨2, 0, 10, 20⟩, .event ⟨4, 0, 120, 130⟩,
      .store touch 1, .heap (.free 0x20002004)]
    batch := batch
    dwt_end := cycles
    tick_end := 1002 }

/-- Global state before the sample test: zeroed ledger and observer, timer
calibrated for 80 MHz. -/
def sampleGlobals : Globals :=
  { heap := ⟨zeroLedger, fun _ => 0⟩
    cc := ⟨53687, 0, 0⟩
    obs := ⟨observerInit 0, 0, false⟩ }

/-- A test of a network with one unit at 80 MHz on a stack of 64 bytes below
0xC0 of which 16 are in use, so that the words from 0x80 to 0xAC are filled;
run `i` lasts `160000 + 1000 * i` cycles and stores at the stack address
`touch`, and the run with index `failAt` fails. -/
def sampleEnv (failAt msp_after n_macc touch : Nat) : TestEnv :=
  { handle_null := false
    stack := ⟨0, 0xB0, 0xC0, 0x40, 2⟩
    msp_after := msp_after
    profiling_mode := false
    profiling_factor := 5
    hidden_mode := false
    n_inputs := 1
    n_outputs := 1
    IN_NUM := 1
    OUT_NUM := 1
    n_macc := n_macc
    n_nodes := 1
    fcpu := 80000000
    POST_EVT := 4
    nodes_ret := 0x20003000
    register_ok := true
    node_rows := 1
    runs := fun i => sampleRun (if i = failAt then 0 else 1) (160000 + 1000 * i) touch }

/-- A successful run of 880000000 cycles over 11000 ticks of 1 ms, which is
11 s at 80 MHz, with the actions of `sampleRun`. -/
def sampleSlowRun (touch : Nat) : RunEnv :=
  { sampleRun 1 880000000 touch with tick_end := 12000 }

/-- The sample test with all runs successful and the run with index `slowAt`
lasting 11 s, in profiling mode (with factor 1, hence 16 iterations) or
outside it. -/
def sampleSlowEnv (profiling : Bool) (slowAt : Nat) : TestEnv :=
  { sampleEnv 100 0xB0 20000 0xA8 with
    profiling_mode := profiling
    profiling_factor := 1
    runs := fun i =>
      if i = slowAt then sampleSlowRun 0xA8 else sampleRun 1 (160000 + 1000 * i) 0xA8 }

/-! ## Theorems about the cycle timer -/

/-- Splitting a scaled quotient: `1000 * a / f` is `1000 * (a / f)` plus a
part below 1000. -/
theorem scaled_div_split (a f : Nat) (hf : 0 < f) :
    1000 * a / f = 1000 * (a / f) + 1000 * (a % f) / f ∧ 1000 * (a % f) / f < 1000 := by
  constructor
  · have h : 1000 * a = f * (1000 * (a / f)) + 1000 * (a % f) := by
      have := Nat.div_add_mod a f
      nlinarith
    rw [h, Nat.mul_add_div hf]
  · rw [Nat.div_lt_iff_lt_mul hf]
    have := Nat.mod_lt a hf
    omega

/-- C1. Cycle timer without wrap: when `cyclesCounterStart` read the counter
as 0 right after the reset, the counter reads `c < 2 ^ 32` at the end and
the elapsed tick does not exceed the calibrated maximum `dwt_max`,
`cyclesCounterEnd` returns exactly `c`. -/
theorem cyclesCounterEnd_no_wrap (fcpu : Nat) (cc : cyclesCount) (c tick0 tick1 : Nat)
    (hc : c < 2 ^ 32) (htick : sub32 tick1 tick0 ≤ cc.dwt_max) :
    cyclesCounterEnd fcpu (cyclesCounterStart cc tick0 0) c tick1 = c := by
  have hle : ¬ sub32 tick1 tick0 > cc.dwt_max := by omega
  have hd : sub32 c 0 = c := by
    unfold sub32 U32
    omega
  simp only [cyclesCounterEnd, cyclesCounterStart, hd, if_neg hle]

/-- Witness of C1: 160000 cycles over 2 ticks with a maximum of 53687 ticks. -/
theorem cyclesCounterEnd_no_wrap_witness :
    160000 < 2 ^ 32 ∧ sub32 1002 1000 ≤ (⟨53687, 7, 9⟩ : cyclesCount).dwt_max ∧
    cyclesCounterEnd 80000000 (cyclesCounterStart ⟨53687, 7, 9⟩ 1000 0) 160000 1002 = 160000 :=
  ⟨by decide, by decide,
    cyclesCounterEnd_no_wrap 80000000 ⟨53687, 7, 9⟩ 160000 1000 1002 (by decide) (by decide)⟩

/-- C2. Cycle timer after one wrap: when the counter was read as 0 at the
start, reads `r < 2 ^ 32` at the end, and the elapsed tick lies strictly
between `dwt_max` and `2 * dwt_max`, `cyclesCounterEnd` returns
`UINT32_MAX + r`, which is one less than the `(UINT32_MAX + 1) + r` cycles
that really elapsed. -/
theorem cyclesCounterEnd_one_wrap (fcpu : Nat) (cc : cyclesCount) (r tick0 tick1 : Nat)
    (hr : r < 2 ^ 32) (hlo : cc.dwt_max < sub32 tick1 tick0)
    (hhi : sub32 tick1 tick0 < 2 * cc.dwt_max) :
    cyclesCounterEnd fcpu (cyclesCounterStart cc tick0 0) r tick1 = UINT32_MAX + r ∧
    cyclesCounterEnd fcpu (cyclesCounterStart cc tick0 0) r tick1 ≠ (UINT32_MAX + 1) + r := by
  have hd : sub32 r 0 = r := by
    unfold sub32 U32
    omega
  have hq : sub32 tick1 tick0 / cc.dwt_max = 1 :=
    Nat.div_eq_of_lt_le (by omega) (by omega)
  have hval : cyclesCounterEnd fcpu (cyclesCounterStart cc tick0 0) r tick1 = UINT32_MAX + r := by
    simp only [cyclesCounterEnd, cyclesCounterStart, hd, if_pos hlo, hq]
    unfold UINT32_MAX U64
    omega
  exact ⟨hval, by rw [hval]; omega⟩

/-- Witness of C2: the counter reads 0 after one wrap, 60000 ticks elapsed
with a calibrated maximum of 53687 ticks; the result is 4294967295. -/
theorem cyclesCounterEnd_one_wrap_witness :
    (0 < 2 ^ 32 ∧ (⟨53687, 0, 0⟩ : cyclesCount).dwt_max < sub32 61000 1000 ∧
      sub32 61000 1000 < 2 * (⟨53687, 0, 0⟩ : cyclesCount).dwt_max) ∧
    cyclesCounterEnd 80000000 (cyclesCounterStart ⟨53687, 0, 0⟩ 1000 0) 0 61000 = 4294967295 ∧
    cyclesCounterEnd 80000000 (cyclesCounterStart ⟨53687, 0, 0⟩ 1000 0) 0 61000 ≠ 4294967296 :=
  ⟨⟨by decide, by decide, by decide⟩,
    cyclesCounterEnd_one_wrap 80000000 ⟨53687, 0, 0⟩ 0 1000 61000 (by decide) (by decide)
      (by decide)⟩

/-- Conversion to `int` keeps a value below `2 ^ 31`. -/
theorem toInt32_of_lt (x : Nat) (h : x < 2 ^ 31) : toInt32 x = (x : Int) := by
  unfold toInt32 U32
  have h1 : x % 2 ^ 32 = x := Nat.mod_eq_of_lt (by omega)
  rw [h1, if_pos h]

/-- C3. Time conversion: for `fcpu > 0`, `clks * 10 ^ 6` within 64 bits and
`clks / fcpu` within a signed 32-bit `int`, `dwtCyclesToTime` returns 0 and
stores `s = clks / fcpu`, `0 ≤ ms < 1000`, `0 ≤ us < 1000` with
`s * 10 ^ 6 + ms * 1000 + us = clks * 10 ^ 6 / fcpu`. -/
theorem dwtCyclesToTime_no_double_count (fcpu clks : Nat) (t0 : dwtTime)
    (hf : 0 < fcpu) (h64 : clks * 1000000 < 2 ^ 64) (hs : clks / fcpu < 2 ^ 31) :
    ∃ t : dwtTime, dwtCyclesToTime fcpu clks (some t0) = (0, some t) ∧
      t.s = ((clks / fcpu : Nat) : Int) ∧ 0 ≤ t.ms ∧ t.ms < 1000 ∧ 0 ≤ t.us ∧ t.us < 1000 ∧
      t.s * 1000000 + t.ms * 1000 + t.us = ((clks * 1000000 / fcpu : Nat) : Int) := by
  obtain ⟨hm, hmlt⟩ := scaled_div_split clks fcpu hf
  obtain ⟨hu, hult⟩ := scaled_div_split (clks * 1000) fcpu hf
  have e1 : clks * 1000 % U64 = clks * 1000 := Nat.mod_eq_of_lt (by unfold U64; omega)
  have e2 : clks * 1000 * 1000 % U64 = clks * 1000000 := by
    have : clks * 1000 * 1000 = clks * 1000000 := by ring
    rw [this]
    exact Nat.mod_eq_of_lt (by unfold U64; omega)
  have hm2 : clks * 1000 / fcpu = 1000 * (clks / fcpu) + 1000 * (clks % fcpu) / fcpu := by
    rw [Nat.mul_comm clks 1000]; exact hm
  have hu2 : clks * 1000000 / fcpu
      = 1000 * (clks * 1000 / fcpu) + 1000 * (clks * 1000 % fcpu) / fcpu := by
    have : clks * 1000000 = 1000 * (clks * 1000) := by ring
    rw [this]; exact hu
  generalize hq : clks / fcpu = q at *
  generalize hM : clks * 1000 / fcpu = M at *
  generalize hU : clks * 1000000 / fcpu = U at *
  generalize ha : 1000 * (clks % fcpu) / fcpu = a at *
  generalize hb : 1000 * (clks * 1000 % fcpu) / fcpu = b at *
  have hms : sub64 M (q * 1000 % U64) = a := by
    unfold sub64 U64
    omega
  have hus : sub64 U ((a * 1000 % U64 + q * 1000000 % U64) % U64) = b := by
    unfold sub64 U64
    omega
  refine ⟨{ fcpu := fcpu % U32, s := toInt32 q, ms := toInt32 a, us := toInt32 b }, ?_, ?_⟩
  · simp only [dwtCyclesToTime, e1, e2, hq, hM, hU, hms, hus]
  · simp only [toInt32_of_lt q hs, toInt32_of_lt a (by omega), toInt32_of_lt b (by omega)]
    refine ⟨trivial, ?_, ?_, ?_, ?_, ?_⟩ <;> omega

/-- Witness of C3: 123456789 cycles at 80 MHz are 1 s 543 ms 209 us. -/
theorem dwtCyclesToTime_no_double_count_witness :
    (0 < 80000000 ∧ 123456789 * 1000000 < 2 ^ 64 ∧ 123456789 / 80000000 < 2 ^ 31) ∧
    ∃ t : dwtTime, dwtCyclesToTime 80000000 123456789 (some default) = (0, some t) ∧
      t.s = ((123456789 / 80000000 : Nat) : Int) ∧ 0 ≤ t.ms ∧ t.ms < 1000 ∧ 0 ≤ t.us ∧
      t.us < 1000 ∧
      t.s * 1000000 + t.ms * 1000 + t.us = ((123456789 * 1000000 / 80000000 : Nat) : Int) :=
  ⟨⟨by decide, by decide, by decide⟩,
    dwtCyclesToTime_no_double_count 80000000 123456789 default (by decide) (by decide)
      (by decide)⟩

/-! ## Theorems about the allocator ledger -/

/-- Masking with `~3` clears the two low bits of a 32-bit value. -/
theorem and_not3_eq (x : Nat) (hx : x < 2 ^ 32) : x &&& 0xFFFFFFFC = x / 4 * 4 := by
  have hm : (0xFFFFFFFC : Nat) = (2 ^ 30 - 1) <<< 2 := by decide
  have hr : x / 4 * 4 = (x >>> 2) <<< 2 := by
    rw [Nat.shiftLeft_eq, Nat.shiftRight_eq_div_pow]
  rw [hm, hr]
  apply Nat.eq_of_testBit_eq
  intro i
  rw [Nat.testBit_and, Nat.testBit_shiftLeft, Nat.testBit_shiftLeft, Nat.testBit_shiftRight,
    Nat.testBit_two_pow_sub_one]
  by_cases h2 : i ≥ 2
  · have e : 2 + (i - 2) = i := by omega
    rw [e]
    by_cases h32 : i - 2 < 30
    · simp [h2, h32]
    · have hlt : x < 2 ^ i :=
        lt_of_lt_of_le hx (Nat.pow_le_pow_right (by decide) (by omega))
      simp [Nat.testBit_lt_two_pow hlt]
  · simp [h2]

/-- The rounding of the source agrees with rounding up to a multiple of 4
as long as `bytes + 3` does not wrap. -/
theorem alignUp_eq_roundUp4 (bytes : Nat) (h : bytes + 3 < 2 ^ 32) :
    alignUp bytes = roundUp4 bytes := by
  unfold alignUp roundUp4 U32
  rw [Nat.mod_eq_of_lt h]
  exact and_not3_eq _ h

/-- Setting bit 1 or bit 2 of `cfg` leaves the armed bit as it is. -/
theorem or_and_one (c k : Nat) (hk : k % 2 = 0) : (c ||| k) &&& 1 = c &&& 1 := by
  rw [Nat.and_one_is_mod, Nat.and_one_is_mod]
  have h1 := Nat.testBit_or c k 0
  rw [Nat.testBit_zero, Nat.testBit_zero, Nat.testBit_zero] at h1
  have hk0 : decide (k % 2 = 1) = false := by simp [hk]
  rw [hk0, Bool.or_false] at h1
  have h3 := Nat.mod_two_eq_zero_or_one (c ||| k)
  have h4 := Nat.mod_two_eq_zero_or_one c
  have h5 : ((c ||| k) % 2 = 1) ↔ (c % 2 = 1) := by
    constructor
    · intro h
      exact of_decide_eq_true (by rw [← h1]; exact decide_eq_true h)
    · intro h
      exact of_decide_eq_true (by rw [h1]; exact decide_eq_true h)
  omega

/-- The state after a successful `__wrap_malloc` on an armed ledger. -/
theorem wrap_malloc_armed (h : Heap) (bytes ret : Nat) (hret : ret ≠ 0)
    (harm : h.ia.cfg &&& 1 ≠ 0) (hfit : ret + roundUp4 bytes + 8 ≤ U32) :
    (__wrap_malloc h bytes ret).1 =
      ⟨{ cfg := h.ia.cfg ||| 2
         alloc := (h.ia.alloc + roundUp4 bytes) % U32
         free := h.ia.free
         alloc_req := (h.ia.alloc_req + 1) % U32
         free_req := h.ia.free_req
         max := if (h.ia.used + roundUp4 bytes) % U32 > h.ia.max
                then (h.ia.used + roundUp4 bytes) % U32 else h.ia.max
         used := (h.ia.used + roundUp4 bytes) % U32 },
       storeWord (storeWord h.mem ret (roundUp4 bytes)) (ret + 4 + roundUp4 bytes)
         MAGIC_MALLOC_NUMBER⟩ := by
  have hb : bytes + 3 < 2 ^ 32 := by
    unfold roundUp4 U32 at hfit
    omega
  have ha : alignUp bytes = roundUp4 bytes := alignUp_eq_roundUp4 bytes hb
  have harm2 : (h.ia.cfg ||| 2) &&& 1 ≠ 0 := by
    rw [or_and_one _ 2 (by decide)]
    exact harm
  have hmod : (ret + 4 + roundUp4 bytes) % U32 = ret + 4 + roundUp4 bytes :=
    Nat.mod_eq_of_lt (by omega)
  simp only [__wrap_malloc, ha, hmod, if_pos hret, if_pos (And.intro hret harm2)]

/-- The state after `__wrap_free` of a block whose header is intact, on an
armed ledger. -/
theorem wrap_free_armed (h : Heap) (b : Block) (harm : h.ia.cfg &&& 1 ≠ 0)
    (hhdr : h.mem b.base = b.size) (hfit : b.base + b.size + 8 ≤ U32) :
    __wrap_free h (b.base + 4) =
      ⟨{ cfg := h.ia.cfg ||| 4
         alloc := h.ia.alloc
         free := (h.ia.free + b.size) % U32
         alloc_req := h.ia.alloc_req
         free_req := (h.ia.free_req + 1) % U32
         max := h.ia.max
         used := sub32 h.ia.used b.size },
       if h.mem (b.base + 4 + b.size) = MAGIC_MALLOC_NUMBER
       then storeWord h.mem (b.base + 4 + b.size) 0 else h.mem⟩ := by
  have harm2 : (h.ia.cfg ||| 4) &&& 1 ≠ 0 := by
    rw [or_and_one _ 4 (by decide)]
    exact harm
  have hp : sub32 (b.base + 4) 4 = b.base := by
    unfold sub32
    unfold U32 at *
    omega
  have hmod : (b.base + 4 + b.size) % U32 = b.base + 4 + b.size :=
    Nat.mod_eq_of_lt (by omega)
  have hne : b.base + 4 ≠ 0 := by omega
  simp only [__wrap_free, if_neg hne, hp, hhdr, hmod, if_pos harm2]

/-- Blocks that lie apart are symmetric in that relation. -/
theorem Block.disjoint_symm : Symmetric Block.disjoint := by
  intro a b h
  unfold Block.disjoint at *
  omega

/-- In a list of blocks that lie apart, a block that remains after erasing
`b` lies apart from `b`. -/
theorem disjoint_of_mem_erase (live : List Block) (b c : Block)
    (hp : live.Pairwise Block.disjoint) (hb : b ∈ live) (hc : c ∈ live.erase b) :
    Block.disjoint b c := by
  have hnd : live.Nodup := by
    refine List.Pairwise.imp ?_ hp
    intro x y hxy hEq
    subst hEq
    unfold Block.disjoint at hxy
    omega
  have hc2 := (List.Nodup.mem_erase_iff hnd).1 hc
  exact List.Pairwise.forall Block.disjoint_symm hp hb hc2.2 (Ne.symm hc2.1)

/-- Erasing a live block lowers the outstanding byte count by its size. -/
theorem outstanding_erase (live : List Block) (b : Block) (hb : b ∈ live) :
    outstanding live = b.size + outstanding (live.erase b) := by
  unfold outstanding
  exact (List.sum_map_erase Block.size hb).symm

/-- A call accepted by `liveStep` keeps the relation `HeapInv`. -/
theorem heapInv_step (h : Heap) (live l : List Block) (op : HeapOp)
    (inv : HeapInv h live) (hs : liveStep live op = some l) :
    HeapInv (heapStep h op) l := by
  cases op with
  | malloc bytes ret =>
    simp only [liveStep] at hs
    split at hs
    · rename_i hfresh
      obtain ⟨hne, _, hfit, hdis⟩ := hfresh
      simp only [Option.some.injEq] at hs
      subst hs
      simp only at hne hfit hdis
      rw [heapStep, wrap_malloc_armed h bytes ret hne inv.armed hfit]
      have hu := inv.used_eq
      have ha := inv.alloc_eq
      have hq := inv.req_eq
      have hout : outstanding (⟨ret, roundUp4 bytes⟩ :: live)
          = roundUp4 bytes + outstanding live := by
        simp [outstanding]
      refine ⟨?_, ?_, ?_, ?_, ?_, ?_, ?_, inv.free_lt, inv.free_req_lt⟩
      · show (h.ia.cfg ||| 2) &&& 1 ≠ 0
        rw [or_and_one _ 2 (by decide)]
        exact inv.armed
      · intro b hb
        rcases List.mem_cons.1 hb with hEq | hmem
        · subst hEq
          simp only [storeWord]
          have hne2 : ¬ ret = ret + 4 + roundUp4 bytes := by omega
          simp [hne2]
        · have hd := hdis b hmem
          unfold Block.disjoint at hd
          simp only at hd
          simp only [storeWord]
          rw [if_neg (by omega), if_neg (by omega)]
          exact inv.hdr b hmem
      · intro b hb
        rcases List.mem_cons.1 hb with hEq | hmem
        · subst hEq
          exact ⟨hne, hfit⟩
        · exact inv.fits b hmem
      · exact List.pairwise_cons.2 ⟨hdis, inv.apart⟩
      · dsimp only
        rw [hout, hu]
        unfold U32
        omega
      · dsimp only
        rw [hout, ha]
        unfold U32
        omega
      · dsimp only
        rw [hq, List.length_cons]
        unfold U32
        omega
    · exact absurd hs (by simp)
  | free ptr =>
    simp only [liveStep] at hs
    split at hs
    · rename_i hnull
      simp only [Option.some.injEq] at hs
      subst hs
      subst hnull
      have hcfg : (h.ia.cfg ||| 4) &&& 1 ≠ 0 := by
        rw [or_and_one _ 4 (by decide)]
        exact inv.armed
      simp only [heapStep, __wrap_free, if_pos]
      exact ⟨hcfg, inv.hdr, inv.fits, inv.apart, inv.used_eq, inv.alloc_eq, inv.req_eq,
        inv.free_lt, inv.free_req_lt⟩
    · split at hs
      · rename_i b hfind
        simp only [Option.some.injEq] at hs
        subst hs
        have hb : b ∈ live := List.mem_of_find?_eq_some hfind
        have hptr : b.base + 4 = ptr := by
          have := List.find?_some hfind
          simpa using this
        have hbf := inv.fits b hb
        rw [heapStep, ← hptr, wrap_free_armed h b inv.armed (inv.hdr b hb) hbf.2]
        have hu := inv.used_eq
        have ha := inv.alloc_eq
        have hq := inv.req_eq
        have hfl := inv.free_lt
        have hout := outstanding_erase live b hb
        have hlen := List.length_erase_of_mem hb
        have hpos : 0 < live.length := List.length_pos_of_mem hb
        refine ⟨?_, ?_, ?_, ?_, ?_, ?_, ?_, ?_, ?_⟩
        · show (h.ia.cfg ||| 4) &&& 1 ≠ 0
          rw [or_and_one _ 4 (by decide)]
          exact inv.armed
        · intro c hc
          have hcl : c ∈ live := List.mem_of_mem_erase hc
          have hd := disjoint_of_mem_erase live b c inv.apart hb hc
          unfold Block.disjoint at hd
          show (if h.mem (b.base + 4 + b.size) = MAGIC_MALLOC_NUMBER
            then storeWord h.mem (b.base + 4 + b.size) 0 else h.mem) c.base = c.size
          split
          · simp only [storeWord]
            rw [if_neg (by omega)]
            exact inv.hdr c hcl
          · exact inv.hdr c hcl
        · intro c hc
          exact inv.fits c (List.mem_of_mem_erase hc)
        · exact List.Pairwise.sublist (List.erase_sublist b live) inv.apart
        · dsimp only
          rw [hu, hout]
          unfold sub32
          unfold U32 at *
          omega
        · dsimp only
          rw [ha, hout]
          unfold U32
          omega
        · dsimp only
          rw [hq, hlen]
          unfold U32
          omega
        · show (h.ia.free + b.size) % U32 < U32
          exact Nat.mod_lt _ (by decide)
        · show (h.ia.free_req + 1) % U32 < U32
          exact Nat.mod_lt _ (by decide)
      · exact absurd hs (by simp)

/-- The armed bit of `cfg | 1` is set. -/
theorem or_one_and_one (c : Nat) : (c ||| 1) &&& 1 ≠ 0 := by
  rw [Nat.and_one_is_mod]
  have h1 := Nat.testBit_or c 1 0
  rw [Nat.testBit_zero, Nat.testBit_zero, Nat.testBit_zero] at h1
  have h2 : decide (1 % 2 = 1) = true := by decide
  rw [h2, Bool.or_true] at h1
  have := of_decide_eq_true h1
  omega

/-- The zeroed, armed ledger with no live block satisfies `HeapInv`. -/
theorem heapInv_init (seen : Nat) (mem : Nat → Nat) :
    HeapInv ⟨armedLedger seen, mem⟩ [] := by
  refine ⟨or_one_and_one seen, ?_, ?_, List.Pairwise.nil, ?_, ?_, ?_, ?_, ?_⟩
  · intro b hb
    cases hb
  · intro b hb
    cases hb
  all_goals simp [armedLedger, outstanding, U32]

/-- A sequence of calls accepted by `track` keeps the relation `HeapInv`. -/
theorem heapInv_run (ops : List HeapOp) (h : Heap) (live l : List Block)
    (inv : HeapInv h live) (ht : track live ops = some l) :
    HeapInv (heapRun h ops) l := by
  induction ops generalizing h live with
  | nil =>
    simp only [track, Option.some.injEq] at ht
    subst ht
    exact inv
  | cons op ops ih =>
    simp only [track] at ht
    split at ht
    · rename_i l1 hs
      exact ih (heapStep h op) l1 (heapInv_step h live l1 op inv hs) ht
    · exact absurd ht (by simp)

/-- C4. Ledger balance: from a zeroed, armed ledger, after a sequence of
successful `__wrap_malloc` calls and `__wrap_free` calls in which every
allocated block is freed exactly once and nothing else is freed (the live
list is empty again at the end), `used` is 0, `alloc = free` and
`alloc_req = free_req`. -/
theorem ledger_balanced (seen : Nat) (mem : Nat → Nat) (ops : List HeapOp)
    (hbal : track [] ops = some []) :
    (heapRun ⟨armedLedger seen, mem⟩ ops).ia.used = 0 ∧
    (heapRun ⟨armedLedger seen, mem⟩ ops).ia.alloc
      = (heapRun ⟨armedLedger seen, mem⟩ ops).ia.free ∧
    (heapRun ⟨armedLedger seen, mem⟩ ops).ia.alloc_req
      = (heapRun ⟨armedLedger seen, mem⟩ ops).ia.free_req := by
  have inv := heapInv_run ops ⟨armedLedger seen, mem⟩ [] [] (heapInv_init seen mem) hbal
  have hu := inv.used_eq
  have ha := inv.alloc_eq
  have hq := inv.req_eq
  have h1 := inv.free_lt
  have h2 := inv.free_req_lt
  simp only [outstanding, List.map_nil, List.sum_nil, List.length_nil, Nat.add_zero] at hu ha hq
  refine ⟨?_, ?_, ?_⟩
  · rw [hu]
    decide
  · rw [ha]
    exact Nat.mod_eq_of_lt h1
  · rw [hq]
    exact Nat.mod_eq_of_lt h2

/-- Witness of C4: two blocks of 10 and 5 bytes, freed in allocation order. -/
theorem ledger_balanced_witness :
    track [] [.malloc 10 0x20001000, .malloc 5 0x20002000, .free 0x20001004,
      .free 0x20002004] = some [] ∧
    (heapRun ⟨armedLedger 6, fun _ => 0⟩ [.malloc 10 0x20001000, .malloc 5 0x20002000,
      .free 0x20001004, .free 0x20002004]).ia.used = 0 :=
  ⟨by decide,
    (ledger_balanced 6 (fun _ => 0) [.malloc 10 0x20001000, .malloc 5 0x20002000,
      .free 0x20001004, .free 0x20002004] (by decide)).1⟩

/-- The outstanding byte count at the start is one of the counts `peak`
ranges over. -/
theorem outstanding_le_peak (live : List Block) (ops : List HeapOp) :
    outstanding live ≤ peak live ops := by
  cases ops with
  | nil => exact Nat.le_refl _
  | cons op ops =>
    simp only [peak]
    split
    · exact Nat.le_max_left _ _
    · exact Nat.le_refl _

/-- For an accepted sequence of calls `peak` is the maximum of the
outstanding byte count over the prefixes: every prefix stays below it and
some prefix reaches it. -/
theorem peak_is_prefix_maximum (ops : List HeapOp) (live : List Block)
    (hv : (track live ops).isSome) :
    (∀ n l, track live (ops.take n) = some l → outstanding l ≤ peak live ops) ∧
    (∃ n l, n ≤ ops.length ∧ track live (ops.take n) = some l ∧
      outstanding l = peak live ops) := by
  induction ops generalizing live with
  | nil =>
    refine ⟨?_, 0, live, Nat.le_refl _, rfl, rfl⟩
    intro n l hl
    simp only [List.take_nil, track, Option.some.injEq] at hl
    subst hl
    exact Nat.le_refl _
  | cons op ops ih =>
    simp only [track] at hv
    split at hv
    · rename_i l1 hs
      obtain ⟨ih1, m, lm, hm, htm, hom⟩ := ih l1 hv
      simp only [peak, hs]
      constructor
      · intro n l hl
        cases n with
        | zero =>
          simp only [List.take_zero, track, Option.some.injEq] at hl
          subst hl
          exact Nat.le_max_left _ _
        | succ k =>
          simp only [List.take_succ_cons, track, hs] at hl
          exact Nat.le_trans (ih1 k l hl) (Nat.le_max_right _ _)
      · by_cases hc : peak l1 ops ≤ outstanding live
        · exact ⟨0, live, Nat.zero_le _, rfl, by omega⟩
        · refine ⟨m + 1, lm, by simpa using hm, ?_, by omega⟩
          simp only [List.take_succ_cons, track, hs]
          exact htm
    · exact absurd hv (by simp)

/-- One accepted call, when the outstanding bytes fit in 32 bits: `used` is
the outstanding byte count and `max` the larger of the old `max` and it. -/
theorem heapStep_max (h : Heap) (live l : List Block) (op : HeapOp)
    (inv : HeapInv h live) (hs : liveStep live op = some l)
    (hu : h.ia.used = outstanding live) (hm : h.ia.used ≤ h.ia.max)
    (hr : outstanding l < U32) :
    (heapStep h op).ia.used = outstanding l ∧
    (heapStep h op).ia.max = max h.ia.max (outstanding l) := by
  have inv1 := heapInv_step h live l op inv hs
  have hused : (heapStep h op).ia.used = outstanding l := by
    rw [inv1.used_eq]
    exact Nat.mod_eq_of_lt hr
  refine ⟨hused, ?_⟩
  cases op with
  | malloc bytes ret =>
    simp only [liveStep] at hs
    split at hs
    · rename_i hfresh
      obtain ⟨hne, _, hfit, _⟩ := hfresh
      simp only [Option.some.injEq] at hs
      subst hs
      simp only at hne hfit
      rw [heapStep, wrap_malloc_armed h bytes ret hne inv.armed hfit] at hused ⊢
      dsimp only at hused ⊢
      rw [hused]
      split <;> omega
    · exact absurd hs (by simp)
  | free ptr =>
    simp only [liveStep] at hs
    split at hs
    · rename_i hnull
      simp only [Option.some.injEq] at hs
      subst hs
      subst hnull
      simp only [heapStep, __wrap_free, if_pos]
      omega
    · split at hs
      · rename_i b hfind
        simp only [Option.some.injEq] at hs
        subst hs
        have hb : b ∈ live := List.mem_of_find?_eq_some hfind
        have hptr : b.base + 4 = ptr := by
          have := List.find?_some hfind
          simpa using this
        have hout := outstanding_erase live b hb
        rw [heapStep, ← hptr, wrap_free_armed h b inv.armed (inv.hdr b hb) (inv.fits b hb).2]
        dsimp only
        omega
      · exact absurd hs (by simp)

/-- A sequence of accepted calls whose outstanding bytes always fit in 32
bits: the final `max` is the larger of the initial `max` and the peak. -/
theorem peak_run (ops : List HeapOp) (h : Heap) (live l : List Block)
    (inv : HeapInv h live) (hu : h.ia.used = outstanding live) (hm : h.ia.used ≤ h.ia.max)
    (ht : track live ops = some l) (hr : peak live ops < U32) :
    (heapRun h ops).ia.max = max h.ia.max (peak live ops) := by
  induction ops generalizing h live with
  | nil =>
    simp only [heapRun, peak]
    omega
  | cons op ops ih =>
    simp only [track] at ht
    split at ht
    · rename_i l1 hs
      simp only [peak, hs] at hr ⊢
      have hle := outstanding_le_peak l1 ops
      have hr1 : outstanding l1 < U32 := by omega
      obtain ⟨hu1, hm1⟩ := heapStep_max h live l1 op inv hs hu hm hr1
      have inv1 := heapInv_step h live l1 op inv hs
      have := ih (heapStep h op) l1 inv1 hu1 (by omega) ht (by omega)
      simp only [heapRun]
      omega
    · exact absurd ht (by simp)

/-- C5. Ledger peak: from a zeroed, armed ledger, after a sequence of
successful allocations and frees of live blocks whose outstanding bytes
never exceed `2 ^ 32 - 1`, `max` is the largest outstanding byte count (sum
of the rounded sizes of the live blocks) over all prefixes of the sequence. -/
theorem ledger_peak (seen : Nat) (mem : Nat → Nat) (ops : List HeapOp)
    (hv : (track [] ops).isSome) (hr : peak [] ops ≤ 2 ^ 32 - 1) :
    (heapRun ⟨armedLedger seen, mem⟩ ops).ia.max = peak [] ops := by
  obtain ⟨l, ht⟩ := Option.isSome_iff_exists.1 hv
  have hr2 : peak [] ops < U32 := by
    unfold U32
    omega
  have := peak_run ops ⟨armedLedger seen, mem⟩ [] l (heapInv_init seen mem) rfl
    (Nat.le_refl _) ht hr2
  rw [this]
  simp [armedLedger]

/-- Witness of C5: blocks of 10, 5 and 7 bytes with one release in between;
one block stays live and the peak of 20 bytes is reached after two calls. -/
theorem ledger_peak_witness :
    ((track [] [.malloc 10 0x20001000, .malloc 5 0x20002000, .free 0x20001004,
      .malloc 7 0x20003000]).isSome ∧
     peak [] [.malloc 10 0x20001000, .malloc 5 0x20002000, .free 0x20001004,
      .malloc 7 0x20003000] ≤ 2 ^ 32 - 1) ∧
    (heapRun ⟨armedLedger 6, fun _ => 0⟩ [.malloc 10 0x20001000, .malloc 5 0x20002000,
      .free 0x20001004, .malloc 7 0x20003000]).ia.max
      = peak [] [.malloc 10 0x20001000, .malloc 5 0x20002000, .free 0x20001004,
          .malloc 7 0x20003000] :=
  ⟨⟨by decide, by decide⟩,
    ledger_peak 6 (fun _ => 0) [.malloc 10 0x20001000, .malloc 5 0x20002000,
      .free 0x20001004, .malloc 7 0x20003000] (by decide) (by decide)⟩

/-- The memory after a successful `__wrap_malloc` and the pointer it
returns, armed or not. -/
theorem wrap_malloc_mem (h : Heap) (bytes ret : Nat) (hret : ret ≠ 0)
    (hfit : ret + roundUp4 bytes + 8 ≤ U32) :
    (__wrap_malloc h bytes ret).1.mem =
      storeWord (storeWord h.mem ret (roundUp4 bytes)) (ret + 4 + roundUp4 bytes)
        MAGIC_MALLOC_NUMBER ∧
    (__wrap_malloc h bytes ret).2 = ret + 4 := by
  have hb : bytes + 3 < 2 ^ 32 := by
    unfold roundUp4 U32 at hfit
    omega
  have ha : alignUp bytes = roundUp4 bytes := alignUp_eq_roundUp4 bytes hb
  have hmod : (ret + 4 + roundUp4 bytes) % U32 = ret + 4 + roundUp4 bytes :=
    Nat.mod_eq_of_lt (by omega)
  have hmod2 : (ret + 4) % U32 = ret + 4 := Nat.mod_eq_of_lt (by omega)
  simp only [__wrap_malloc, ha, hmod, hmod2, if_pos hret, and_self]

/-- The ledger after `__wrap_free` depends on the memory only through the
header word of the block. -/
theorem wrap_free_ia_congr (ia : ia_malloc) (m1 m2 : Nat → Nat) (ptr : Nat)
    (hh : m1 (sub32 ptr 4) = m2 (sub32 ptr 4)) :
    (__wrap_free ⟨ia, m1⟩ ptr).ia = (__wrap_free ⟨ia, m2⟩ ptr).ia := by
  unfold __wrap_free
  by_cases hp : ptr = 0
  · simp only [if_pos hp]
  · simp only [if_neg hp, hh]

/-- C6, the claim as stated fails: a block of 10 bytes is allocated at
0x20001000 on an armed ledger, its trailer word at 0x20001010 is overwritten
with 0x41414141, and `__wrap_free` leaves exactly the ledger that the free of
the intact block leaves. -/
theorem trailer_corruption_not_flagged :
    (__wrap_free (userStore (__wrap_malloc ⟨armedLedger 6, fun _ => 0⟩ 10 0x20001000).1
        0x20001010 0x41414141) 0x20001004).ia
      = (__wrap_free (__wrap_malloc ⟨armedLedger 6, fun _ => 0⟩ 10 0x20001000).1
          0x20001004).ia ∧
    (__wrap_malloc ⟨armedLedger 6, fun _ => 0⟩ 10 0x20001000).1.mem 0x20001010
      = MAGIC_MALLOC_NUMBER ∧
    (__wrap_malloc ⟨armedLedger 6, fun _ => 0⟩ 10 0x20001000).2 = 0x20001004 := by
  decide

/-- C6 as amended. For every block returned by `__wrap_malloc` whose trailer
word is overwritten with a value other than `MAGIC_MALLOC_NUMBER` before
the free, `__wrap_free` leaves the same ledger (`cfg` and all counters) as
for the intact block; the only difference is in memory, where the intact
sentinel is cleared to 0 and the overwritten word is left as it is. -/
theorem trailer_corruption_same_ledger (h : Heap) (bytes ret v : Nat) (hret : ret ≠ 0)
    (hfit : ret + roundUp4 bytes + 8 ≤ U32) (hv : v ≠ MAGIC_MALLOC_NUMBER) :
    (__wrap_free (userStore (__wrap_malloc h bytes ret).1 (ret + 4 + roundUp4 bytes) v)
        (__wrap_malloc h bytes ret).2).ia
      = (__wrap_free (__wrap_malloc h bytes ret).1 (__wrap_malloc h bytes ret).2).ia ∧
    (__wrap_free (userStore (__wrap_malloc h bytes ret).1 (ret + 4 + roundUp4 bytes) v)
        (__wrap_malloc h bytes ret).2).mem (ret + 4 + roundUp4 bytes) = v ∧
    (__wrap_free (__wrap_malloc h bytes ret).1 (__wrap_malloc h bytes ret).2).mem
        (ret + 4 + roundUp4 bytes) = 0 := by
  obtain ⟨hmem, hptr⟩ := wrap_malloc_mem h bytes ret hret hfit
  have hp : sub32 (ret + 4) 4 = ret := by
    unfold sub32
    unfold U32 at *
    omega
  have hne : ¬ ret = ret + 4 + roundUp4 bytes := by omega
  have hne4 : ret + 4 ≠ 0 := by omega
  have hmod : (ret + 4 + roundUp4 bytes) % U32 = ret + 4 + roundUp4 bytes :=
    Nat.mod_eq_of_lt (by omega)
  have hhdr : (__wrap_malloc h bytes ret).1.mem ret = roundUp4 bytes := by
    rw [hmem]
    simp [storeWord, hne]
  have htrl : (__wrap_malloc h bytes ret).1.mem (ret + 4 + roundUp4 bytes)
      = MAGIC_MALLOC_NUMBER := by
    rw [hmem]
    simp [storeWord]
  rw [hptr]
  refine ⟨?_, ?_, ?_⟩
  · exact wrap_free_ia_congr (__wrap_malloc h bytes ret).1.ia
      (storeWord (__wrap_malloc h bytes ret).1.mem (ret + 4 + roundUp4 bytes) v)
      (__wrap_malloc h bytes ret).1.mem (ret + 4)
      (by rw [hp]; simp only [storeWord, if_neg hne])
  · have hhdr2 : storeWord (__wrap_malloc h bytes ret).1.mem (ret + 4 + roundUp4 bytes) v ret
        = roundUp4 bytes := by
      simp only [storeWord, if_neg hne]
      exact hhdr
    have htrl2 : storeWord (__wrap_malloc h bytes ret).1.mem (ret + 4 + roundUp4 bytes) v
        (ret + 4 + roundUp4 bytes) = v := by
      simp [storeWord]
    simp only [__wrap_free, userStore, if_neg hne4, hp, hhdr2, hmod, htrl2, if_neg hv]
  · simp only [__wrap_free, if_neg hne4, hp, hhdr, hmod, htrl, if_true]
    simp [storeWord]

/-- Witness of C6 as amended: the block of 10 bytes at 0x20001000 with its
trailer overwritten by 0x41414141. -/
theorem trailer_corruption_same_ledger_witness :
    ((0x20001000 : Nat) ≠ 0 ∧ 0x20001000 + roundUp4 10 + 8 ≤ U32 ∧
      (0x41414141 : Nat) ≠ MAGIC_MALLOC_NUMBER) ∧
    (__wrap_free (userStore (__wrap_malloc ⟨armedLedger 6, fun _ => 0⟩ 10 0x20001000).1
        (0x20001000 + 4 + roundUp4 10) 0x41414141)
        (__wrap_malloc ⟨armedLedger 6, fun _ => 0⟩ 10 0x20001000).2).ia
      = (__wrap_free (__wrap_malloc ⟨armedLedger 6, fun _ => 0⟩ 10 0x20001000).1
          (__wrap_malloc ⟨armedLedger 6, fun _ => 0⟩ 10 0x20001000).2).ia :=
  ⟨⟨by decide, by decide, by decide⟩,
    (trailer_corruption_same_ledger ⟨armedLedger 6, fun _ => 0⟩ 10 0x20001000 0x41414141
      (by decide) (by decide) (by decide)).1⟩

/-- C7. Disarmed ledger: when bit 0 of `cfg` is clear, every `__wrap_malloc`
call (whatever `__real_malloc` returns) and every `__wrap_free` call leave
`alloc`, `free`, `alloc_req`, `free_req`, `max` and `used` as they are;
`cfg` only gains bit 1 (`malloc` seen), respectively bit 2 (`free` seen),
and its armed bit stays clear. -/
theorem disarmed_ledger_unchanged (h : Heap) (bytes ret ptr : Nat)
    (hd : h.ia.cfg &&& 1 = 0) :
    (__wrap_malloc h bytes ret).1.ia = { h.ia with cfg := h.ia.cfg ||| 2 } ∧
    (__wrap_free h ptr).ia = { h.ia with cfg := h.ia.cfg ||| 4 } ∧
    (h.ia.cfg ||| 2) &&& 1 = 0 ∧ (h.ia.cfg ||| 4) &&& 1 = 0 := by
  have h2 : (h.ia.cfg ||| 2) &&& 1 = 0 := by
    rw [or_and_one _ 2 (by decide)]
    exact hd
  have h4 : (h.ia.cfg ||| 4) &&& 1 = 0 := by
    rw [or_and_one _ 4 (by decide)]
    exact hd
  refine ⟨?_, ?_, h2, h4⟩
  · simp [__wrap_malloc, h2]
  · unfold __wrap_free
    by_cases hp : ptr = 0
    · simp [hp]
    · simp [hp, h4]

/-- Witness of C7: a disarmed ledger with `cfg = 6` and non-zero counters. -/
theorem disarmed_ledger_unchanged_witness :
    (⟨⟨6, 20, 12, 2, 1, 20, 8⟩, fun _ => 0⟩ : Heap).ia.cfg &&& 1 = 0 ∧
    (__wrap_malloc ⟨⟨6, 20, 12, 2, 1, 20, 8⟩, fun _ => 0⟩ 10 0x20001000).1.ia
      = ⟨6, 20, 12, 2, 1, 20, 8⟩ ∧
    (__wrap_free ⟨⟨6, 20, 12, 2, 1, 20, 8⟩, fun _ => 0⟩ 0x20001004).ia
      = ⟨6, 20, 12, 2, 1, 20, 8⟩ :=
  ⟨by decide,
    (disarmed_ledger_unchanged ⟨⟨6, 20, 12, 2, 1, 20, 8⟩, fun _ => 0⟩ 10 0x20001000
      0x20001004 (by decide)).1,
    (disarmed_ledger_unchanged ⟨⟨6, 20, 12, 2, 1, 20, 8⟩, fun _ => 0⟩ 10 0x20001000
      0x20001004 (by decide)).2.1⟩

/-! ## Theorems about the node timing observer -/

/-- A post event entered `d` cycles after the recorded exit timestamp `x`
measures `d`. -/
theorem sub64_add_cancel (x d : Nat) (h : x + d < U32) : sub64 (x + d) x = d := by
  unfold sub64
  unfold U32 at h
  unfold U64
  omega

/-- The pre and the post event of one unit: the kernel duration grows by `d`
and the unit is bumped by `d`. -/
theorem observe_unit (POST pre post i d : Nat) (st : UnitStamps) (c : u_observer_ctx)
    (es : List ObsEvent) (hpre : pre &&& POST = 0) (hpost : post &&& POST ≠ 0)
    (hts : st.pre_out + d < U32) :
    ∃ c1 : u_observer_ctx,
      observe POST c (unitEvents pre post i d st ++ es) = observe POST c1 es ∧
      c1.k_dur_t = (c.k_dur_t + d) % U64 ∧ c1.nodes = bumpNode d c.nodes i := by
  have hpre2 : ¬ (pre &&& POST ≠ 0) := by
    intro hc
    exact hc hpre
  refine ⟨user_observer_cb POST (user_observer_cb POST c pre i st.pre_in st.pre_out) post i
    (st.pre_out + d) st.post_out, ?_, ?_, ?_⟩
  · rfl
  · simp only [user_observer_cb, if_neg hpre2, if_pos hpost, sub64_add_cancel _ _ hts]
  · simp only [user_observer_cb, if_neg hpre2, if_pos hpost, sub64_add_cancel _ _ hts]

/-- One run of the three units from a context with three entries. -/
theorem observe_run (POST pre post d0 d1 d2 : Nat) (r : RunStamps) (c : u_observer_ctx)
    (es : List ObsEvent) (a0 a1 a2 : u_node_stat)
    (hpre : pre &&& POST = 0) (hpost : post &&& POST ≠ 0)
    (hr : r.inRange d0 d1 d2) (hn : c.nodes = [a0, a1, a2]) :
    ∃ c1 : u_observer_ctx,
      observe POST c (runEvents pre post d0 d1 d2 r ++ es) = observe POST c1 es ∧
      c1.k_dur_t = (((c.k_dur_t + d0) % U64 + d1) % U64 + d2) % U64 ∧
      c1.nodes = [⟨(a0.dur + d0) % U64, (a0.n_runs + 1) % U32⟩,
                  ⟨(a1.dur + d1) % U64, (a1.n_runs + 1) % U32⟩,
                  ⟨(a2.dur + d2) % U64, (a2.n_runs + 1) % U32⟩] := by
  obtain ⟨h0, h1, h2⟩ := hr
  obtain ⟨c1, e1, k1, n1⟩ := observe_unit POST pre post 0 d0 r.u0 c
    (unitEvents pre post 1 d1 r.u1 ++ (unitEvents pre post 2 d2 r.u2 ++ es)) hpre hpost h0
  obtain ⟨c2, e2, k2, n2⟩ := observe_unit POST pre post 1 d1 r.u1 c1
    (unitEvents pre post 2 d2 r.u2 ++ es) hpre hpost h1
  obtain ⟨c3, e3, k3, n3⟩ := observe_unit POST pre post 2 d2 r.u2 c2 es hpre hpost h2
  refine ⟨c3, ?_, ?_, ?_⟩
  · rw [runEvents, List.append_assoc, List.append_assoc, e1, e2, e3]
  · rw [k3, k2, k1]
  · rw [n3, n2, n1, hn]
    rfl

/-- Any number of runs of the three units, from a context whose kernel
duration and entries are given modulo the widths of their fields. -/
theorem observe_workload (POST pre post d0 d1 d2 : Nat)
    (hpre : pre &&& POST = 0) (hpost : post &&& POST ≠ 0) (runs : List RunStamps)
    (hall : ∀ r ∈ runs, r.inRange d0 d1 d2) (c : u_observer_ctx)
    (K A0 A1 A2 n0 n1 n2 : Nat) (hK : c.k_dur_t = K % U64)
    (hn : c.nodes = [⟨A0 % U64, n0 % U32⟩, ⟨A1 % U64, n1 % U32⟩, ⟨A2 % U64, n2 % U32⟩]) :
    (observe POST c (workloadEvents pre post d0 d1 d2 runs)).k_dur_t
      = (K + runs.length * (d0 + d1 + d2)) % U64 ∧
    (observe POST c (workloadEvents pre post d0 d1 d2 runs)).nodes
      = [⟨(A0 + runs.length * d0) % U64, (n0 + runs.length) % U32⟩,
         ⟨(A1 + runs.length * d1) % U64, (n1 + runs.length) % U32⟩,
         ⟨(A2 + runs.length * d2) % U64, (n2 + runs.length) % U32⟩] := by
  induction runs generalizing c K A0 A1 A2 n0 n1 n2 with
  | nil =>
    simp only [workloadEvents, observe, List.length_nil, Nat.zero_mul, Nat.add_zero]
    exact ⟨hK, hn⟩
  | cons r rs ih =>
    obtain ⟨c1, e1, hk1, hnodes1⟩ := observe_run POST pre post d0 d1 d2 r c
      (workloadEvents pre post d0 d1 d2 rs) _ _ _ hpre hpost
      (hall r (List.mem_cons_self r rs)) hn
    have hK1 : c1.k_dur_t = (K + (d0 + d1 + d2)) % U64 := by
      rw [hk1, hK]
      unfold U64
      omega
    have hn1 : c1.nodes = [⟨(A0 + d0) % U64, (n0 + 1) % U32⟩, ⟨(A1 + d1) % U64, (n1 + 1) % U32⟩,
        ⟨(A2 + d2) % U64, (n2 + 1) % U32⟩] := by
      rw [hnodes1]
      simp only [Nat.mod_add_mod]
    have := ih (fun r1 h1 => hall r1 (List.mem_cons_of_mem r h1)) c1 (K + (d0 + d1 + d2))
      (A0 + d0) (A1 + d1) (A2 + d2) (n0 + 1) (n1 + 1) (n2 + 1) hK1 hn1
    rw [workloadEvents, e1, List.length_cons]
    have q : ∀ a x : Nat, a + x + rs.length * x = a + (rs.length + 1) * x := by
      intro a x
      ring
    have q1 : ∀ a : Nat, a + 1 + rs.length = a + (rs.length + 1) := by
      intro a
      omega
    rw [q, q A0 d0, q A1 d1, q A2 d2, q1, q1, q1] at this
    exact this

/-- C8. Node timing total: from the zeroed context of a workload of 3 units,
after `k` runs in each of which the post event of unit `i` is entered `d_i`
cycles after the exit timestamp of the preceding callback (the timestamps
being values of the 32-bit counter, and the totals fitting their fields),
`k_dur_t = k * (d0 + d1 + d2)`, `nodes[i].dur = k * d_i` and
`nodes[i].n_runs = k`. -/
theorem node_timing_total (POST pre post d0 d1 d2 : Nat) (runs : List RunStamps)
    (hpre : pre &&& POST = 0) (hpost : post &&& POST ≠ 0)
    (hall : ∀ r ∈ runs, r.inRange d0 d1 d2)
    (hk : runs.length < U32) (hfit : runs.length * (d0 + d1 + d2) < U64) :
    (observe POST (observerInit 3) (workloadEvents pre post d0 d1 d2 runs)).k_dur_t
      = runs.length * (d0 + d1 + d2) ∧
    (observe POST (observerInit 3) (workloadEvents pre post d0 d1 d2 runs)).nodes
      = [⟨runs.length * d0, runs.length⟩, ⟨runs.length * d1, runs.length⟩,
         ⟨runs.length * d2, runs.length⟩] := by
  have h := observe_workload POST pre post d0 d1 d2 hpre hpost runs hall (observerInit 3)
    0 0 0 0 0 0 0 rfl rfl
  simp only [Nat.zero_add] at h
  have e0 : runs.length * d0 % U64 = runs.length * d0 :=
    Nat.mod_eq_of_lt (by nlinarith [Nat.zero_le (runs.length * d1), Nat.zero_le (runs.length * d2)])
  have e1 : runs.length * d1 % U64 = runs.length * d1 :=
    Nat.mod_eq_of_lt (by nlinarith [Nat.zero_le (runs.length * d0), Nat.zero_le (runs.length * d2)])
  have e2 : runs.length * d2 % U64 = runs.length * d2 :=
    Nat.mod_eq_of_lt (by nlinarith [Nat.zero_le (runs.length * d0), Nat.zero_le (runs.length * d1)])
  rw [Nat.mod_eq_of_lt hfit, Nat.mod_eq_of_lt hk, e0, e1, e2] at h
  exact h

/-- Witness of C8: two runs of three units lasting 100, 200 and 50 cycles,
with the event flags 2 (pre) and 4 (post). -/
theorem node_timing_total_witness :
    ((2 : Nat) &&& 4 = 0 ∧ (4 : Nat) &&& 4 ≠ 0 ∧
      (∀ r ∈ [(⟨⟨10, 15, 130⟩, ⟨140, 150, 360⟩, ⟨370, 380, 440⟩⟩ : RunStamps),
          ⟨⟨12, 18, 131⟩, ⟨141, 155, 366⟩, ⟨377, 383, 447⟩⟩], r.inRange 100 200 50) ∧
      [(⟨⟨10, 15, 130⟩, ⟨140, 150, 360⟩, ⟨370, 380, 440⟩⟩ : RunStamps),
          ⟨⟨12, 18, 131⟩, ⟨141, 155, 366⟩, ⟨377, 383, 447⟩⟩].length < U32 ∧
      [(⟨⟨10, 15, 130⟩, ⟨140, 150, 360⟩, ⟨370, 380, 440⟩⟩ : RunStamps),
          ⟨⟨12, 18, 131⟩, ⟨141, 155, 366⟩, ⟨377, 383, 447⟩⟩].length * (100 + 200 + 50) < U64) ∧
    (observe 4 (observerInit 3) (workloadEvents 2 4 100 200 50
        [⟨⟨10, 15, 130⟩, ⟨140, 150, 360⟩, ⟨370, 380, 440⟩⟩,
         ⟨⟨12, 18, 131⟩, ⟨141, 155, 366⟩, ⟨377, 383, 447⟩⟩])).k_dur_t = 2 * (100 + 200 + 50) ∧
    (observe 4 (observerInit 3) (workloadEvents 2 4 100 200 50
        [⟨⟨10, 15, 130⟩, ⟨140, 150, 360⟩, ⟨370, 380, 440⟩⟩,
         ⟨⟨12, 18, 131⟩, ⟨141, 155, 366⟩, ⟨377, 383, 447⟩⟩])).nodes
      = [⟨2 * 100, 2⟩, ⟨2 * 200, 2⟩, ⟨2 * 50, 2⟩] :=
  ⟨⟨by decide, by decide, by decide, by decide, by decide⟩,
    node_timing_total 4 2 4 100 200 50
      [⟨⟨10, 15, 130⟩, ⟨140, 150, 360⟩, ⟨370, 380, 440⟩⟩,
       ⟨⟨12, 18, 131⟩, ⟨141, 155, 366⟩, ⟨377, 383, 447⟩⟩]
      (by decide) (by decide) (by decide) (by decide) (by decide)⟩

/-- C10. Per-unit average: for a unit with run count `n > 0` and cumulative
duration `D`, the average `aiObserverDone` computes is `a = D / n` rounded
down, so `a * n ≤ D < a * n + n`. -/
theorem node_average_consistent (sn : u_node_stat) (hn : 0 < sn.n_runs) :
    ∃ a : Nat, nodeAverage sn = some a ∧ a = sn.dur / sn.n_runs ∧
      a * sn.n_runs ≤ sn.dur ∧ sn.dur < a * sn.n_runs + sn.n_runs := by
  refine ⟨sn.dur / sn.n_runs, ?_, rfl, Nat.div_mul_le_self _ _, ?_⟩
  · simp only [nodeAverage, if_neg (Nat.pos_iff_ne_zero.1 hn)]
  · have h1 := Nat.div_add_mod sn.dur sn.n_runs
    have h2 := Nat.mod_lt sn.dur hn
    rw [Nat.mul_comm] at h1
    generalize sn.dur / sn.n_runs * sn.n_runs = q at *
    omega

/-- Witness of C10: 1003 cycles over 4 runs average to 250 cycles. -/
theorem node_average_consistent_witness :
    0 < (⟨1003, 4⟩ : u_node_stat).n_runs ∧
    ∃ a : Nat, nodeAverage ⟨1003, 4⟩ = some a ∧
      a = (⟨1003, 4⟩ : u_node_stat).dur / (⟨1003, 4⟩ : u_node_stat).n_runs ∧
      a * (⟨1003, 4⟩ : u_node_stat).n_runs ≤ (⟨1003, 4⟩ : u_node_stat).dur ∧
      (⟨1003, 4⟩ : u_node_stat).dur
        < a * (⟨1003, 4⟩ : u_node_stat).n_runs + (⟨1003, 4⟩ : u_node_stat).n_runs :=
  ⟨by decide, node_average_consistent ⟨1003, 4⟩ (by decide)⟩

set_option maxRecDepth 100000

/-! ## Theorems about the stack watermark monitor -/

/-- The words below `cstack` from an address below it: that address first. -/
theorem wordsBelow_cons (pr cstack : Nat) (h : pr < cstack) :
    wordsBelow pr cstack = pr :: wordsBelow (pr + 4) cstack := by
  unfold wordsBelow
  have hn : (cstack - pr + 3) / 4 = (cstack - (pr + 4) + 3) / 4 + 1 := by omega
  rw [hn, List.range_succ_eq_map, List.map_cons, List.map_map]
  congr 1
  apply List.map_congr_left
  intro i _
  simp only [Function.comp, Nat.succ_eq_add_one]
  omega

/-- No word starts below `cstack` from an address at or above it. -/
theorem wordsBelow_nil (pr cstack : Nat) (h : cstack ≤ pr) : wordsBelow pr cstack = [] := by
  unfold wordsBelow
  have hn : (cstack - pr + 3) / 4 = 0 := by omega
  rw [hn]
  rfl

/-- The count of contiguous sentinel words, one word at a time. -/
theorem sentinelWords_step (mem : Nat → Nat) (pr cstack : Nat) :
    sentinelWords mem pr cstack =
      if mem pr = STACK_SENTINEL ∧ pr < cstack then 1 + sentinelWords mem (pr + 4) cstack
      else 0 := by
  by_cases hlt : pr < cstack
  · unfold sentinelWords
    rw [wordsBelow_cons pr cstack hlt]
    by_cases hm : mem pr = STACK_SENTINEL
    · rw [if_pos ⟨hm, hlt⟩, List.takeWhile_cons_of_pos (by simp [hm]), List.length_cons]
      omega
    · rw [if_neg (fun hc => hm hc.1), List.takeWhile_cons_of_neg (by simp [hm])]
      rfl
  · unfold sentinelWords
    rw [wordsBelow_nil pr cstack (by omega), if_neg (fun hc => hlt hc.2)]
    rfl

/-- With enough iterations allowed the scan loop adds 4 bytes for each
contiguous sentinel word below `cstack`. -/
theorem scanLoop_eq (mem : Nat → Nat) (cstack : Nat) (fuel pr susage : Nat)
    (hfuel : (cstack - pr + 3) / 4 ≤ fuel) (hs : susage < U32) :
    scanLoop mem cstack fuel pr susage = (susage + 4 * sentinelWords mem pr cstack) % U32 := by
  induction fuel generalizing pr susage with
  | zero =>
    have hge : cstack ≤ pr := by omega
    rw [sentinelWords_step, if_neg (fun hc => by omega)]
    simp only [scanLoop, Nat.mul_zero, Nat.add_zero]
    exact (Nat.mod_eq_of_lt hs).symm
  | succ f ih =>
    rw [sentinelWords_step]
    by_cases hc : mem pr = STACK_SENTINEL ∧ pr < cstack
    · simp only [scanLoop, if_pos hc]
      rw [ih (pr + 4) ((susage + 4) % U32) (by omega) (Nat.mod_lt _ (by decide))]
      unfold U32
      omega
    · simp only [scanLoop, if_neg hc, Nat.mul_zero, Nat.add_zero]
      exact (Nat.mod_eq_of_lt hs).symm

/-- The overflow check passes exactly when the 8 words hold the sentinel. -/
theorem overflowCheck_false_iff (mem : Nat → Nat) (pr : Nat) :
    overflowCheck mem pr = false ↔ ∀ i, i < 8 → mem (pr + 4 * i) = STACK_SENTINEL := by
  unfold overflowCheck
  simp [List.any_eq_false]

/-- When the 8 guard words hold the sentinel and lie below `cstack`, they
are the first 8 of the contiguous sentinel words. -/
theorem sentinelWords_guard (mem : Nat → Nat) (base cstack : Nat)
    (hguard : ∀ i, i < 8 → mem (base + 4 * i) = STACK_SENTINEL) (hzone : base + 32 ≤ cstack) :
    sentinelWords mem base cstack = 8 + sentinelWords mem (base + 32) cstack := by
  have h0 := hguard 0 (by decide)
  have h1 := hguard 1 (by decide)
  have h2 := hguard 2 (by decide)
  have h3 := hguard 3 (by decide)
  have h4 := hguard 4 (by decide)
  have h5 := hguard 5 (by decide)
  have h6 := hguard 6 (by decide)
  have h7 := hguard 7 (by decide)
  simp only [Nat.mul_zero, Nat.add_zero, Nat.mul_one] at h0 h1
  have e2 : base + 4 * 2 = base + 4 + 4 := by omega
  have e3 : base + 4 * 3 = base + 4 + 4 + 4 := by omega
  have e4 : base + 4 * 4 = base + 4 + 4 + 4 + 4 := by omega
  have e5 : base + 4 * 5 = base + 4 + 4 + 4 + 4 + 4 := by omega
  have e6 : base + 4 * 6 = base + 4 + 4 + 4 + 4 + 4 + 4 := by omega
  have e7 : base + 4 * 7 = base + 4 + 4 + 4 + 4 + 4 + 4 + 4 := by omega
  have e8 : base + 32 = base + 4 + 4 + 4 + 4 + 4 + 4 + 4 + 4 := by omega
  rw [e2] at h2
  rw [e3] at h3
  rw [e4] at h4
  rw [e5] at h5
  rw [e6] at h6
  rw [e7] at h7
  rw [e8]
  rw [sentinelWords_step mem base, if_pos ⟨h0, by omega⟩,
    sentinelWords_step mem (base + 4), if_pos ⟨h1, by omega⟩,
    sentinelWords_step mem (base + 4 + 4), if_pos ⟨h2, by omega⟩,
    sentinelWords_step mem (base + 4 + 4 + 4), if_pos ⟨h3, by omega⟩,
    sentinelWords_step mem (base + 4 + 4 + 4 + 4), if_pos ⟨h4, by omega⟩,
    sentinelWords_step mem (base + 4 + 4 + 4 + 4 + 4), if_pos ⟨h5, by omega⟩,
    sentinelWords_step mem (base + 4 + 4 + 4 + 4 + 4 + 4), if_pos ⟨h6, by omega⟩,
    sentinelWords_step mem (base + 4 + 4 + 4 + 4 + 4 + 4 + 4), if_pos ⟨h7, by omega⟩]
  omega

/-- The fill loop writes at no address below its start. -/
theorem fillLoop_below (cstack fuel pw : Nat) (mem : Nat → Nat) (a : Nat) (h : a < pw) :
    fillLoop cstack fuel pw mem a = mem a := by
  induction fuel generalizing pw mem with
  | zero => rfl
  | succ f ih =>
    simp only [fillLoop]
    split
    · rw [ih (pw + 4) _ (by omega)]
      simp only [storeWord, if_neg (by omega : ¬ a = pw)]
    · rfl

/-- With enough iterations allowed the fill loop leaves the sentinel in
every word from its start that begins below `cstack`. -/
theorem fillLoop_sentinel (cstack fuel pw : Nat) (mem : Nat → Nat)
    (hfuel : (cstack - pw + 3) / 4 ≤ fuel) :
    ∀ a ∈ wordsBelow pw cstack, fillLoop cstack fuel pw mem a = STACK_SENTINEL := by
  induction fuel generalizing pw mem with
  | zero =>
    intro a ha
    rw [wordsBelow_nil pw cstack (by omega)] at ha
    cases ha
  | succ f ih =>
    intro a ha
    by_cases hlt : pw < cstack
    · rw [wordsBelow_cons pw cstack hlt] at ha
      simp only [fillLoop, if_pos hlt]
      rcases List.mem_cons.1 ha with hEq | hmem
      · subst hEq
        rw [fillLoop_below cstack f (a + 4) _ a (by omega)]
        simp [storeWord]
      · exact ih (pw + 4) _ (by omega) a hmem
    · rw [wordsBelow_nil pw cstack (by omega)] at ha
      cases ha

/-- A word-aligned stack base is the address the fill and the scan start
from. -/
theorem base_eq_bstack (s : StackMon) (hal : s.bstack % 4 = 0) : s.base = s.bstack := by
  have hlt : s.bstack < U32 := by
    unfold StackMon.bstack sub32
    exact Nat.mod_lt _ (by decide)
  unfold U32 at hlt
  unfold StackMon.base
  rw [alignUp_eq_roundUp4 _ (by omega)]
  unfold roundUp4
  omega

/-- When every word below `cstack` holds the sentinel, all of them are
counted. -/
theorem sentinelWords_all (mem : Nat → Nat) (base cstack : Nat)
    (h : ∀ a ∈ wordsBelow base cstack, mem a = STACK_SENTINEL) :
    sentinelWords mem base cstack = (cstack - base + 3) / 4 := by
  unfold sentinelWords
  rw [List.takeWhile_eq_self_iff.2 (by
    intro a ha
    simp [h a ha])]
  simp [wordsBelow]

/-- C15. Stack watermark formula: with stack monitoring active, a
word-aligned stack base and the 8 guard words above it (which lie in the
filled zone) still holding the sentinel after the run, the reported usage
is `mstack_size - ustack_size - 4 * u` in 32-bit arithmetic, `u` being the
number of contiguous sentinel words from the base bounded by the captured
stack pointer, and it is printed as a byte count; if no filled word was
touched (each still has the value the fill gave it, the stack pointer being
word-aligned), the reported usage is 0. -/
theorem stack_watermark_formula (s : StackMon) (mem : Nat → Nat)
    (hmon : s.stack_mon = true) (hal : s.bstack % 4 = 0)
    (hguard : ∀ i, i < 8 → mem (s.bstack + 4 * i) = STACK_SENTINEL)
    (hzone : s.bstack + 32 ≤ s.cstack) :
    (stackScan s mem).susage
      = sub32 (sub32 s.mstack_size s.ustack_size) (4 * sentinelWords mem s.bstack s.cstack) ∧
    usedStackLine s (stackScan s mem).susage
      = .bytes (sub32 (sub32 s.mstack_size s.ustack_size)
          (4 * sentinelWords mem s.bstack s.cstack)) ∧
    (∀ mem0 : Nat → Nat, s.cstack < U32 → s.cstack % 4 = 0 →
      (∀ a ∈ wordsBelow s.bstack s.cstack, mem a = fillStack s mem0 a) →
      (stackScan s mem).susage = 0) := by
  have hbase := base_eq_bstack s hal
  have hov : overflowCheck mem s.bstack = false :=
    (overflowCheck_false_iff mem s.bstack).2 hguard
  have hscan : scanLoop mem s.cstack s.cstack (s.bstack + 32) (8 * 4)
      = (8 * 4 + 4 * sentinelWords mem (s.bstack + 32) s.cstack) % U32 :=
    scanLoop_eq mem s.cstack s.cstack (s.bstack + 32) (8 * 4) (by omega) (by decide)
  have hcount := sentinelWords_guard mem s.bstack s.cstack hguard hzone
  have hval : (stackScan s mem).susage
      = sub32 (sub32 s.mstack_size s.ustack_size)
          (4 * sentinelWords mem s.bstack s.cstack) := by
    simp only [stackScan, hmon, hbase, hov, if_true, Bool.false_eq_true, if_false, hscan]
    rw [hcount]
    unfold sub32 U32
    omega
  refine ⟨hval, ?_, ?_⟩
  · simp only [usedStackLine, hmon, if_true, hval]
  · intro mem0 hc32 hc4 hsame
    have hall : ∀ a ∈ wordsBelow s.bstack s.cstack, mem a = STACK_SENTINEL := by
      intro a ha
      rw [hsame a ha]
      simp only [fillStack, hmon, if_true, hbase]
      exact fillLoop_sentinel s.cstack s.cstack s.bstack mem0 (by omega) a ha
    rw [hval, sentinelWords_all mem s.bstack s.cstack hall]
    have hb : s.bstack = sub32 s.estack s.MIN_STACK_SIZE := rfl
    have hm : s.mstack_size = s.MIN_STACK_SIZE % U32 := rfl
    have hu : s.ustack_size = sub32 s.estack s.cstack := rfl
    rw [hm, hu]
    rw [hb] at hal hzone ⊢
    unfold sub32 at *
    unfold U32 at *
    omega

/-- Witness of C15: a stack of 64 bytes below 0xC0 with 16 bytes in use
before the test; after the run the words below 0xA8 still hold the
sentinel, so 10 words are counted and 8 bytes are reported. -/
theorem stack_watermark_formula_witness :
    ((⟨0, 0xB0, 0xC0, 0x40, 2⟩ : StackMon).stack_mon = true ∧
      (⟨0, 0xB0, 0xC0, 0x40, 2⟩ : StackMon).bstack % 4 = 0 ∧
      (∀ i, i < 8 → (fun a => if a < 0xA8 then STACK_SENTINEL else 0)
        ((⟨0, 0xB0, 0xC0, 0x40, 2⟩ : StackMon).bstack + 4 * i) = STACK_SENTINEL) ∧
      (⟨0, 0xB0, 0xC0, 0x40, 2⟩ : StackMon).bstack + 32
        ≤ (⟨0, 0xB0, 0xC0, 0x40, 2⟩ : StackMon).cstack) ∧
    (stackScan ⟨0, 0xB0, 0xC0, 0x40, 2⟩
        (fun a => if a < 0xA8 then STACK_SENTINEL else 0)).susage
      = sub32 (sub32 (⟨0, 0xB0, 0xC0, 0x40, 2⟩ : StackMon).mstack_size
          (⟨0, 0xB0, 0xC0, 0x40, 2⟩ : StackMon).ustack_size)
          (4 * sentinelWords (fun a => if a < 0xA8 then STACK_SENTINEL else 0)
            (⟨0, 0xB0, 0xC0, 0x40, 2⟩ : StackMon).bstack
            (⟨0, 0xB0, 0xC0, 0x40, 2⟩ : StackMon).cstack) :=
  ⟨⟨by decide, by decide, by decide, by decide⟩,
    (stack_watermark_formula ⟨0, 0xB0, 0xC0, 0x40, 2⟩
      (fun a => if a < 0xA8 then STACK_SENTINEL else 0)
      (by decide) (by decide) (by decide) (by decide)).1⟩

/-- The lowest non-sentinel word, one word at a time. -/
theorem lowestNonSentinel_step (mem : Nat → Nat) (pr cstack : Nat) :
    lowestNonSentinel mem pr cstack =
      if pr < cstack then
        (if mem pr = STACK_SENTINEL then lowestNonSentinel mem (pr + 4) cstack else some pr)
      else none := by
  unfold lowestNonSentinel
  by_cases hlt : pr < cstack
  · rw [wordsBelow_cons pr cstack hlt, if_pos hlt]
    by_cases hm : mem pr = STACK_SENTINEL
    · rw [if_pos hm, List.find?_cons_of_neg _ (by simp [hm])]
    · rw [if_neg hm, List.find?_cons_of_pos _ (by simp [hm])]
  · rw [wordsBelow_nil pr cstack (by omega), if_neg hlt]
    rfl

/-- The lowest non-sentinel word lies right above the contiguous sentinel
words; when there is none, every word below `cstack` is counted. -/
theorem lowestNonSentinel_cases (mem : Nat → Nat) (cstack n pr : Nat)
    (hn : (cstack - pr + 3) / 4 ≤ n) :
    (∃ a, lowestNonSentinel mem pr cstack = some a ∧
        a = pr + 4 * sentinelWords mem pr cstack ∧ a < cstack) ∨
    (lowestNonSentinel mem pr cstack = none ∧
        sentinelWords mem pr cstack = (cstack - pr + 3) / 4) := by
  induction n generalizing pr with
  | zero =>
    right
    have hge : ¬ pr < cstack := by omega
    rw [lowestNonSentinel_step, if_neg hge, sentinelWords_step, if_neg (fun hc => hge hc.2)]
    exact ⟨rfl, by omega⟩
  | succ m ih =>
    rw [lowestNonSentinel_step, sentinelWords_step]
    by_cases hlt : pr < cstack
    · by_cases hm : mem pr = STACK_SENTINEL
      · rw [if_pos hlt, if_pos hm, if_pos ⟨hm, hlt⟩]
        rcases ih (pr + 4) (by omega) with ⟨a, h1, h2, h3⟩ | ⟨h1, h2⟩
        · left
          exact ⟨a, h1, by omega, h3⟩
        · right
          exact ⟨h1, by omega⟩
      · left
        rw [if_pos hlt, if_neg hm, if_neg (fun hc => hm hc.1)]
        exact ⟨pr, rfl, by omega, hlt⟩
    · right
      rw [if_neg hlt, if_neg (fun hc => hlt hc.2)]
      exact ⟨rfl, by omega⟩

/-- The scan result when monitoring is active, the guard words from the
scan start hold the sentinel and lie below `cstack`. -/
theorem stackScan_susage (s : StackMon) (mem : Nat → Nat) (hmon : s.stack_mon = true)
    (hov : overflowCheck mem s.base = false) (hzone : s.base + 32 ≤ s.cstack) :
    (stackScan s mem).susage
      = sub32 (sub32 s.mstack_size s.ustack_size) (4 * sentinelWords mem s.base s.cstack) := by
  have hscan : scanLoop mem s.cstack s.cstack (s.base + 32) (8 * 4)
      = (8 * 4 + 4 * sentinelWords mem (s.base + 32) s.cstack) % U32 :=
    scanLoop_eq mem s.cstack s.cstack (s.base + 32) (8 * 4) (by omega) (by decide)
  have hcount := sentinelWords_guard mem s.base s.cstack
    ((overflowCheck_false_iff mem s.base).1 hov) hzone
  simp only [stackScan, hmon, hov, if_true, Bool.false_eq_true, if_false, hscan]
  rw [hcount]
  unfold sub32 U32
  omega

/-- The word boundary the scan starts from lies at most 3 bytes above the
stack base. -/
theorem base_bounds (s : StackMon) (hb : s.bstack + 3 < U32) :
    s.base % 4 = 0 ∧ s.bstack ≤ s.base ∧ s.base ≤ s.bstack + 3 := by
  unfold U32 at hb
  unfold StackMon.base
  rw [alignUp_eq_roundUp4 _ hb]
  unfold roundUp4
  omega

/-- The remaining stack `mstack_size - ustack_size` is the distance from the
stack base to the captured stack pointer. -/
theorem rstack_eq (s : StackMon) (hc : s.cstack < U32) (hle : s.bstack ≤ s.cstack) :
    sub32 s.mstack_size s.ustack_size = s.cstack - s.bstack := by
  have hb : s.bstack = sub32 s.estack s.MIN_STACK_SIZE := rfl
  have hm : s.mstack_size = s.MIN_STACK_SIZE % U32 := rfl
  have hu : s.ustack_size = sub32 s.estack s.cstack := rfl
  rw [hm, hu]
  rw [hb] at hle ⊢
  unfold sub32 at *
  unfold U32 at *
  omega

/-- The overflow flag of the scan is the result of the check of the 8 guard
words when monitoring is active. -/
theorem stackScan_overflow (s : StackMon) (mem : Nat → Nat) (hmon : s.stack_mon = true) :
    (stackScan s mem).overflow = overflowCheck mem s.base := by
  unfold stackScan
  rw [if_pos hmon]
  by_cases h : overflowCheck mem s.base = true
  · simp [h]
  · simp [h]

/-- The reported usage in terms of the lowest non-sentinel word: the
distance from that word to the captured stack pointer plus the bytes
skipped by rounding the base up; only the latter when every word holds the
sentinel. -/
theorem stackScan_extent (s : StackMon) (mem : Nat → Nat) (hmon : s.stack_mon = true)
    (hrange : s.cstack < U32) (hsp : s.cstack % 4 = 0) (hb : s.bstack + 3 < U32)
    (hzone : s.base + 32 ≤ s.cstack) (hov : (stackScan s mem).overflow = false) :
    (∃ a, lowestNonSentinel mem s.base s.cstack = some a ∧ a < s.cstack ∧
        (stackScan s mem).susage = (s.cstack - a) + (s.base - s.bstack)) ∨
    (lowestNonSentinel mem s.base s.cstack = none ∧
        (stackScan s mem).susage = s.base - s.bstack) := by
  obtain ⟨hb4, hble, _⟩ := base_bounds s hb
  rw [stackScan_overflow s mem hmon] at hov
  have hval := stackScan_susage s mem hmon hov hzone
  rw [rstack_eq s hrange (by omega)] at hval
  rcases lowestNonSentinel_cases mem s.cstack _ s.base (Nat.le_refl _) with
    ⟨a, h1, h2, h3⟩ | ⟨h1, h2⟩
  · left
    refine ⟨a, h1, h3, ?_⟩
    rw [hval]
    unfold sub32
    unfold U32 at *
    omega
  · right
    refine ⟨h1, ?_⟩
    rw [hval, h2]
    unfold sub32
    unfold U32 at *
    omega

/-- C16. Stack watermark monotonicity: for two post-run images of the same
monitored stack, neither of which triggers the overflow check, if the
lowest non-sentinel word of the second lies at or below that of the first,
the usage reported for the second is at least the usage reported for the
first, and each reported usage is at least the number of bytes between its
lowest non-sentinel word and the captured stack pointer. -/
theorem stack_watermark_monotone (s : StackMon) (mem1 mem2 : Nat → Nat)
    (hmon : s.stack_mon = true) (hrange : s.cstack < U32) (hsp : s.cstack % 4 = 0)
    (hb : s.bstack + 3 < U32) (hzone : s.base + 32 ≤ s.cstack)
    (hov1 : (stackScan s mem1).overflow = false) (hov2 : (stackScan s mem2).overflow = false)
    (hlow : ∀ a1, lowestNonSentinel mem1 s.base s.cstack = some a1 →
      ∃ a2, lowestNonSentinel mem2 s.base s.cstack = some a2 ∧ a2 ≤ a1) :
    (stackScan s mem1).susage ≤ (stackScan s mem2).susage ∧
    (∀ a, lowestNonSentinel mem1 s.base s.cstack = some a →
      s.cstack - a ≤ (stackScan s mem1).susage) ∧
    (∀ a, lowestNonSentinel mem2 s.base s.cstack = some a →
      s.cstack - a ≤ (stackScan s mem2).susage) := by
  have e1 := stackScan_extent s mem1 hmon hrange hsp hb hzone hov1
  have e2 := stackScan_extent s mem2 hmon hrange hsp hb hzone hov2
  refine ⟨?_, ?_, ?_⟩
  · rcases e1 with ⟨a1, h1, hlt1, hv1⟩ | ⟨h1, hv1⟩
    · obtain ⟨a2, h2, hle⟩ := hlow a1 h1
      rcases e2 with ⟨b2, g2, _, hv2⟩ | ⟨g2, _⟩
      · rw [h2] at g2
        cases g2
        omega
      · rw [h2] at g2
        cases g2
    · rcases e2 with ⟨b2, _, _, hv2⟩ | ⟨_, hv2⟩ <;> omega
  · intro a ha
    rcases e1 with ⟨a1, h1, _, hv1⟩ | ⟨h1, _⟩
    · rw [ha] at h1
      cases h1
      omega
    · rw [ha] at h1
      cases h1
  · intro a ha
    rcases e2 with ⟨a2, h2, _, hv2⟩ | ⟨h2, _⟩
    · rw [ha] at h2
      cases h2
      omega
    · rw [ha] at h2
      cases h2

/-- Witness of C16: two images of the sample stack, the first untouched
below 0xA8, the second below 0xA0; 8 and 16 bytes are reported. -/
theorem stack_watermark_monotone_witness :
    ((⟨0, 0xB0, 0xC0, 0x40, 2⟩ : StackMon).stack_mon = true ∧
      (⟨0, 0xB0, 0xC0, 0x40, 2⟩ : StackMon).cstack < U32 ∧
      (⟨0, 0xB0, 0xC0, 0x40, 2⟩ : StackMon).cstack % 4 = 0 ∧
      (⟨0, 0xB0, 0xC0, 0x40, 2⟩ : StackMon).base + 32
        ≤ (⟨0, 0xB0, 0xC0, 0x40, 2⟩ : StackMon).cstack ∧
      lowestNonSentinel (fun a => if a < 0xA8 then STACK_SENTINEL else 0)
        (⟨0, 0xB0, 0xC0, 0x40, 2⟩ : StackMon).base 0xB0 = some 0xA8 ∧
      lowestNonSentinel (fun a => if a < 0xA0 then STACK_SENTINEL else 0)
        (⟨0, 0xB0, 0xC0, 0x40, 2⟩ : StackMon).base 0xB0 = some 0xA0) ∧
    (stackScan ⟨0, 0xB0, 0xC0, 0x40, 2⟩
        (fun a => if a < 0xA8 then STACK_SENTINEL else 0)).susage
      ≤ (stackScan ⟨0, 0xB0, 0xC0, 0x40, 2⟩
        (fun a => if a < 0xA0 then STACK_SENTINEL else 0)).susage :=
  ⟨⟨by decide, by decide, by decide, by decide, by decide, by decide⟩,
    (stack_watermark_monotone ⟨0, 0xB0, 0xC0, 0x40, 2⟩
      (fun a => if a < 0xA8 then STACK_SENTINEL else 0)
      (fun a => if a < 0xA0 then STACK_SENTINEL else 0)
      (by decide) (by decide) (by decide) (by decide) (by decide) (by decide) (by decide)
      (fun a1 h1 => ⟨0xA0, by decide, by
        have h2 : lowestNonSentinel (fun a => if a < 0xA8 then STACK_SENTINEL else 0)
            (⟨0, 0xB0, 0xC0, 0x40, 2⟩ : StackMon).base
            (⟨0, 0xB0, 0xC0, 0x40, 2⟩ : StackMon).cstack = some 0xA8 := by decide
        rw [h2] at h1
        cases h1
        decide⟩)).1⟩

/-! ## Theorems about the run aggregator -/

/-- The actions of the workload leave the cycle timer state as it is. -/
theorem runActions_cc (POST_EVT : Nat) (as : List RunAction) (g : Globals) :
    (runActions POST_EVT g as).cc = g.cc := by
  induction as generalizing g with
  | nil => rfl
  | cons a as ih =>
    simp only [runActions]
    rw [ih]
    cases a with
    | heap op => rfl
    | store addr val => rfl
    | event e =>
      simp only [runAction]
      split <;> rfl

/-- The measured duration depends on the timer state only through the
calibration `dwt_max`. -/
theorem tend_congr (fcpu : Nat) (cc1 cc2 : cyclesCount) (e : RunEnv)
    (h : cc1.dwt_max = cc2.dwt_max) : e.tend fcpu cc1 = e.tend fcpu cc2 := by
  simp only [RunEnv.tend, cyclesCounterEnd, cyclesCounterStart, h]

/-- The loop body for a failed run: the loop is left, `iter`, `niter` and
the statistics are as before, and one more call is counted. -/
theorem loopBody_fail (fcpu : Nat) (pm : Bool) (POST_EVT : Nat) (e : RunEnv) (st : LoopState)
    (h : e.batch ≠ 1) :
    (loopBody fcpu pm POST_EVT e st).2 = true ∧
    (loopBody fcpu pm POST_EVT e st).1.iter = st.iter ∧
    (loopBody fcpu pm POST_EVT e st).1.niter = st.niter ∧
    (loopBody fcpu pm POST_EVT e st).1.tmin = st.tmin ∧
    (loopBody fcpu pm POST_EVT e st).1.tmax = st.tmax ∧
    (loopBody fcpu pm POST_EVT e st).1.tcumul = st.tcumul ∧
    (loopBody fcpu pm POST_EVT e st).1.run_calls = st.run_calls + 1 ∧
    (loopBody fcpu pm POST_EVT e st).1.run_failed = true := by
  simp only [loopBody, if_pos h, and_self]

/-- The loop body for a successful run: the loop goes on, the duration is
folded into the statistics, one more call is counted, and `niter` is cut
down to `iter` when the run lasted more than 10 s outside profiling mode. -/
theorem loopBody_ok (fcpu : Nat) (pm : Bool) (POST_EVT : Nat) (e : RunEnv) (st : LoopState)
    (h : e.batch = 1) :
    (loopBody fcpu pm POST_EVT e st).2 = false ∧
    (loopBody fcpu pm POST_EVT e st).1.iter = st.iter ∧
    (loopBody fcpu pm POST_EVT e st).1.niter
      = (if pm = false ∧ secondsOf fcpu (e.tend fcpu st.g.cc) > 10 then st.iter
         else st.niter) ∧
    (loopBody fcpu pm POST_EVT e st).1.tmin = min (e.tend fcpu st.g.cc) st.tmin ∧
    (loopBody fcpu pm POST_EVT e st).1.tmax = max (e.tend fcpu st.g.cc) st.tmax ∧
    (loopBody fcpu pm POST_EVT e st).1.tcumul = (st.tcumul + e.tend fcpu st.g.cc) % U64 ∧
    (loopBody fcpu pm POST_EVT e st).1.run_calls = st.run_calls + 1 ∧
    (loopBody fcpu pm POST_EVT e st).1.run_failed = st.run_failed ∧
    (loopBody fcpu pm POST_EVT e st).1.g.cc.dwt_max = st.g.cc.dwt_max := by
  have hb : ¬ e.batch ≠ 1 := fun hc => hc h
  have ht : cyclesCounterEnd fcpu (cyclesCounterStart st.g.cc e.tick_start e.dwt_start)
      e.dwt_end e.tick_end = e.tend fcpu st.g.cc := rfl
  simp only [loopBody, if_neg hb, runActions_cc, ht]
  refine ⟨trivial, trivial, trivial, ?_, ?_, trivial, trivial, trivial, rfl⟩
  · by_cases hlt : e.tend fcpu st.g.cc < st.tmin
    · rw [if_pos hlt]
      omega
    · rw [if_neg hlt]
      omega
  · by_cases hgt : e.tend fcpu st.g.cc > st.tmax
    · rw [if_pos hgt]
      omega
    · rw [if_neg hgt]
      omega

/-- The loop from iteration `j` on, when the runs `j .. j + n - 1` succeed
without reaching the safety ceiling and run `j + n` fails: the loop is left
at `iter = j + n` after `n + 1` more calls, with the `n` successful
durations folded into the statistics. -/
theorem mainLoop_abort (fcpu : Nat) (pm : Bool) (POST_EVT : Nat) (env : Nat → RunEnv)
    (cc0 : cyclesCount) (k : Nat)
    (hok : ∀ i, i < k - 1 → (env i).batch = 1) (hfail : (env (k - 1)).batch ≠ 1)
    (hceil : pm = true ∨ ∀ i, i < k - 1 → secondsOf fcpu ((env i).tend fcpu cc0) ≤ 10)
    (n j fuel : Nat) (st : LoopState)
    (hk : j + n + 1 = k) (hfuel : n + 1 ≤ fuel) (hj : st.iter = j) (hn : k ≤ st.niter)
    (hcc : st.g.cc.dwt_max = cc0.dwt_max) (hmin : st.tmin ≤ UINT64_MAX)
    (hcum : st.tcumul < U64) :
    (mainLoop fcpu pm POST_EVT env fuel st).iter = k - 1 ∧
    (mainLoop fcpu pm POST_EVT env fuel st).run_calls = st.run_calls + (n + 1) ∧
    (mainLoop fcpu pm POST_EVT env fuel st).run_failed = true ∧
    (mainLoop fcpu pm POST_EVT env fuel st).tmin
      = min st.tmin (minOf ((List.range' j n).map (fun i => (env i).tend fcpu cc0))) ∧
    (mainLoop fcpu pm POST_EVT env fuel st).tmax
      = max st.tmax (maxOf ((List.range' j n).map (fun i => (env i).tend fcpu cc0))) ∧
    (mainLoop fcpu pm POST_EVT env fuel st).tcumul
      = (st.tcumul + ((List.range' j n).map (fun i => (env i).tend fcpu cc0)).sum) % U64 := by
  induction n generalizing j fuel st with
  | zero =>
    obtain ⟨f, rfl⟩ : ∃ f, fuel = f + 1 := ⟨fuel - 1, by omega⟩
    subst hj
    have hjk : k - 1 = st.iter := by omega
    rw [hjk] at hfail
    have hlt : st.iter < st.niter := by omega
    obtain ⟨b2, b_iter, _, b_min, b_max, b_cum, b_calls, b_failed⟩ :=
      loopBody_fail fcpu pm POST_EVT (env st.iter) st hfail
    simp only [mainLoop, if_pos hlt, b2, if_true]
    rw [b_iter, b_min, b_max, b_cum, b_calls, b_failed]
    simp only [List.range'_zero, List.map_nil, minOf, maxOf, List.foldr_nil, List.sum_nil,
      Nat.add_zero]
    refine ⟨?_, ?_, ?_, ?_, ?_, ?_⟩
    all_goals first | trivial | rfl | omega | exact (Nat.mod_eq_of_lt hcum).symm
  | succ m ih =>
    obtain ⟨f, rfl⟩ : ∃ f, fuel = f + 1 := ⟨fuel - 1, by omega⟩
    subst hj
    have hjlt : st.iter < k - 1 := by omega
    have hlt : st.iter < st.niter := by omega
    have hbatch := hok st.iter hjlt
    obtain ⟨b2, b_iter, b_niter, b_min, b_max, b_cum, b_calls, b_failed, b_cc⟩ :=
      loopBody_ok fcpu pm POST_EVT (env st.iter) st hbatch
    have htend : (env st.iter).tend fcpu st.g.cc = (env st.iter).tend fcpu cc0 :=
      tend_congr fcpu st.g.cc cc0 (env st.iter) hcc
    rw [htend] at b_niter b_min b_max b_cum
    have hno : ¬ (pm = false ∧ secondsOf fcpu ((env st.iter).tend fcpu cc0) > 10) := by
      rintro ⟨hp, hs⟩
      rcases hceil with hpm | hall
      · rw [hpm] at hp
        cases hp
      · have := hall st.iter hjlt
        omega
    rw [if_neg hno] at b_niter
    have hrec := ih (st.iter + 1) f
      { (loopBody fcpu pm POST_EVT (env st.iter) st).1 with
        iter := (loopBody fcpu pm POST_EVT (env st.iter) st).1.iter + 1 }
      (by omega) (by omega) (by simp only [b_iter]) (by simp only [b_niter]; exact hn)
      (by simp only [b_cc]; exact hcc)
      (by simp only [b_min]; omega)
      (by simp only [b_cum]; exact Nat.mod_lt _ (by decide))
    simp only [b_min, b_max, b_cum, b_calls] at hrec
    simp only [mainLoop, if_pos hlt, b2, Bool.false_eq_true, if_false, b_min, b_max, b_cum,
      b_calls]
    obtain ⟨r1, r2, r3, r4, r5, r6⟩ := hrec
    simp only [List.range'_succ, List.map_cons, minOf, maxOf, List.foldr_cons, List.sum_cons]
    simp only [minOf, maxOf] at r4 r5
    refine ⟨r1, ?_, r3, ?_, ?_, ?_⟩
    · rw [r2]
      omega
    · rw [r4]
      omega
    · rw [r5]
      omega
    · rw [r6]
      unfold U64
      omega

/-- The minimum of a list of durations never exceeds `UINT64_MAX`. -/
theorem minOf_le (ts : List Nat) : minOf ts ≤ UINT64_MAX := by
  cases ts with
  | nil => exact Nat.le_refl _
  | cons t rest =>
    simp only [minOf, List.foldr_cons]
    have : ∀ l : List Nat, List.foldr min UINT64_MAX l ≤ UINT64_MAX := by
      intro l
      induction l with
      | nil => exact Nat.le_refl _
      | cons a l ih =>
        simp only [List.foldr_cons]
        omega
    have := this rest
    omega

/-- What the report shows of the loop: when `aiTestPerformance` prints its
report, the number of inferences is `iter` and the raw statistics are the
loop variables. -/
theorem report_of_loop (env : TestEnv) (g0 : Globals) (res : PerfResult) (rep : PerfReport)
    (h : aiTestPerformance env g0 = some res) (hr : res.report = some rep) :
    res.status = 0 ∧
    rep.inferences = (env.afterLoop g0).iter ∧
    rep.run_calls = (env.afterLoop g0).run_calls ∧
    rep.run_failed = (env.afterLoop g0).run_failed ∧
    rep.raw_tmin = (env.afterLoop g0).tmin ∧
    rep.raw_tmax = (env.afterLoop g0).tmax ∧
    rep.raw_tcumul = (env.afterLoop g0).tcumul ∧
    rep.sp_mismatch = decide (env.msp_after ≠ env.stack.cstack) ∧
    rep.stack_overflow = (stackScan env.stack (env.afterLoop g0).g.heap.mem).overflow ∧
    rep.used_stack = usedStackLine env.stack
      (stackScan env.stack (env.afterLoop g0).g.heap.mem).susage ∧
    correctStats (env.afterLoop g0).iter (env.afterLoop g0).g.obs.ctx.u_dur_t
      (env.afterLoop g0).tmin (env.afterLoop g0).tmax (env.afterLoop g0).tcumul
      = some rep.stats ∧
    figures env.fcpu env.n_macc rep.stats = some rep.figures := by
  unfold aiTestPerformance at h
  split at h
  · simp only [Option.some.injEq] at h
    subst h
    cases hr
  · split at h
    · simp only [Option.some.injEq] at h
      subst h
      cases hr
    · simp only at h
      split at h
      · cases h
      · rename_i stats hstats
        split at h
        · cases h
        · rename_i fig hfig
          split at h
          · cases h
          · simp only [Option.some.injEq] at h
            subst h
            simp only [Option.some.injEq] at hr
            subst hr
            exact ⟨rfl, rfl, rfl, rfl, rfl, rfl, rfl, rfl, rfl, rfl, hstats, hfig⟩

/-- The loop when call `k` is the first to fail, the earlier ones not having
reached the 10 s ceiling outside profiling mode: exactly `k` calls are made
and the loop ends with `iter = k - 1` and with `tmin`, `tmax` and `tcumul`
the minimum, maximum and sum (in 64 bits) of the first `k - 1` measured
durations. -/
theorem afterLoop_abort (env : TestEnv) (g0 : Globals) (k : Nat)
    (hk1 : 1 ≤ k) (hk : k ≤ env.niter)
    (hok : ∀ i, i < k - 1 → (env.runs i).batch = 1)
    (hfail : (env.runs (k - 1)).batch ≠ 1)
    (hceil : env.profiling_mode = true ∨
      ∀ i, i < k - 1 → secondsOf env.fcpu ((env.runs i).tend env.fcpu g0.cc) ≤ 10) :
    (env.afterLoop g0).run_calls = k ∧
    (env.afterLoop g0).iter = k - 1 ∧
    (env.afterLoop g0).run_failed = true ∧
    (env.afterLoop g0).tmin = minOf (measured env.fcpu g0.cc env.runs (k - 1)) ∧
    (env.afterLoop g0).tmax = maxOf (measured env.fcpu g0.cc env.runs (k - 1)) ∧
    (env.afterLoop g0).tcumul = (measured env.fcpu g0.cc env.runs (k - 1)).sum % U64 := by
  have hmain := mainLoop_abort env.fcpu env.profiling_mode env.POST_EVT env.runs g0.cc k
    hok hfail hceil (k - 1) 0 env.niter (env.start g0) (by omega) (by omega) rfl hk rfl
    (Nat.le_refl _) (show (0 : Nat) < U64 by decide)
  have hle := minOf_le (measured env.fcpu g0.cc env.runs (k - 1))
  have hrange : List.range' 0 (k - 1) = List.range (k - 1) :=
    (List.range_eq_range' (k - 1)).symm
  rw [hrange] at hmain
  obtain ⟨h1, h2, h3, h4, h5, h6⟩ := hmain
  have e1 : (env.afterLoop g0).run_calls = k := by
    have : (env.start g0).run_calls = 0 := rfl
    rw [TestEnv.afterLoop, h2, this]
    omega
  have e4 : (env.afterLoop g0).tmin = minOf (measured env.fcpu g0.cc env.runs (k - 1)) := by
    have : (env.start g0).tmin = UINT64_MAX := rfl
    rw [TestEnv.afterLoop, h4, this]
    unfold measured at hle ⊢
    omega
  have e5 : (env.afterLoop g0).tmax = maxOf (measured env.fcpu g0.cc env.runs (k - 1)) := by
    have : (env.start g0).tmax = 0 := rfl
    rw [TestEnv.afterLoop, h5, this]
    unfold measured
    omega
  have e6 : (env.afterLoop g0).tcumul
      = (measured env.fcpu g0.cc env.runs (k - 1)).sum % U64 := by
    have : (env.start g0).tcumul = 0 := rfl
    rw [TestEnv.afterLoop, h6, this, Nat.zero_add]
    rfl
  exact ⟨e1, h1, h3, e4, e5, e6⟩

/-- The number of completed iterations when call `k` is the first to fail. -/
theorem afterLoop_abort_iter (env : TestEnv) (g0 : Globals) (k : Nat)
    (hk1 : 1 ≤ k) (hk : k ≤ env.niter)
    (hok : ∀ i, i < k - 1 → (env.runs i).batch = 1)
    (hfail : (env.runs (k - 1)).batch ≠ 1)
    (hceil : env.profiling_mode = true ∨
      ∀ i, i < k - 1 → secondsOf env.fcpu ((env.runs i).tend env.fcpu g0.cc) ≤ 10) :
    (env.afterLoop g0).iter = k - 1 :=
  (mainLoop_abort env.fcpu env.profiling_mode env.POST_EVT env.runs g0.cc k
    hok hfail hceil (k - 1) 0 env.niter (env.start g0) (by omega) (by omega) rfl hk rfl
    (Nat.le_refl _) (show (0 : Nat) < U64 by decide)).1

/-- The correction of the statistics is defined exactly when at least one
iteration completed. -/
theorem correctStats_isSome (iter u tmin tmax tcumul : Nat) :
    (correctStats iter u tmin tmax tcumul).isSome = decide (iter ≠ 0) := by
  by_cases h : iter = 0
  · simp [correctStats, udiv, h]
  · simp [correctStats, udiv, h]

/-- When the correction of the statistics is undefined, so is the call of
`aiTestPerformance` that got past its set-up checks. -/
theorem aiTestPerformance_none_of_correctStats (env : TestEnv) (g0 : Globals)
    (hh : env.handle_null = false)
    (hio : ¬ (env.n_inputs > env.IN_NUM ∨ env.n_outputs > env.OUT_NUM))
    (hc : correctStats (env.afterLoop g0).iter (env.afterLoop g0).g.obs.ctx.u_dur_t
      (env.afterLoop g0).tmin (env.afterLoop g0).tmax (env.afterLoop g0).tcumul = none) :
    aiTestPerformance env g0 = none := by
  unfold aiTestPerformance
  rw [if_neg (by simp [hh]), if_neg hio]
  simp only [hc]

/-- C12. Finalisation after an aborted loop: when call `k` is the first to
fail, the finalisation of `aiTestPerformance` divides by `iter = k - 1`; for
`k = 1` this is a division by zero and the call is undefined, for `k ≥ 2`
the correction of the statistics is defined. -/
theorem finalisation_after_abort (env : TestEnv) (g0 : Globals) (k : Nat)
    (hk1 : 1 ≤ k) (hk : k ≤ env.niter)
    (hok : ∀ i, i < k - 1 → (env.runs i).batch = 1)
    (hfail : (env.runs (k - 1)).batch ≠ 1)
    (hceil : env.profiling_mode = true ∨
      ∀ i, i < k - 1 → secondsOf env.fcpu ((env.runs i).tend env.fcpu g0.cc) ≤ 10)
    (hh : env.handle_null = false)
    (hio : ¬ (env.n_inputs > env.IN_NUM ∨ env.n_outputs > env.OUT_NUM)) :
    (k = 1 →
      correctStats (env.afterLoop g0).iter (env.afterLoop g0).g.obs.ctx.u_dur_t
        (env.afterLoop g0).tmin (env.afterLoop g0).tmax (env.afterLoop g0).tcumul = none ∧
      aiTestPerformance env g0 = none) ∧
    (2 ≤ k →
      (correctStats (env.afterLoop g0).iter (env.afterLoop g0).g.obs.ctx.u_dur_t
        (env.afterLoop g0).tmin (env.afterLoop g0).tmax (env.afterLoop g0).tcumul).isSome
        = true) := by
  have hiter := afterLoop_abort_iter env g0 k hk1 hk hok hfail hceil
  constructor
  · intro h1
    have hc : correctStats (env.afterLoop g0).iter (env.afterLoop g0).g.obs.ctx.u_dur_t
        (env.afterLoop g0).tmin (env.afterLoop g0).tmax (env.afterLoop g0).tcumul = none := by
      have hz : (env.afterLoop g0).iter = 0 := by omega
      have := correctStats_isSome (env.afterLoop g0).iter (env.afterLoop g0).g.obs.ctx.u_dur_t
        (env.afterLoop g0).tmin (env.afterLoop g0).tmax (env.afterLoop g0).tcumul
      simp only [hz, ne_eq, not_true_eq_false, decide_False] at this
      rw [hz]
      exact Option.not_isSome_iff_eq_none.1 (by simp [this])
    exact ⟨hc, aiTestPerformance_none_of_correctStats env g0 hh hio hc⟩
  · intro h2
    rw [correctStats_isSome, hiter]
    simp only [decide_eq_true_eq]
    omega

/-- Witness of C12: in the sample test the first call fails and the call of
`aiTestPerformance` is undefined. -/
theorem finalisation_after_abort_witness :
    (1 ≤ 1 ∧ 1 ≤ (sampleEnv 0 0xB0 20000 0xA8).niter ∧
      ((sampleEnv 0 0xB0 20000 0xA8).runs (1 - 1)).batch ≠ 1 ∧
      (sampleEnv 0 0xB0 20000 0xA8).handle_null = false) ∧
    aiTestPerformance (sampleEnv 0 0xB0 20000 0xA8) sampleGlobals = none :=
  ⟨⟨by decide, by decide, by decide, by decide⟩,
    ((finalisation_after_abort (sampleEnv 0 0xB0 20000 0xA8) sampleGlobals 1 (by decide)
      (by decide) (by decide) (by decide) (Or.inr (by decide)) (by decide) (by decide)).1
      rfl).2⟩

/-- C18. Zero operation count: the division `(tcumul * 100) / n_macc` of
line 1230 has no guard; with `n_macc = 0` the figures are undefined, and so
is every call of `aiTestPerformance` that got past its set-up checks. -/
theorem zero_macc_undefined (env : TestEnv) (g0 : Globals) (hh : env.handle_null = false)
    (hio : ¬ (env.n_inputs > env.IN_NUM ∨ env.n_outputs > env.OUT_NUM))
    (hz : env.n_macc = 0) :
    (∀ st : Stats, figures env.fcpu env.n_macc st = none) ∧
    aiTestPerformance env g0 = none := by
  have hfig : ∀ st : Stats, figures env.fcpu env.n_macc st = none := by
    intro st
    simp [figures, udiv, hz]
  refine ⟨hfig, ?_⟩
  unfold aiTestPerformance
  rw [if_neg (by simp [hh]), if_neg hio]
  simp only
  split
  · rfl
  · simp only [hfig]

/-- Witness of C18: the sample test, all runs successful, with `n_macc = 0`. -/
theorem zero_macc_undefined_witness :
    ((sampleEnv 100 0xB0 0 0xA8).handle_null = false ∧ (sampleEnv 100 0xB0 0 0xA8).n_macc = 0) ∧
    aiTestPerformance (sampleEnv 100 0xB0 0 0xA8) sampleGlobals = none :=
  ⟨⟨by decide, by decide⟩,
    (zero_macc_undefined (sampleEnv 100 0xB0 0 0xA8) sampleGlobals (by decide) (by decide)
      (by decide)).2⟩

/-- A call of `aiTestPerformance` that got past its set-up checks and is
defined prints a report. -/
theorem report_exists (env : TestEnv) (g0 : Globals) (res : PerfResult)
    (hh : env.handle_null = false)
    (hio : ¬ (env.n_inputs > env.IN_NUM ∨ env.n_outputs > env.OUT_NUM))
    (h : aiTestPerformance env g0 = some res) : ∃ rep, res.report = some rep := by
  unfold aiTestPerformance at h
  rw [if_neg (by simp [hh]), if_neg hio] at h
  simp only at h
  split at h
  · cases h
  · split at h
    · cases h
    · split at h
      · cases h
      · simp only [Option.some.injEq] at h
        subst h
        exact ⟨_, rfl⟩

/-- C13, the claim as stated fails: in the sample test with the fifth call
failing, `aiTestPerformance` logs the failure and returns 0, the status it
also returns when all 16 calls succeed. -/
theorem run_failure_returns_zero :
    (aiTestPerformance (sampleEnv 4 0xB0 20000 0xA8) sampleGlobals).map
      (fun r => (r.status, r.report.map (fun p => (p.run_failed, p.inferences))))
      = some (0, some (true, 4)) ∧
    (aiTestPerformance (sampleEnv 100 0xB0 20000 0xA8) sampleGlobals).map
      (fun r => (r.status, r.report.map (fun p => (p.run_failed, p.inferences))))
      = some (0, some (false, 16)) := by
  decide

/-- C13 as amended. Every call of `aiTestPerformance` that got past the two
set-up checks and reaches its return statement returns 0 and has printed
its report, whether a run failed or not; a failed run only shows in the
error line of `aiLogErr`. -/
theorem status_after_setup (env : TestEnv) (g0 : Globals) (res : PerfResult)
    (hh : env.handle_null = false)
    (hio : ¬ (env.n_inputs > env.IN_NUM ∨ env.n_outputs > env.OUT_NUM))
    (h : aiTestPerformance env g0 = some res) :
    res.status = 0 ∧
    ∃ rep, res.report = some rep ∧ rep.run_failed = (env.afterLoop g0).run_failed := by
  obtain ⟨rep, hrep⟩ := report_exists env g0 res hh hio h
  obtain ⟨hs, _, _, hf, _⟩ := report_of_loop env g0 res rep h hrep
  exact ⟨hs, rep, hrep, hf⟩

/-- Witness of C13 as amended: the sample test with the fifth call failing
is defined and returns 0. -/
theorem status_after_setup_witness :
    ((sampleEnv 4 0xB0 20000 0xA8).handle_null = false ∧
      (aiTestPerformance (sampleEnv 4 0xB0 20000 0xA8) sampleGlobals).isSome = true) ∧
    ∃ res, aiTestPerformance (sampleEnv 4 0xB0 20000 0xA8) sampleGlobals = some res ∧
      res.status = 0 :=
  ⟨⟨by decide, by decide⟩,
    match h : aiTestPerformance (sampleEnv 4 0xB0 20000 0xA8) sampleGlobals with
    | some res =>
      ⟨res, rfl, (status_after_setup (sampleEnv 4 0xB0 20000 0xA8) sampleGlobals res (by decide)
        (by decide) h).1⟩
    | none => absurd (show (aiTestPerformance (sampleEnv 4 0xB0 20000 0xA8)
        sampleGlobals).isSome = true by decide) (by rw [h]; decide)⟩

/-- The minimum of a list of durations, times their number, is at most
their sum. -/
theorem length_mul_minOf_le_sum (ts : List Nat) : ts.length * minOf ts ≤ ts.sum := by
  induction ts with
  | nil => simp
  | cons t rest ih =>
    simp only [minOf, List.foldr_cons, List.length_cons, List.sum_cons] at ih ⊢
    have h1 : min t (List.foldr min UINT64_MAX rest) ≤ t := Nat.min_le_left _ _
    have h2 : min t (List.foldr min UINT64_MAX rest) ≤ List.foldr min UINT64_MAX rest :=
      Nat.min_le_right _ _
    have h3 := Nat.mul_le_mul_left rest.length h2
    rw [Nat.add_mul, Nat.one_mul]
    omega

/-- The sum of a list of durations is at most their maximum times their
number. -/
theorem sum_le_length_mul_maxOf (ts : List Nat) : ts.sum ≤ ts.length * maxOf ts := by
  induction ts with
  | nil => simp
  | cons t rest ih =>
    simp only [maxOf, List.foldr_cons, List.length_cons, List.sum_cons] at ih ⊢
    have h1 : t ≤ max t (List.foldr max 0 rest) := Nat.le_max_left _ _
    have h2 : List.foldr max 0 rest ≤ max t (List.foldr max 0 rest) := Nat.le_max_right _ _
    have h3 := Nat.mul_le_mul_left rest.length h2
    rw [Nat.add_mul, Nat.one_mul]
    omega

/-- The maximum of a list of durations is at most their sum. -/
theorem maxOf_le_sum (ts : List Nat) : maxOf ts ≤ ts.sum := by
  induction ts with
  | nil => simp [maxOf]
  | cons t rest ih =>
    simp only [maxOf, List.foldr_cons, List.sum_cons] at ih ⊢
    omega

/-- The 64-bit subtraction of a smaller value does not wrap. -/
theorem sub64_of_le (a b : Nat) (ha : a < U64) (hb : b ≤ a) : sub64 a b = a - b := by
  unfold sub64
  unfold U64 at *
  omega

/-- C14, the claim as stated fails: for two runs of 10 cycles with an
overhead of 1 cycle the corrected minimum is 10 and the average 9; for runs
of 1 and 100 cycles with an overhead of 50 cycles the corrected minimum
wraps to `2 ^ 64 - 24` while the average is 25. -/
theorem corrected_stats_not_ordered :
    (correctStats [10, 10].length 1 (minOf [10, 10]) (maxOf [10, 10]) ([10, 10].sum % U64)
      = some ⟨10, 10, 9⟩ ∧ ¬ ((10 : Nat) ≤ 9)) ∧
    (correctStats [1, 100].length 50 (minOf [1, 100]) (maxOf [1, 100]) ([1, 100].sum % U64)
      = some ⟨18446744073709551592, 75, 25⟩ ∧ ¬ ((18446744073709551592 : Nat) ≤ 25)) := by
  decide

/-- C14 as amended. For `n ≥ 1` successful iterations whose durations sum up
below `2 ^ 64` and an overhead `u` not above that sum, the corrected
statistics satisfy `avg ≤ max'`; when moreover `u / n` does not exceed the
minimum, so that the unsigned subtraction does not wrap, `min' ≤ avg + 1`
and `min' ≤ max'`. -/
theorem corrected_stats_order (ts : List Nat) (u : Nat) (hne : ts ≠ [])
    (hsum : ts.sum < U64) (hu : u ≤ ts.sum) :
    ∃ st, correctStats ts.length u (minOf ts) (maxOf ts) (ts.sum % U64) = some st ∧
      st.tcumul ≤ st.tmax ∧
      (u / ts.length ≤ minOf ts → st.tmin ≤ st.tcumul + 1 ∧ st.tmin ≤ st.tmax) := by
  have hn : 0 < ts.length := List.length_pos.2 hne
  have hn0 : ts.length ≠ 0 := by omega
  have hmin := length_mul_minOf_le_sum ts
  have hmax := sum_le_length_mul_maxOf ts
  have hM := maxOf_le_sum ts
  have hm := minOf_le ts
  have hq1 : ts.length * (u / ts.length) ≤ u := Nat.mul_div_le u ts.length
  have hq2 : u < ts.length * (u / ts.length + 1) := Nat.lt_mul_div_succ u hn
  have ha1 : ts.length * ((ts.sum - u) / ts.length) ≤ ts.sum - u :=
    Nat.mul_div_le (ts.sum - u) ts.length
  have ha2 : ts.sum - u < ts.length * ((ts.sum - u) / ts.length + 1) :=
    Nat.lt_mul_div_succ (ts.sum - u) hn
  have hsub : sub64 (ts.sum % U64) u = ts.sum - u := by
    unfold sub64
    unfold U64 at *
    omega
  have hqM : u / ts.length ≤ maxOf ts := by
    apply Nat.le_of_mul_le_mul_left _ hn
    omega
  have hmM : minOf ts ≤ maxOf ts := by
    apply Nat.le_of_mul_le_mul_left _ hn
    omega
  have havg : (ts.sum - u) / ts.length + u / ts.length ≤ maxOf ts := by
    apply Nat.le_of_mul_le_mul_left _ hn
    rw [Nat.mul_add]
    omega
  have hlow : minOf ts ≤ (ts.sum - u) / ts.length + u / ts.length + 1 := by
    have h : ts.length * minOf ts
        < ts.length * ((ts.sum - u) / ts.length + u / ts.length + 2) := by
      have e : ts.length * ((ts.sum - u) / ts.length + u / ts.length + 2)
          = ts.length * ((ts.sum - u) / ts.length + 1)
            + ts.length * (u / ts.length + 1) := by ring
      rw [e]
      omega
    have := Nat.lt_of_mul_lt_mul_left h
    omega
  refine ⟨⟨sub64 (minOf ts) (u / ts.length), sub64 (maxOf ts) (u / ts.length),
    (ts.sum - u) / ts.length⟩, ?_, ?_, ?_⟩
  · simp only [correctStats, udiv, if_neg hn0, hsub]
  · show (ts.sum - u) / ts.length ≤ sub64 (maxOf ts) (u / ts.length)
    rw [sub64_of_le _ _ (by omega) hqM]
    omega
  · intro hq
    show sub64 (minOf ts) (u / ts.length) ≤ (ts.sum - u) / ts.length + 1 ∧
      sub64 (minOf ts) (u / ts.length) ≤ sub64 (maxOf ts) (u / ts.length)
    have hm64 : minOf ts < U64 := by
      unfold UINT64_MAX at hm
      unfold U64
      omega
    rw [sub64_of_le _ _ (by omega) hqM, sub64_of_le _ _ hm64 hq]
    omega

/-- Witness of C14 as amended: runs of 10 and 10 cycles with an overhead of
1 cycle. -/
theorem corrected_stats_order_witness :
    (([10, 10] : List Nat) ≠ [] ∧ ([10, 10] : List Nat).sum < U64 ∧
      1 ≤ ([10, 10] : List Nat).sum) ∧
    ∃ st, correctStats [10, 10].length 1 (minOf [10, 10]) (maxOf [10, 10])
        ([10, 10].sum % U64) = some st ∧
      st.tcumul ≤ st.tmax ∧
      (1 / [10, 10].length ≤ minOf [10, 10] → st.tmin ≤ st.tcumul + 1 ∧ st.tmin ≤ st.tmax) :=
  ⟨⟨by decide, by decide, by decide⟩,
    corrected_stats_order [10, 10] 1 (by decide) (by decide) (by decide)⟩

/-- The rows are undefined as soon as one unit has run count 0. -/
theorem observerRows_none (nodes : List u_node_stat) (h : ∃ sn ∈ nodes, sn.n_runs = 0) :
    observerRows nodes = none := by
  induction nodes with
  | nil =>
    obtain ⟨sn, hsn, _⟩ := h
    cases hsn
  | cons a rest ih =>
    obtain ⟨sn, hsn, hz⟩ := h
    rcases List.mem_cons.1 hsn with hEq | hmem
    · subst hEq
      simp [observerRows, nodeAverage, hz]
    · have := ih ⟨sn, hmem, hz⟩
      simp only [observerRows, this]
      split <;> simp_all

/-- C17. Zero run count in the per-unit report: `aiObserverDone` has no
guard; when the sequence is allocated and unit 0, or a unit among the
printed rows, has run count 0, a division by zero makes the call undefined. -/
theorem zero_run_count_undefined (handle_null : Bool) (n_nodes count : Nat) (h : Heap)
    (o : ObsState) (hh : handle_null = false) (hn : n_nodes ≠ 0) (hp : o.nodes_ptr ≠ 0)
    (hz : (∃ n0 rest, o.ctx.nodes = n0 :: rest ∧ n0.n_runs = 0) ∨
      (∃ sn ∈ o.ctx.nodes.take count, sn.n_runs = 0)) :
    aiObserverDone handle_null n_nodes count h o = none := by
  unfold aiObserverDone
  rw [if_neg (by simp [hh, hn, hp])]
  rcases hz with ⟨n0, rest, hnodes, hz0⟩ | hrow
  · simp [hnodes, udiv, hz0]
  · have hrows := observerRows_none _ hrow
    cases hnodes : o.ctx.nodes with
    | nil => simp
    | cons n0 rest =>
      simp only [List.head?_cons]
      rw [hnodes] at hrows
      split
      · split
        · rfl
        · simp only [hrows]
      · rfl

/-- Witness of C17: the observer of a network with one unit, torn down
right after `aiObserverInit` set it up, before any callback. -/
theorem zero_run_count_undefined_witness :
    ((aiObserverInit false 1 false 0x20003000 true ⟨zeroLedger, fun _ => 0⟩
        ⟨observerInit 0, 0, false⟩).2.nodes_ptr ≠ 0 ∧
      (aiObserverInit false 1 false 0x20003000 true ⟨zeroLedger, fun _ => 0⟩
        ⟨observerInit 0, 0, false⟩).2.ctx.nodes = [⟨0, 0⟩]) ∧
    aiObserverDone false 1 1
      (aiObserverInit false 1 false 0x20003000 true ⟨zeroLedger, fun _ => 0⟩
        ⟨observerInit 0, 0, false⟩).1
      (aiObserverInit false 1 false 0x20003000 true ⟨zeroLedger, fun _ => 0⟩
        ⟨observerInit 0, 0, false⟩).2 = none :=
  ⟨⟨by decide, by decide⟩,
    zero_run_count_undefined false 1 1 _ _ rfl (by decide) (by decide)
      (Or.inl ⟨⟨0, 0⟩, [], by decide, rfl⟩)⟩

/-- C19. Stack overflow after the run: with stack monitoring active and one
of the 8 guard words no longer holding the sentinel, the scan prints the
overflow error and leaves `susage` at 0, and since `stack_mon` stays set the
report prints `used stack : 0 bytes`, the form of a valid measurement. -/
theorem stack_overflow_reported_as_zero (env : TestEnv) (g0 : Globals)
    (hmon : env.stack.stack_mon = true)
    (hov : ∃ i, i < 8 ∧
      (env.afterLoop g0).g.heap.mem (env.stack.base + 4 * i) ≠ STACK_SENTINEL) :
    stackScan env.stack (env.afterLoop g0).g.heap.mem = ⟨0, true⟩ ∧
    usedStackLine env.stack (stackScan env.stack (env.afterLoop g0).g.heap.mem).susage
      = .bytes 0 ∧
    (∀ res rep, aiTestPerformance env g0 = some res → res.report = some rep →
      rep.stack_overflow = true ∧ rep.used_stack = .bytes 0) := by
  have hcheck : overflowCheck (env.afterLoop g0).g.heap.mem env.stack.base = true := by
    cases hc : overflowCheck (env.afterLoop g0).g.heap.mem env.stack.base with
    | true => rfl
    | false =>
      obtain ⟨i, hi, hne⟩ := hov
      exact absurd ((overflowCheck_false_iff _ _).1 hc i hi) hne
  have hscan : stackScan env.stack (env.afterLoop g0).g.heap.mem = ⟨0, true⟩ := by
    simp only [stackScan, hmon, hcheck, if_true]
  have hline : usedStackLine env.stack
      (stackScan env.stack (env.afterLoop g0).g.heap.mem).susage = .bytes 0 := by
    simp only [hscan, usedStackLine, hmon, if_true]
  refine ⟨hscan, hline, ?_⟩
  intro res rep hres hrep
  obtain ⟨_, _, _, _, _, _, _, _, h9, h10, _⟩ := report_of_loop env g0 res rep hres hrep
  rw [h9, h10, hline, hscan]
  exact ⟨rfl, rfl⟩

/-- Witness of C19: the sample test in which every run stores at the guard
word 0x84; the report shows the overflow line and `0 bytes`. -/
theorem stack_overflow_reported_as_zero_witness :
    ((sampleEnv 100 0xB0 20000 0x84).stack.stack_mon = true ∧
      ((sampleEnv 100 0xB0 20000 0x84).afterLoop sampleGlobals).g.heap.mem
        ((sampleEnv 100 0xB0 20000 0x84).stack.base + 4 * 1) ≠ STACK_SENTINEL) ∧
    stackScan (sampleEnv 100 0xB0 20000 0x84).stack
      ((sampleEnv 100 0xB0 20000 0x84).afterLoop sampleGlobals).g.heap.mem = ⟨0, true⟩ ∧
    usedStackLine (sampleEnv 100 0xB0 20000 0x84).stack
      (stackScan (sampleEnv 100 0xB0 20000 0x84).stack
        ((sampleEnv 100 0xB0 20000 0x84).afterLoop sampleGlobals).g.heap.mem).susage
      = .bytes 0 :=
  ⟨⟨by decide, by decide⟩,
    (stack_overflow_reported_as_zero (sampleEnv 100 0xB0 20000 0x84) sampleGlobals (by decide)
      ⟨1, by decide, by decide⟩).1,
    (stack_overflow_reported_as_zero (sampleEnv 100 0xB0 20000 0x84) sampleGlobals (by decide)
      ⟨1, by decide, by decide⟩).2.1⟩

/-- C20, the claim as stated fails: in the sample test with the stack
pointer read as 0xA0 after the loop instead of the captured 0xB0, the
mismatch line is printed, the call returns 0 and the report still shows a
byte count, `used stack : 8 bytes`, as it does without the mismatch. -/
theorem sp_mismatch_still_bytes :
    (aiTestPerformance (sampleEnv 100 0xA0 20000 0xA8) sampleGlobals).map
      (fun r => (r.status, r.report.map (fun p => (p.sp_mismatch, p.used_stack))))
      = some (0, some (true, .bytes 8)) ∧
    (aiTestPerformance (sampleEnv 100 0xB0 20000 0xA8) sampleGlobals).map
      (fun r => (r.status, r.report.map (fun p => (p.sp_mismatch, p.used_stack))))
      = some (0, some (false, .bytes 8)) := by
  decide

/-- C20 as amended. The stack pointer read after the loop only decides
whether the mismatch line is printed: the call is defined, returns the same
status and prints the same report with whatever value is read, apart from
that line; the `used stack` line is the one computed by the scan, a byte
count whenever stack monitoring is active. -/
theorem sp_mismatch_only_logged (env : TestEnv) (g0 : Globals) (m : Nat) :
    aiTestPerformance { env with msp_after := m } g0
      = (aiTestPerformance env g0).map (fun res =>
          { res with report := res.report.map (fun rep =>
              { rep with sp_mismatch := decide (m ≠ env.stack.cstack) }) }) ∧
    (∀ res rep, aiTestPerformance { env with msp_after := m } g0 = some res →
      res.report = some rep →
      res.status = 0 ∧ rep.sp_mismatch = decide (m ≠ env.stack.cstack) ∧
      rep.used_stack = usedStackLine env.stack
        (stackScan env.stack (env.afterLoop g0).g.heap.mem).susage ∧
      (env.stack.stack_mon = true →
        rep.used_stack = .bytes (stackScan env.stack (env.afterLoop g0).g.heap.mem).susage)) := by
  constructor
  · unfold aiTestPerformance
    have hloop : ({ env with msp_after := m } : TestEnv).afterLoop g0 = env.afterLoop g0 := rfl
    simp only [hloop]
    split
    · rfl
    · split
      · rfl
      · split
        · rfl
        · split
          · rfl
          · split
            · rfl
            · rfl
  · intro res rep hres hrep
    obtain ⟨h1, _, _, _, _, _, _, h8, _, h10, _⟩ :=
      report_of_loop { env with msp_after := m } g0 res rep hres hrep
    refine ⟨h1, h8, h10, ?_⟩
    intro hmon
    have h10b : rep.used_stack = usedStackLine env.stack
        (stackScan env.stack (env.afterLoop g0).g.heap.mem).susage := h10
    rw [h10b]
    simp only [usedStackLine, hmon, if_true]


/-- Witness of C20 as amended: the sample test with the stack pointer read
as 0xA0 after the loop returns 0 and prints `used stack : 8 bytes`. -/
theorem sp_mismatch_only_logged_witness :
    (sampleEnv 100 0xB0 20000 0xA8).stack.stack_mon = true ∧
    ∃ res rep, aiTestPerformance { sampleEnv 100 0xB0 20000 0xA8 with msp_after := 0xA0 }
        sampleGlobals = some res ∧ res.report = some rep ∧
      res.status = 0 ∧ rep.sp_mismatch = true ∧ rep.used_stack = .bytes 8 :=
  ⟨by decide,
    match h : aiTestPerformance { sampleEnv 100 0xB0 20000 0xA8 with msp_after := 0xA0 }
        sampleGlobals with
    | some ⟨status, some rep, g⟩ =>
      have hw := (sp_mismatch_only_logged (sampleEnv 100 0xB0 20000 0xA8) sampleGlobals 0xA0).2
        ⟨status, some rep, g⟩ rep h rfl
      ⟨⟨status, some rep, g⟩, rep, rfl, rfl, hw.1, hw.2.1.trans (by decide),
        (hw.2.2.2 (by decide)).trans (by decide)⟩
    | some ⟨_, none, _⟩ => absurd (show ((aiTestPerformance
        { sampleEnv 100 0xB0 20000 0xA8 with msp_after := 0xA0 } sampleGlobals).bind
          (fun r => r.report)).isSome = true by decide) (by rw [h]; simp)
    | none => absurd (show (aiTestPerformance
        { sampleEnv 100 0xB0 20000 0xA8 with msp_after := 0xA0 } sampleGlobals).isSome = true
          by decide) (by rw [h]; decide)⟩


/-! ## Theorems about the safety ceiling and the armed bit of the ledger -/

/-- The minimum of a list of durations extended by one duration. -/
theorem minOf_append_single (l : List Nat) (x : Nat) : minOf (l ++ [x]) = min (minOf l) x := by
  induction l with
  | nil =>
    simp only [minOf, List.nil_append, List.foldr_cons, List.foldr_nil]
    omega
  | cons a l ih =>
    simp only [minOf, List.cons_append, List.foldr_cons] at ih ⊢
    rw [ih]
    omega

/-- The maximum of a list of durations extended by one duration. -/
theorem maxOf_append_single (l : List Nat) (x : Nat) : maxOf (l ++ [x]) = max (maxOf l) x := by
  induction l with
  | nil =>
    simp only [maxOf, List.nil_append, List.foldr_cons, List.foldr_nil]
    omega
  | cons a l ih =>
    simp only [maxOf, List.cons_append, List.foldr_cons] at ih ⊢
    rw [ih]
    omega

/-- The durations of the first `n + 1` runs are those of the first `n`
followed by the duration of run `n`. -/
theorem measured_succ (fcpu : Nat) (cc : cyclesCount) (env : Nat → RunEnv) (n : Nat) :
    measured fcpu cc env (n + 1) = measured fcpu cc env n ++ [(env n).tend fcpu cc] := by
  simp only [measured, List.range_succ, List.map_append, List.map_cons, List.map_nil]

/-- The loop does nothing once `iter` has reached `niter`. -/
theorem mainLoop_done (fcpu : Nat) (pm : Bool) (POST_EVT : Nat) (env : Nat → RunEnv)
    (fuel : Nat) (st : LoopState) (h : ¬ st.iter < st.niter) :
    mainLoop fcpu pm POST_EVT env fuel st = st := by
  cases fuel with
  | zero => rfl
  | succ f => simp only [mainLoop, if_neg h]

/-- The loop over `n` runs `j .. j + n - 1` that succeed without reaching
the safety ceiling: it arrives at `iter = j + n` with `niter` unchanged,
`n` more calls counted and the `n` durations folded into the statistics,
and goes on from there. -/
theorem mainLoop_prefix (fcpu : Nat) (pm : Bool) (POST_EVT : Nat) (env : Nat → RunEnv)
    (cc0 : cyclesCount) (n j fuel : Nat) (st : LoopState)
    (hj : st.iter = j) (hn : j + n ≤ st.niter) (hfuel : n ≤ fuel)
    (hok : ∀ i, j ≤ i → i < j + n → (env i).batch = 1)
    (hceil : pm = true ∨
      ∀ i, j ≤ i → i < j + n → secondsOf fcpu ((env i).tend fcpu cc0) ≤ 10)
    (hcc : st.g.cc.dwt_max = cc0.dwt_max) (hmin : st.tmin ≤ UINT64_MAX)
    (hcum : st.tcumul < U64) :
    ∃ st1 : LoopState,
      mainLoop fcpu pm POST_EVT env fuel st = mainLoop fcpu pm POST_EVT env (fuel - n) st1 ∧
      st1.iter = j + n ∧ st1.niter = st.niter ∧
      st1.tmin = min st.tmin (minOf ((List.range' j n).map (fun i => (env i).tend fcpu cc0))) ∧
      st1.tmax = max st.tmax (maxOf ((List.range' j n).map (fun i => (env i).tend fcpu cc0))) ∧
      st1.tcumul
        = (st.tcumul + ((List.range' j n).map (fun i => (env i).tend fcpu cc0)).sum) % U64 ∧
      st1.run_calls = st.run_calls + n ∧ st1.run_failed = st.run_failed ∧
      st1.g.cc.dwt_max = cc0.dwt_max := by
  induction n generalizing j fuel st with
  | zero =>
    refine ⟨st, rfl, by omega, rfl, ?_, ?_, ?_, rfl, rfl, hcc⟩
    · simp only [List.range'_zero, List.map_nil, minOf, List.foldr_nil]
      omega
    · simp only [List.range'_zero, List.map_nil, maxOf, List.foldr_nil]
      omega
    · simp only [List.range'_zero, List.map_nil, List.sum_nil, Nat.add_zero]
      exact (Nat.mod_eq_of_lt hcum).symm
  | succ m ih =>
    obtain ⟨f, rfl⟩ : ∃ f, fuel = f + 1 := ⟨fuel - 1, by omega⟩
    subst hj
    have hlt : st.iter < st.niter := by omega
    have hbatch := hok st.iter (Nat.le_refl _) (by omega)
    obtain ⟨b2, b_iter, b_niter, b_min, b_max, b_cum, b_calls, b_failed, b_cc⟩ :=
      loopBody_ok fcpu pm POST_EVT (env st.iter) st hbatch
    have htend : (env st.iter).tend fcpu st.g.cc = (env st.iter).tend fcpu cc0 :=
      tend_congr fcpu st.g.cc cc0 (env st.iter) hcc
    rw [htend] at b_niter b_min b_max b_cum
    have hno : ¬ (pm = false ∧ secondsOf fcpu ((env st.iter).tend fcpu cc0) > 10) := by
      rintro ⟨hp, hs⟩
      rcases hceil with hpm | hall
      · rw [hpm] at hp
        cases hp
      · have := hall st.iter (Nat.le_refl _) (by omega)
        omega
    rw [if_neg hno] at b_niter
    obtain ⟨st1, r0, r1, r2, r3, r4, r5, r6, r7, r8⟩ := ih (st.iter + 1) f
      { (loopBody fcpu pm POST_EVT (env st.iter) st).1 with
        iter := (loopBody fcpu pm POST_EVT (env st.iter) st).1.iter + 1 }
      (by simp only [b_iter]) (by simp only [b_niter]; omega) (by omega)
      (fun i h1 h2 => hok i (by omega) (by omega))
      (hceil.imp id (fun hall i h1 h2 => hall i (by omega) (by omega)))
      (by simp only [b_cc]; exact hcc)
      (by simp only [b_min]; omega)
      (by simp only [b_cum]; exact Nat.mod_lt _ (by decide))
    simp only [b_niter, b_min, b_max, b_cum, b_calls, b_failed] at r2 r3 r4 r5 r6 r7
    refine ⟨st1, ?_, by omega, r2, ?_, ?_, ?_, by omega, r7, r8⟩
    · rw [show f + 1 - (m + 1) = f - m by omega, ← r0]
      simp only [mainLoop, if_pos hlt, b2, Bool.false_eq_true, if_false]
    · simp only [List.range'_succ, List.map_cons, minOf, List.foldr_cons]
      simp only [minOf] at r3
      rw [r3]
      omega
    · simp only [List.range'_succ, List.map_cons, maxOf, List.foldr_cons]
      simp only [maxOf] at r4
      rw [r4]
      omega
    · simp only [List.range'_succ, List.map_cons, List.sum_cons]
      rw [r5]
      unfold U64
      omega


/-- The loop when run `m` (the call number `m + 1`) is the first to last
more than 10 s, all runs up to it being successful, outside profiling mode:
`niter` is cut down to `m`, the loop ends with `iter = m + 1` after `m + 1`
calls, and the slow run is folded into the statistics. -/
theorem afterLoop_truncated (env : TestEnv) (g0 : Globals) (m : Nat)
    (hpm : env.profiling_mode = false) (hm : m + 1 ≤ env.niter)
    (hok : ∀ i, i < m + 1 → (env.runs i).batch = 1)
    (hfast : ∀ i, i < m → secondsOf env.fcpu ((env.runs i).tend env.fcpu g0.cc) ≤ 10)
    (hslow : secondsOf env.fcpu ((env.runs m).tend env.fcpu g0.cc) > 10) :
    (env.afterLoop g0).run_calls = m + 1 ∧
    (env.afterLoop g0).iter = m + 1 ∧
    (env.afterLoop g0).niter = m ∧
    (env.afterLoop g0).run_failed = false ∧
    (env.afterLoop g0).tmin = minOf (measured env.fcpu g0.cc env.runs (m + 1)) ∧
    (env.afterLoop g0).tmax = maxOf (measured env.fcpu g0.cc env.runs (m + 1)) ∧
    (env.afterLoop g0).tcumul = (measured env.fcpu g0.cc env.runs (m + 1)).sum % U64 := by
  obtain ⟨st1, r0, r1, r2, r3, r4, r5, r6, r7, r8⟩ :=
    mainLoop_prefix env.fcpu env.profiling_mode env.POST_EVT env.runs g0.cc m 0 env.niter
      (env.start g0) rfl (show 0 + m ≤ env.niter by omega) (by omega)
      (fun i _ h2 => hok i (by omega)) (Or.inr (fun i _ h2 => hfast i (by omega)))
      rfl (Nat.le_refl _) (show (0 : Nat) < U64 by decide)
  have hrange : List.range' 0 m = List.range m := (List.range_eq_range' m).symm
  rw [hrange] at r3 r4 r5
  have s_min : (env.start g0).tmin = UINT64_MAX := rfl
  have s_max : (env.start g0).tmax = 0 := rfl
  have s_cum : (env.start g0).tcumul = 0 := rfl
  have s_calls : (env.start g0).run_calls = 0 := rfl
  have s_failed : (env.start g0).run_failed = false := rfl
  have s_niter : (env.start g0).niter = env.niter := rfl
  rw [s_min] at r3
  rw [s_max] at r4
  rw [s_cum] at r5
  rw [s_calls] at r6
  rw [s_failed] at r7
  rw [s_niter] at r2
  have hiter : st1.iter = m := by omega
  obtain ⟨f, hf⟩ : ∃ f, env.niter - m = f + 1 := ⟨env.niter - m - 1, by omega⟩
  have hlt : st1.iter < st1.niter := by omega
  have hbatch : (env.runs st1.iter).batch = 1 := by
    rw [hiter]
    exact hok m (by omega)
  obtain ⟨b2, b_iter, b_niter, b_min, b_max, b_cum, b_calls, b_failed, _⟩ :=
    loopBody_ok env.fcpu env.profiling_mode env.POST_EVT (env.runs st1.iter) st1 hbatch
  have htend : (env.runs st1.iter).tend env.fcpu st1.g.cc = (env.runs m).tend env.fcpu g0.cc := by
    rw [hiter]
    exact tend_congr env.fcpu st1.g.cc g0.cc (env.runs m) r8
  rw [htend] at b_niter b_min b_max b_cum
  rw [if_pos ⟨hpm, hslow⟩] at b_niter
  have hend : env.afterLoop g0
      = { (loopBody env.fcpu env.profiling_mode env.POST_EVT (env.runs st1.iter) st1).1 with
          iter := (loopBody env.fcpu env.profiling_mode env.POST_EVT
            (env.runs st1.iter) st1).1.iter + 1 } := by
    rw [TestEnv.afterLoop, r0, hf]
    simp only [mainLoop, if_pos hlt, b2, Bool.false_eq_true, if_false]
    apply mainLoop_done
    simp only [b_iter, b_niter]
    omega
  have hmin := minOf_le (measured env.fcpu g0.cc env.runs m)
  rw [hend]
  simp only [b_iter, b_niter, b_min, b_max, b_cum, b_calls, b_failed, measured_succ,
    minOf_append_single, maxOf_append_single, List.sum_append, List.sum_cons, List.sum_nil]
  simp only [measured] at hmin ⊢
  refine ⟨by omega, by omega, hiter, r7, ?_, ?_, ?_⟩
  · rw [r3]
    omega
  · rw [r4]
    omega
  · rw [r5]
    unfold U64
    omega

/-- The loop in profiling mode when every run succeeds: the safety ceiling
is not applied and all `niter` runs are made, whatever they last. -/
theorem afterLoop_profiling (env : TestEnv) (g0 : Globals)
    (hpm : env.profiling_mode = true)
    (hok : ∀ i, i < env.niter → (env.runs i).batch = 1) :
    (env.afterLoop g0).run_calls = env.niter ∧
    (env.afterLoop g0).iter = env.niter ∧
    (env.afterLoop g0).run_failed = false := by
  obtain ⟨st1, r0, r1, _, _, _, _, r6, r7, _⟩ :=
    mainLoop_prefix env.fcpu env.profiling_mode env.POST_EVT env.runs g0.cc env.niter 0 env.niter
      (env.start g0) rfl (show 0 + env.niter ≤ env.niter by omega) (Nat.le_refl _)
      (fun i _ h2 => hok i (by omega)) (Or.inl hpm)
      rfl (Nat.le_refl _) (show (0 : Nat) < U64 by decide)
  have s_calls : (env.start g0).run_calls = 0 := rfl
  have s_failed : (env.start g0).run_failed = false := rfl
  rw [s_calls] at r6
  rw [s_failed] at r7
  have hend : env.afterLoop g0 = st1 := by
    rw [TestEnv.afterLoop, r0, Nat.sub_self]
    rfl
  rw [hend]
  exact ⟨by omega, by omega, r7⟩


/-- C21, the claim as stated fails in profiling mode: in the sample test
with the third run lasting 11 s, the loop in profiling mode goes on to make
all 16 calls and the report shows 16 inferences; outside profiling mode it
stops after the third call and the report shows 3 inferences. -/
theorem ceiling_ignored_in_profiling_mode :
    secondsOf (sampleSlowEnv true 2).fcpu
      (((sampleSlowEnv true 2).runs 2).tend (sampleSlowEnv true 2).fcpu sampleGlobals.cc) = 11 ∧
    (aiTestPerformance (sampleSlowEnv true 2) sampleGlobals).map
      (fun r => r.report.map (fun p => (p.run_calls, p.inferences))) = some (some (16, 16)) ∧
    (aiTestPerformance (sampleSlowEnv false 2) sampleGlobals).map
      (fun r => r.report.map (fun p => (p.run_calls, p.inferences))) = some (some (3, 3)) := by
  decide

/-- C21 as amended. Safety-ceiling truncation: when the first `j` runs
succeed and run `j` lasts more than 10 whole seconds, then outside
profiling mode, the earlier runs not having reached the ceiling, exactly
`j` calls are made, the loop ends with `iter = j`, the number the report
prints as inferences, the slow run is folded into `tmin`, `tmax` and
`tcumul`, and the finalisation is defined; in profiling mode the ceiling is
not applied and all `niter` runs are made when they succeed. -/
theorem ceiling_truncation (env : TestEnv) (g0 : Globals) (j : Nat)
    (hj1 : 1 ≤ j) (hj : j ≤ env.niter)
    (hok : ∀ i, i < j → (env.runs i).batch = 1)
    (hslow : secondsOf env.fcpu ((env.runs (j - 1)).tend env.fcpu g0.cc) > 10) :
    (env.profiling_mode = false →
      (∀ i, i < j - 1 → secondsOf env.fcpu ((env.runs i).tend env.fcpu g0.cc) ≤ 10) →
      (env.afterLoop g0).run_calls = j ∧
      (env.afterLoop g0).iter = j ∧
      (env.afterLoop g0).run_failed = false ∧
      (env.afterLoop g0).tmin = minOf (measured env.fcpu g0.cc env.runs j) ∧
      (env.afterLoop g0).tmax = maxOf (measured env.fcpu g0.cc env.runs j) ∧
      (env.afterLoop g0).tcumul = (measured env.fcpu g0.cc env.runs j).sum % U64 ∧
      (correctStats (env.afterLoop g0).iter (env.afterLoop g0).g.obs.ctx.u_dur_t
        (env.afterLoop g0).tmin (env.afterLoop g0).tmax (env.afterLoop g0).tcumul).isSome
        = true ∧
      (∀ res rep, aiTestPerformance env g0 = some res → res.report = some rep →
        rep.run_calls = j ∧ rep.inferences = j ∧
        rep.raw_tmin = minOf (measured env.fcpu g0.cc env.runs j) ∧
        rep.raw_tmax = maxOf (measured env.fcpu g0.cc env.runs j) ∧
        rep.raw_tcumul = (measured env.fcpu g0.cc env.runs j).sum % U64)) ∧
    (env.profiling_mode = true → (∀ i, i < env.niter → (env.runs i).batch = 1) →
      (env.afterLoop g0).run_calls = env.niter ∧ (env.afterLoop g0).iter = env.niter) := by
  obtain ⟨m, rfl⟩ : ∃ m, j = m + 1 := ⟨j - 1, by omega⟩
  rw [Nat.add_sub_cancel] at hslow
  constructor
  · intro hpm hfast
    rw [Nat.add_sub_cancel] at hfast
    obtain ⟨t1, t2, _, t4, t5, t6, t7⟩ := afterLoop_truncated env g0 m hpm hj hok hfast hslow
    refine ⟨t1, t2, t4, t5, t6, t7, ?_, ?_⟩
    · rw [correctStats_isSome, t2]
      simp only [decide_eq_true_eq]
      omega
    · intro res rep hres hrep
      obtain ⟨_, q2, q3, _, q5, q6, q7, _⟩ := report_of_loop env g0 res rep hres hrep
      exact ⟨q3.trans t1, q2.trans t2, q5.trans t5, q6.trans t6, q7.trans t7⟩
  · intro hpm hall
    obtain ⟨p1, p2, _⟩ := afterLoop_profiling env g0 hpm hall
    exact ⟨p1, p2⟩

/-- Witness of C21 as amended: the sample test with the third run lasting
11 s, outside profiling mode and in profiling mode. -/
theorem ceiling_truncation_witness :
    (3 ≤ (sampleSlowEnv false 2).niter ∧
      (∀ i, i < 3 → ((sampleSlowEnv false 2).runs i).batch = 1) ∧
      secondsOf (sampleSlowEnv false 2).fcpu
        (((sampleSlowEnv false 2).runs (3 - 1)).tend (sampleSlowEnv false 2).fcpu
          sampleGlobals.cc) > 10 ∧
      (∀ i, i < 3 - 1 → secondsOf (sampleSlowEnv false 2).fcpu
        (((sampleSlowEnv false 2).runs i).tend (sampleSlowEnv false 2).fcpu
          sampleGlobals.cc) ≤ 10)) ∧
    (((sampleSlowEnv false 2).afterLoop sampleGlobals).run_calls = 3 ∧
      ((sampleSlowEnv false 2).afterLoop sampleGlobals).iter = 3) ∧
    (((sampleSlowEnv true 2).afterLoop sampleGlobals).run_calls = 16 ∧
      ((sampleSlowEnv true 2).afterLoop sampleGlobals).iter = 16) :=
  ⟨⟨by decide, by decide, by decide, by decide⟩,
    ⟨((ceiling_truncation (sampleSlowEnv false 2) sampleGlobals 3 (by decide) (by decide)
        (by decide) (by decide)).1 rfl (by decide)).1,
      ((ceiling_truncation (sampleSlowEnv false 2) sampleGlobals 3 (by decide) (by decide)
        (by decide) (by decide)).1 rfl (by decide)).2.1⟩,
    (ceiling_truncation (sampleSlowEnv true 2) sampleGlobals 3 (by decide) (by decide)
      (by decide) (by decide)).2 rfl (by decide)⟩


/-- The configuration word after `__wrap_malloc`: bit 1 is set, nothing else
changes. -/
theorem wrap_malloc_cfg (h : Heap) (bytes ret : Nat) :
    (__wrap_malloc h bytes ret).1.ia.cfg = h.ia.cfg ||| 2 := by
  simp only [__wrap_malloc]
  split <;> rfl

/-- The configuration word after `__wrap_free`: bit 2 is set, nothing else
changes. -/
theorem wrap_free_cfg (h : Heap) (ptr : Nat) :
    (__wrap_free h ptr).ia.cfg = h.ia.cfg ||| 4 := by
  simp only [__wrap_free]
  split
  · rfl
  · split <;> rfl

/-- The armed bit of `cfg | 1` is 1. -/
theorem or_one_and_one_eq (c : Nat) : (c ||| 1) &&& 1 = 1 := by
  have h := or_one_and_one c
  rw [Nat.and_one_is_mod] at h ⊢
  omega

/-- The armed bit of `cfg & ~1` is 0. -/
theorem and_not_one_and_one (c : Nat) : (c &&& 0xFFFFFFFE) &&& 1 = 0 := by
  rw [Nat.and_assoc]
  have h : (0xFFFFFFFE : Nat) &&& 1 = 0 := by decide
  rw [h, Nat.and_zero]

/-- The actions of the workload leave the armed bit of the ledger as it is. -/
theorem runActions_armed (POST_EVT : Nat) (as : List RunAction) (g : Globals) :
    (runActions POST_EVT g as).heap.ia.cfg &&& 1 = g.heap.ia.cfg &&& 1 := by
  induction as generalizing g with
  | nil => rfl
  | cons a as ih =>
    simp only [runActions]
    rw [ih]
    cases a with
    | heap op =>
      cases op with
      | malloc bytes ret =>
        show (__wrap_malloc g.heap bytes ret).1.ia.cfg &&& 1 = g.heap.ia.cfg &&& 1
        rw [wrap_malloc_cfg, or_and_one _ 2 (by decide)]
      | free ptr =>
        show (__wrap_free g.heap ptr).ia.cfg &&& 1 = g.heap.ia.cfg &&& 1
        rw [wrap_free_cfg, or_and_one _ 4 (by decide)]
    | store addr val => rfl
    | event e =>
      simp only [runAction]
      split <;> rfl

/-- The loop body for a failed run leaves the ledger armed: the `break` of
line 1134 comes before `ia_malloc.cfg &= ~1UL`. -/
theorem loopBody_armed (fcpu : Nat) (pm : Bool) (POST_EVT : Nat) (e : RunEnv) (st : LoopState)
    (h : e.batch ≠ 1) : (loopBody fcpu pm POST_EVT e st).1.g.heap.ia.cfg &&& 1 = 1 := by
  simp only [loopBody, if_pos h]
  rw [runActions_armed]
  exact or_one_and_one_eq _

/-- The loop body for a successful run leaves the ledger disarmed. -/
theorem loopBody_disarmed (fcpu : Nat) (pm : Bool) (POST_EVT : Nat) (e : RunEnv)
    (st : LoopState) (h : e.batch = 1) :
    (loopBody fcpu pm POST_EVT e st).1.g.heap.ia.cfg &&& 1 = 0 := by
  have hb : ¬ e.batch ≠ 1 := fun hc => hc h
  simp only [loopBody, if_neg hb]
  exact and_not_one_and_one _

/-- The armed bit when the loop is left, entered with the ledger disarmed:
it is set exactly when a failed run ended the loop. -/
theorem mainLoop_armed (fcpu : Nat) (pm : Bool) (POST_EVT : Nat) (env : Nat → RunEnv)
    (fuel : Nat) (st : LoopState) (hf : st.run_failed = false)
    (hc : st.g.heap.ia.cfg &&& 1 = 0) :
    (mainLoop fcpu pm POST_EVT env fuel st).g.heap.ia.cfg &&& 1
      = if (mainLoop fcpu pm POST_EVT env fuel st).run_failed = true then 1 else 0 := by
  induction fuel generalizing st with
  | zero => simp [mainLoop, hf, hc]
  | succ f ih =>
    by_cases hlt : st.iter < st.niter
    · by_cases hb : (env st.iter).batch = 1
      · obtain ⟨b2, _, _, _, _, _, _, b_failed, _⟩ :=
          loopBody_ok fcpu pm POST_EVT (env st.iter) st hb
        have hd := loopBody_disarmed fcpu pm POST_EVT (env st.iter) st hb
        simp only [mainLoop, if_pos hlt, b2, Bool.false_eq_true, if_false]
        exact ih _ (by simp only [b_failed]; exact hf) (by simpa using hd)
      · obtain ⟨b2, _, _, _, _, _, _, b_failed⟩ :=
          loopBody_fail fcpu pm POST_EVT (env st.iter) st hb
        have ha := loopBody_armed fcpu pm POST_EVT (env st.iter) st hb
        simp only [mainLoop, if_pos hlt, b2, if_true, b_failed, ha]
    · simp [mainLoop, hlt, hf, hc]

/-- The loop ends without a failed run when every run within `niter`
succeeds. -/
theorem mainLoop_no_failure (fcpu : Nat) (pm : Bool) (POST_EVT : Nat) (env : Nat → RunEnv)
    (fuel : Nat) (st : LoopState) (hf : st.run_failed = false)
    (hok : ∀ i, i < st.niter → (env i).batch = 1) :
    (mainLoop fcpu pm POST_EVT env fuel st).run_failed = false := by
  induction fuel generalizing st with
  | zero => exact hf
  | succ f ih =>
    by_cases hlt : st.iter < st.niter
    · obtain ⟨b2, _, b_niter, _, _, _, _, b_failed, _⟩ :=
        loopBody_ok fcpu pm POST_EVT (env st.iter) st (hok st.iter hlt)
      simp only [mainLoop, if_pos hlt, b2, Bool.false_eq_true, if_false]
      apply ih
      · simp only [b_failed]
        exact hf
      · intro i hi
        simp only [b_niter] at hi
        apply hok
        split at hi <;> omega
    · simp only [mainLoop, if_neg hlt]
      exact hf

/-- The observer set-up leaves the armed bit of the ledger as it is. -/
theorem aiObserverInit_armed (handle_null : Bool) (n_nodes : Nat) (hidden_mode : Bool)
    (nodes_ret : Nat) (register_ok : Bool) (h : Heap) (o : ObsState) :
    (aiObserverInit handle_null n_nodes hidden_mode nodes_ret register_ok h o).1.ia.cfg &&& 1
      = h.ia.cfg &&& 1 := by
  unfold aiObserverInit
  split
  · rfl
  · split
    · rfl
    · simp only
      split
      · rw [wrap_malloc_cfg, or_and_one _ 2 (by decide)]
      · split
        · rw [wrap_free_cfg, or_and_one _ 4 (by decide), wrap_malloc_cfg,
            or_and_one _ 2 (by decide)]
        · rw [wrap_malloc_cfg, or_and_one _ 2 (by decide)]

/-- The loop is entered with the ledger disarmed. -/
theorem start_disarmed (env : TestEnv) (g0 : Globals) :
    (env.start g0).g.heap.ia.cfg &&& 1 = 0 := by
  have h := aiObserverInit_armed env.handle_null env.n_nodes env.hidden_mode env.nodes_ret
    env.register_ok ⟨zeroLedger, fillStack env.stack g0.heap.mem⟩ g0.obs
  simp only [TestEnv.start]
  rw [h]
  show zeroLedger.cfg &&& 1 = 0
  decide


/-- The ledger after `__wrap_free` of a non-null pointer while armed: the
call is counted and the size read from the header is released. -/
theorem wrap_free_counted (h : Heap) (p : Nat) (hp : p ≠ 0) (ha : h.ia.cfg &&& 1 = 1) :
    (__wrap_free h p).ia =
      { h.ia with
        cfg := h.ia.cfg ||| 4
        free_req := (h.ia.free_req + 1) % U32
        free := (h.ia.free + h.mem (sub32 p 4)) % U32
        used := sub32 h.ia.used (h.mem (sub32 p 4)) } := by
  have harm : (h.ia.cfg ||| 4) &&& 1 ≠ 0 := by
    rw [or_and_one _ 4 (by decide), ha]
    decide
  simp only [__wrap_free, if_neg hp, if_pos harm]

/-- The heap a defined call of `aiTestPerformance` leaves when the observer
was set up: the one the loop left, after `aiObserverDone` released the
sequence of the observer with `free`. -/
theorem result_heap (env : TestEnv) (g0 : Globals) (res : PerfResult)
    (hh : env.handle_null = false)
    (hio : ¬ (env.n_inputs > env.IN_NUM ∨ env.n_outputs > env.OUT_NUM))
    (hn : env.n_nodes ≠ 0) (hp : (env.afterLoop g0).g.obs.nodes_ptr ≠ 0)
    (h : aiTestPerformance env g0 = some res) :
    res.g.heap = __wrap_free (env.afterLoop g0).g.heap (env.afterLoop g0).g.obs.nodes_ptr := by
  unfold aiTestPerformance at h
  rw [if_neg (by simp [hh]), if_neg hio] at h
  simp only at h
  split at h
  · cases h
  · split at h
    · cases h
    · split at h
      · cases h
      · rename_i d hd
        simp only [Option.some.injEq] at h
        subst h
        show d.2.1 = _
        unfold aiObserverDone at hd
        rw [if_neg (by simp [hh, hn, hp])] at hd
        split at hd
        · cases hd
        · split at hd
          · split at hd
            · cases hd
            · split at hd
              · simp only [Option.some.injEq] at hd
                subst hd
                rfl
              · cases hd
          · cases hd


/-- C22. Armed bit of the ledger once the loop has ended: when call `k` is
the first to fail, the `break` leaves bit 0 of `ia_malloc.cfg` set, so that
a later `free` of a non-null pointer is counted, and so is the release of
the sequence of the observer by `aiObserverDone`; when every run within
`niter` succeeds (the loop completes or is cut short by the safety ceiling)
the bit is clear. -/
theorem ledger_armed_after_failed_run (env : TestEnv) (g0 : Globals) :
    (∀ k, 1 ≤ k → k ≤ env.niter →
      (∀ i, i < k - 1 → (env.runs i).batch = 1) →
      (env.runs (k - 1)).batch ≠ 1 →
      (env.profiling_mode = true ∨
        ∀ i, i < k - 1 → secondsOf env.fcpu ((env.runs i).tend env.fcpu g0.cc) ≤ 10) →
      (env.afterLoop g0).g.heap.ia.cfg &&& 1 = 1 ∧
      (∀ p, p ≠ 0 →
        (__wrap_free (env.afterLoop g0).g.heap p).ia.free_req
          = ((env.afterLoop g0).g.heap.ia.free_req + 1) % U32 ∧
        (__wrap_free (env.afterLoop g0).g.heap p).ia.free
          = ((env.afterLoop g0).g.heap.ia.free
              + (env.afterLoop g0).g.heap.mem (sub32 p 4)) % U32 ∧
        (__wrap_free (env.afterLoop g0).g.heap p).ia.used
          = sub32 (env.afterLoop g0).g.heap.ia.used
              ((env.afterLoop g0).g.heap.mem (sub32 p 4))) ∧
      (∀ res, aiTestPerformance env g0 = some res → env.handle_null = false →
        ¬ (env.n_inputs > env.IN_NUM ∨ env.n_outputs > env.OUT_NUM) →
        env.n_nodes ≠ 0 → (env.afterLoop g0).g.obs.nodes_ptr ≠ 0 →
        res.g.heap.ia.free_req = ((env.afterLoop g0).g.heap.ia.free_req + 1) % U32)) ∧
    ((∀ i, i < env.niter → (env.runs i).batch = 1) →
      (env.afterLoop g0).g.heap.ia.cfg &&& 1 = 0) := by
  have hbit := mainLoop_armed env.fcpu env.profiling_mode env.POST_EVT env.runs env.niter
    (env.start g0) rfl (start_disarmed env g0)
  constructor
  · intro k hk1 hk hok hfail hceil
    have hmain := mainLoop_abort env.fcpu env.profiling_mode env.POST_EVT env.runs g0.cc k
      hok hfail hceil (k - 1) 0 env.niter (env.start g0) (by omega) (by omega) rfl hk rfl
      (Nat.le_refl _) (show (0 : Nat) < U64 by decide)
    have hfailed : (env.afterLoop g0).run_failed = true := hmain.2.2.1
    have harmed : (env.afterLoop g0).g.heap.ia.cfg &&& 1 = 1 := by
      rw [TestEnv.afterLoop] at hfailed ⊢
      rw [hbit, if_pos hfailed]
    refine ⟨harmed, ?_, ?_⟩
    · intro p hp
      rw [wrap_free_counted _ p hp harmed]
      exact ⟨rfl, rfl, rfl⟩
    · intro res hres hh hio hn hptr
      rw [result_heap env g0 res hh hio hn hptr hres, wrap_free_counted _ _ hptr harmed]
  · intro hall
    have hnf := mainLoop_no_failure env.fcpu env.profiling_mode env.POST_EVT env.runs env.niter
      (env.start g0) rfl hall
    rw [TestEnv.afterLoop, hbit, hnf]
    rfl

/-- Witness of C22: in the sample test with the fifth call failing the loop
ends with `cfg = 7`, armed, and the release of the sequence of the observer
moves `free_req` from the 5 of the report to 6, `free` from 120 to 136 and
`used` from 0 to `2 ^ 32 - 16`; with all 16 calls successful the loop ends
disarmed and the ledger stays as reported. -/
theorem ledger_armed_after_failed_run_witness :
    (5 ≤ (sampleEnv 4 0xB0 20000 0xA8).niter ∧
      (∀ i, i < 5 - 1 → ((sampleEnv 4 0xB0 20000 0xA8).runs i).batch = 1) ∧
      ((sampleEnv 4 0xB0 20000 0xA8).runs (5 - 1)).batch ≠ 1) ∧
    ((sampleEnv 4 0xB0 20000 0xA8).afterLoop sampleGlobals).g.heap.ia.cfg &&& 1 = 1 ∧
    (aiTestPerformance (sampleEnv 4 0xB0 20000 0xA8) sampleGlobals).map
      (fun r => (r.report.map (fun p => p.used_heap), r.g.heap.ia))
      = some (some ⟨7, 120, 120, 5, 5, 24, 0⟩, ⟨7, 120, 136, 5, 6, 24, 4294967280⟩) ∧
    ((sampleEnv 100 0xB0 20000 0xA8).afterLoop sampleGlobals).g.heap.ia.cfg &&& 1 = 0 ∧
    (aiTestPerformance (sampleEnv 100 0xB0 20000 0xA8) sampleGlobals).map
      (fun r => (r.report.map (fun p => p.used_heap), r.g.heap.ia))
      = some (some ⟨6, 384, 384, 16, 16, 24, 0⟩, ⟨6, 384, 384, 16, 16, 24, 0⟩) :=
  ⟨⟨by decide, by decide, by decide⟩,
    ((ledger_armed_after_failed_run (sampleEnv 4 0xB0 20000 0xA8) sampleGlobals).1 5
      (by decide) (by decide) (by decide) (by decide) (Or.inr (by decide))).1,
    by decide,
    (ledger_armed_after_failed_run (sampleEnv 100 0xB0 20000 0xA8) sampleGlobals).2
      (by decide),
    by decide⟩


/-! ## Theorems about the report after an aborted loop -/

/-- A call of `aiTestPerformance` that got past its set-up checks is
defined and prints its report when at least one iteration completed, the
operation count is not zero and the teardown of the observer is defined. -/
theorem aiTestPerformance_defined (env : TestEnv) (g0 : Globals)
    (hh : env.handle_null = false)
    (hio : ¬ (env.n_inputs > env.IN_NUM ∨ env.n_outputs > env.OUT_NUM))
    (hiter : (env.afterLoop g0).iter ≠ 0) (hmacc : env.n_macc ≠ 0)
    (hobs : (aiObserverDone env.handle_null env.n_nodes env.node_rows
      (env.afterLoop g0).g.heap (env.afterLoop g0).g.obs).isSome = true) :
    ∃ res rep, aiTestPerformance env g0 = some res ∧ res.report = some rep := by
  have hc : (correctStats (env.afterLoop g0).iter (env.afterLoop g0).g.obs.ctx.u_dur_t
      (env.afterLoop g0).tmin (env.afterLoop g0).tmax (env.afterLoop g0).tcumul).isSome
      = true := by
    rw [correctStats_isSome]
    simp only [decide_eq_true_eq]
    exact hiter
  obtain ⟨stats, hstats⟩ := Option.isSome_iff_exists.1 hc
  obtain ⟨d, hd⟩ := Option.isSome_iff_exists.1 hobs
  have hfig : ∃ fig, figures env.fcpu env.n_macc stats = some fig := by
    simp only [figures, udiv, if_neg hmacc]
    exact ⟨_, rfl⟩
  obtain ⟨fig, hfig⟩ := hfig
  unfold aiTestPerformance
  rw [if_neg (by simp [hh]), if_neg hio]
  simp only [hstats, hfig, hd]
  exact ⟨_, _, rfl, rfl⟩

/-- C11. Early abort on run failure: for `1 ≤ k ≤ niter`, when the first
`k - 1` calls of the workload succeed (none of them reaching the 10 s
ceiling outside profiling mode, so that call `k` is made) and call `k` does
not, the loop of `aiTestPerformance` makes exactly `k` calls and ends with
`iter = k - 1` and with `tmin`, `tmax` and `tcumul` the minimum, maximum and
sum (in 64 bits) of the first `k - 1` measured durations. For `k ≥ 2` the
report is printed, provided the operation count is not zero and the
teardown of the observer is defined, and shows `k` calls, `k - 1`
inferences and these raw statistics. For `k = 1` no report is printed: the
division by `iter = 0` of line 1210 comes before the report, and the call
is undefined. -/
theorem early_abort_on_failure (env : TestEnv) (g0 : Globals) (k : Nat)
    (hk1 : 1 ≤ k) (hk : k ≤ env.niter)
    (hok : ∀ i, i < k - 1 → (env.runs i).batch = 1)
    (hfail : (env.runs (k - 1)).batch ≠ 1)
    (hceil : env.profiling_mode = true ∨
      ∀ i, i < k - 1 → secondsOf env.fcpu ((env.runs i).tend env.fcpu g0.cc) ≤ 10) :
    (env.afterLoop g0).run_calls = k ∧
    (env.afterLoop g0).iter = k - 1 ∧
    (env.afterLoop g0).run_failed = true ∧
    (env.afterLoop g0).tmin = minOf (measured env.fcpu g0.cc env.runs (k - 1)) ∧
    (env.afterLoop g0).tmax = maxOf (measured env.fcpu g0.cc env.runs (k - 1)) ∧
    (env.afterLoop g0).tcumul = (measured env.fcpu g0.cc env.runs (k - 1)).sum % U64 ∧
    (∀ res rep, aiTestPerformance env g0 = some res → res.report = some rep →
      rep.run_calls = k ∧ rep.inferences = k - 1 ∧ rep.run_failed = true ∧
      rep.raw_tmin = minOf (measured env.fcpu g0.cc env.runs (k - 1)) ∧
      rep.raw_tmax = maxOf (measured env.fcpu g0.cc env.runs (k - 1)) ∧
      rep.raw_tcumul = (measured env.fcpu g0.cc env.runs (k - 1)).sum % U64) ∧
    (env.handle_null = false →
      ¬ (env.n_inputs > env.IN_NUM ∨ env.n_outputs > env.OUT_NUM) →
      (k = 1 → aiTestPerformance env g0 = none) ∧
      (2 ≤ k → env.n_macc ≠ 0 →
        (aiObserverDone env.handle_null env.n_nodes env.node_rows
          (env.afterLoop g0).g.heap (env.afterLoop g0).g.obs).isSome = true →
        ∃ res rep, aiTestPerformance env g0 = some res ∧ res.report = some rep ∧
          rep.run_calls = k ∧ rep.inferences = k - 1 ∧ rep.run_failed = true ∧
          rep.raw_tmin = minOf (measured env.fcpu g0.cc env.runs (k - 1)) ∧
          rep.raw_tmax = maxOf (measured env.fcpu g0.cc env.runs (k - 1)) ∧
          rep.raw_tcumul = (measured env.fcpu g0.cc env.runs (k - 1)).sum % U64)) := by
  obtain ⟨e1, e2, e3, e4, e5, e6⟩ := afterLoop_abort env g0 k hk1 hk hok hfail hceil
  have hrep : ∀ res rep, aiTestPerformance env g0 = some res → res.report = some rep →
      rep.run_calls = k ∧ rep.inferences = k - 1 ∧ rep.run_failed = true ∧
      rep.raw_tmin = minOf (measured env.fcpu g0.cc env.runs (k - 1)) ∧
      rep.raw_tmax = maxOf (measured env.fcpu g0.cc env.runs (k - 1)) ∧
      rep.raw_tcumul = (measured env.fcpu g0.cc env.runs (k - 1)).sum % U64 := by
    intro res rep hres hr
    obtain ⟨_, r1, r2, r3, r4, r5, r6, _⟩ := report_of_loop env g0 res rep hres hr
    rw [r1, r2, r3, r4, r5, r6]
    exact ⟨e1, e2, e3, e4, e5, e6⟩
  refine ⟨e1, e2, e3, e4, e5, e6, hrep, ?_⟩
  intro hh hio
  constructor
  · intro h1
    apply aiTestPerformance_none_of_correctStats env g0 hh hio
    have hz : (env.afterLoop g0).iter = 0 := by omega
    have hs := correctStats_isSome (env.afterLoop g0).iter (env.afterLoop g0).g.obs.ctx.u_dur_t
      (env.afterLoop g0).tmin (env.afterLoop g0).tmax (env.afterLoop g0).tcumul
    simp only [hz, ne_eq, not_true_eq_false, decide_False] at hs
    rw [hz]
    exact Option.not_isSome_iff_eq_none.1 (by simp [hs])
  · intro h2 hmacc hobs
    obtain ⟨res, rep, hres, hr⟩ :=
      aiTestPerformance_defined env g0 hh hio (by omega) hmacc hobs
    exact ⟨res, rep, hres, hr, hrep res rep hres hr⟩

/-- Witness of C11: in the sample test with the fifth call failing, five
calls are made, the loop ends with `iter = 4` and the report shows five
calls and four inferences; with the first call failing no report is
printed. -/
theorem early_abort_on_failure_witness :
    (5 ≤ (sampleEnv 4 0xB0 20000 0xA8).niter ∧
      (∀ i, i < 5 - 1 → ((sampleEnv 4 0xB0 20000 0xA8).runs i).batch = 1) ∧
      ((sampleEnv 4 0xB0 20000 0xA8).runs (5 - 1)).batch ≠ 1 ∧
      (∀ i, i < 5 - 1 → secondsOf (sampleEnv 4 0xB0 20000 0xA8).fcpu
        (((sampleEnv 4 0xB0 20000 0xA8).runs i).tend (sampleEnv 4 0xB0 20000 0xA8).fcpu
          sampleGlobals.cc) ≤ 10)) ∧
    (((sampleEnv 4 0xB0 20000 0xA8).afterLoop sampleGlobals).run_calls = 5 ∧
      ((sampleEnv 4 0xB0 20000 0xA8).afterLoop sampleGlobals).iter = 5 - 1) ∧
    (∃ res rep, aiTestPerformance (sampleEnv 4 0xB0 20000 0xA8) sampleGlobals = some res ∧
      res.report = some rep ∧ rep.run_calls = 5 ∧ rep.inferences = 5 - 1) ∧
    (((sampleEnv 0 0xB0 20000 0xA8).runs (1 - 1)).batch ≠ 1 ∧
      aiTestPerformance (sampleEnv 0 0xB0 20000 0xA8) sampleGlobals = none) :=
  ⟨⟨by decide, by decide, by decide, by decide⟩,
    ⟨(early_abort_on_failure (sampleEnv 4 0xB0 20000 0xA8) sampleGlobals 5 (by decide)
        (by decide) (by decide) (by decide) (Or.inr (by decide))).1,
      (early_abort_on_failure (sampleEnv 4 0xB0 20000 0xA8) sampleGlobals 5 (by decide)
        (by decide) (by decide) (by decide) (Or.inr (by decide))).2.1⟩,
    (fun ⟨res, rep, h1, h2, h3, h4, _⟩ => ⟨res, rep, h1, h2, h3, h4⟩)
      (((early_abort_on_failure (sampleEnv 4 0xB0 20000 0xA8) sampleGlobals 5 (by decide)
        (by decide) (by decide) (by decide) (Or.inr (by decide))).2.2.2.2.2.2.2
          (by decide) (by decide)).2 (by decide) (by decide) (by decide)),
    ⟨by decide,
      ((early_abort_on_failure (sampleEnv 0 0xB0 20000 0xA8) sampleGlobals 1 (by decide)
        (by decide) (by decide) (by decide) (Or.inr (by decide))).2.2.2.2.2.2.2
          (by decide) (by decide)).1 rfl⟩⟩

end AiSystemPerformance
